import Mathlib

/-! # Weak cells and finalization groups (`js-weak-refs-inl.h`)

A shallow embedding of the list bookkeeping of `JSFinalizationGroup` and
`WeakCell`.

* A heap reference that is either `undefined` or a `WeakCell` is an
  `Option Nat`: `none` is `undefined`, `some a` is the weak cell at address `a`.
  So `x.IsWeakCell()` is `x ≠ none` and `x.IsUndefined()` is `x = none`.
* A `JSReceiver` (target, unregister token) is named by its identity, a `Nat`;
  holdings are an opaque `Nat`.
* The heap holds every weak cell, every finalization group and the identity
  hash of every receiver.
* The functions follow the debug build: a failing `DCHECK` or checked cast
  stops the function with a `Fault`.
* Identity hashes are non-negative Smis, so `uint32_t key = Smi::ToInt(hash)`
  keeps the value and the key is the hash itself.
-/

namespace V8

/-- Ways in which a function of the model stops without a result. -/
inductive Fault where
  | dcheck
  | cast
  | fuel
  deriving DecidableEq, Repr

/-- The fields of a `WeakCell`. -/
structure WeakCell where
  finalization_group : Nat
  target : Option Nat
  holdings : Nat
  prev : Option Nat
  next : Option Nat
  unregister_token : Option Nat
  key_list_prev : Option Nat
  key_list_next : Option Nat
  deriving DecidableEq, Repr

/-- Modelled from the spec: the identity-hash key map (`SimpleNumberDictionary`),
"mapping from a 32-bit key to one value slot; supports find/insert/update/delete";
its code is not part of this file. A found slot is named by its key, and the
value stored in a slot is always a weak cell. -/
abbrev SimpleNumberDictionary := Nat → Option Nat

/-- Modelled from the spec: `SimpleNumberDictionary::New`, a map without entries. -/
def SimpleNumberDictionary.New : SimpleNumberDictionary := fun _ => none

/-- Modelled from the spec: `find(hash) -> slot-or-absent`. -/
def SimpleNumberDictionary.FindEntry (d : SimpleNumberDictionary) (key : Nat) : Option Nat :=
  if (d key).isSome then some key else none

/-- Modelled from the spec: `valueAt(slot)`. -/
def SimpleNumberDictionary.ValueAt (d : SimpleNumberDictionary) (entry : Nat) : Option Nat :=
  d entry

/-- Modelled from the spec: `insertOrGrow(hash, value) -> map'`, insert or overwrite. -/
def SimpleNumberDictionary.Set (d : SimpleNumberDictionary) (key value : Nat) :
    SimpleNumberDictionary :=
  fun k => if k = key then some value else d k

/-- Modelled from the spec: `setValueAt(slot, value)`. -/
def SimpleNumberDictionary.ValueAtPut (d : SimpleNumberDictionary) (entry value : Nat) :
    SimpleNumberDictionary :=
  fun k => if k = entry then some value else d k

/-- Modelled from the spec: `delete(slot)` as done by `ClearEntry` followed by
`ElementRemoved` (the element count is not modelled). -/
def SimpleNumberDictionary.ClearEntry (d : SimpleNumberDictionary) (entry : Nat) :
    SimpleNumberDictionary :=
  fun k => if k = entry then none else d k

/-- Modelled from the spec: `delete(slot)` as done by `DeleteEntry` (shrinking is
internal to the map). -/
def SimpleNumberDictionary.DeleteEntry (d : SimpleNumberDictionary) (entry : Nat) :
    SimpleNumberDictionary :=
  fun k => if k = entry then none else d k

/-- The fields of a `JSFinalizationGroup` that the list code reads and writes.
`key_map = none` is the `undefined` key map. -/
structure JSFinalizationGroup where
  active_cells : Option Nat
  cleared_cells : Option Nat
  key_map : Option SimpleNumberDictionary

/-- The heap: weak cells by address, finalization groups by identity, the
identity hash stored in each receiver (`none`: no hash yet), and the address
that `NewWeakCell` hands out next. -/
structure Heap where
  cells : Nat → WeakCell
  groups : Nat → JSFinalizationGroup
  hashes : Nat → Option Nat
  next_cell : Nat

/-- The object that contains a written slot. -/
inductive HeapObject where
  | weakCell (a : Nat)
  | finalizationGroup (g : Nat)
  | keyMap (g : Nat)
  deriving DecidableEq, Repr

/-- The field (`ObjectSlot`) a slot-update notification or a recorded write names. -/
inductive ObjectSlot where
  | kTargetOffset
  | kPrevOffset
  | kNextOffset
  | kKeyListPrevOffset
  | kKeyListNextOffset
  | kActiveCellsOffset
  | kClearedCellsOffset
  | valueAt (entry : Nat)
  deriving DecidableEq, Repr

/-- Function update at one address. -/
def upd {α : Type} (f : Nat → α) (a : Nat) (v : α) : Nat → α :=
  fun b => if b = a then v else f b

namespace Heap

/-- Modelled from the spec: the accessor `WeakCell::set_finalization_group` of the object macros, a
plain write of the field `finalization_group` of the cell at `a`. -/
def set_finalization_group (s : Heap) (a : Nat) (v : Nat) : Heap :=
  { s with cells := upd s.cells a { s.cells a with finalization_group := v } }

/-- Modelled from the spec: the accessor `WeakCell::set_target` of the object macros, a
plain write of the field `target` of the cell at `a`. -/
def set_target (s : Heap) (a : Nat) (v : Option Nat) : Heap :=
  { s with cells := upd s.cells a { s.cells a with target := v } }

/-- Modelled from the spec: the accessor `WeakCell::set_holdings` of the object macros, a
plain write of the field `holdings` of the cell at `a`. -/
def set_holdings (s : Heap) (a : Nat) (v : Nat) : Heap :=
  { s with cells := upd s.cells a { s.cells a with holdings := v } }

/-- Modelled from the spec: the accessor `WeakCell::set_prev` of the object macros, a
plain write of the field `prev` of the cell at `a`. -/
def set_prev (s : Heap) (a : Nat) (v : Option Nat) : Heap :=
  { s with cells := upd s.cells a { s.cells a with prev := v } }

/-- Modelled from the spec: the accessor `WeakCell::set_next` of the object macros, a
plain write of the field `next` of the cell at `a`. -/
def set_next (s : Heap) (a : Nat) (v : Option Nat) : Heap :=
  { s with cells := upd s.cells a { s.cells a with next := v } }

/-- Modelled from the spec: the accessor `WeakCell::set_unregister_token` of the object macros, a
plain write of the field `unregister_token` of the cell at `a`. -/
def set_unregister_token (s : Heap) (a : Nat) (v : Option Nat) : Heap :=
  { s with cells := upd s.cells a { s.cells a with unregister_token := v } }

/-- Modelled from the spec: the accessor `WeakCell::set_key_list_prev` of the object macros, a
plain write of the field `key_list_prev` of the cell at `a`. -/
def set_key_list_prev (s : Heap) (a : Nat) (v : Option Nat) : Heap :=
  { s with cells := upd s.cells a { s.cells a with key_list_prev := v } }

/-- Modelled from the spec: the accessor `WeakCell::set_key_list_next` of the object macros, a
plain write of the field `key_list_next` of the cell at `a`. -/
def set_key_list_next (s : Heap) (a : Nat) (v : Option Nat) : Heap :=
  { s with cells := upd s.cells a { s.cells a with key_list_next := v } }

/-- Modelled from the spec: the accessor `JSFinalizationGroup::set_active_cells` of the object
macros, a plain write of the field `active_cells` of the group `g`. -/
def set_active_cells (s : Heap) (g : Nat) (v : Option Nat) : Heap :=
  { s with groups := upd s.groups g { s.groups g with active_cells := v } }

/-- Modelled from the spec: the accessor `JSFinalizationGroup::set_cleared_cells` of the object
macros, a plain write of the field `cleared_cells` of the group `g`. -/
def set_cleared_cells (s : Heap) (g : Nat) (v : Option Nat) : Heap :=
  { s with groups := upd s.groups g { s.groups g with cleared_cells := v } }

/-- Modelled from the spec: the accessor `JSFinalizationGroup::set_key_map` of the object
macros, a plain write of the field `key_map` of the group `g`. -/
def set_key_map (s : Heap) (g : Nat) (v : Option SimpleNumberDictionary) : Heap :=
  { s with groups := upd s.groups g { s.groups g with key_map := v } }

/-- Modelled from the spec: `Object::GetHash` (identity hashes are assigned outside this
file), the identity hash of a receiver, `none` when it has none. -/
def GetHash (s : Heap) (o : Nat) : Option Nat := s.hashes o

/-- Modelled from the spec: `Object::GetOrCreateHash`, "assignment of a fresh identity hash
to an object lacking one": the identity hash of a receiver; a receiver
without one gets `fresh`, the value the isolate generates, stored in it. -/
def GetOrCreateHash (s : Heap) (o : Nat) (fresh : Nat) : Nat × Heap :=
  match s.hashes o with
  | some h => (h, s)
  | none => (fresh, { s with hashes := upd s.hashes o (some fresh) })

/-- Modelled from the spec: `Factory::NewWeakCell`, which "allocates a new WeakCell": a
fresh address. -/
def NewWeakCell (s : Heap) : Nat × Heap :=
  (s.next_cell, { s with next_cell := s.next_cell + 1 })

end Heap

/-- Embedding of `JSFinalizationGroup::Register`. `unregister_token = none` is the undefined
token; `fresh_hash` is the identity hash the isolate would generate. -/
def JSFinalizationGroup.Register (s : Heap) (finalization_group target holdings : Nat)
    (unregister_token : Option Nat) (fresh_hash : Nat) : Except Fault Heap :=
  let weak_cell := s.NewWeakCell.1
  let s := s.NewWeakCell.2
  let s := s.set_finalization_group weak_cell finalization_group
  let s := s.set_target weak_cell (some target)
  let s := s.set_holdings weak_cell holdings
  let s := s.set_prev weak_cell none
  let s := s.set_next weak_cell none
  let s := s.set_unregister_token weak_cell unregister_token
  let s := s.set_key_list_prev weak_cell none
  let s := s.set_key_list_next weak_cell none
  -- Add to active_cells.
  let s := s.set_next weak_cell (s.groups finalization_group).active_cells
  let s := match (s.groups finalization_group).active_cells with
    | some head => s.set_prev head (some weak_cell)
    | none => s
  let s := s.set_active_cells finalization_group (some weak_cell)
  match unregister_token with
  | none => .ok s
  | some token =>
    let key_map : SimpleNumberDictionary :=
      match (s.groups finalization_group).key_map with
      | none => SimpleNumberDictionary.New
      | some d => d
    let key := (s.GetOrCreateHash token fresh_hash).1
    let s := (s.GetOrCreateHash token fresh_hash).2
    let r : Except Fault Heap :=
      match key_map.FindEntry key with
      | some entry =>
        match key_map.ValueAt entry with
        | some existing_weak_cell =>
          let s := s.set_key_list_prev existing_weak_cell (some weak_cell)
          .ok (s.set_key_list_next weak_cell (some existing_weak_cell))
        | none => .error .cast
      | none => .ok s
    r.bind fun s =>
    let key_map := key_map.Set key weak_cell
    .ok (s.set_key_map finalization_group (some key_map))

/-- Embedding of `WeakCell::RemoveFromFinalizationGroupCells`. -/
def WeakCell.RemoveFromFinalizationGroupCells (s : Heap) (this : Nat) : Except Fault Heap :=
  -- DCHECK(target().IsUndefined() || target().IsJSReceiver()) holds for every target.
  let s := s.set_target this none
  let fg := (s.cells this).finalization_group
  let r : Except Fault Heap :=
    if (s.groups fg).active_cells = some this then
      if (s.cells this).prev ≠ none then .error .dcheck
      else .ok (s.set_active_cells fg (s.cells this).next)
    else if (s.groups fg).cleared_cells = some this then
      if (s.cells this).prev ≠ none then .error .dcheck
      else .ok (s.set_cleared_cells fg (s.cells this).next)
    else
      match (s.cells this).prev with
      | none => .error .dcheck
      | some prev_cell => .ok (s.set_next prev_cell (s.cells this).next)
  r.bind fun s =>
  let s := match (s.cells this).next with
    | some next_cell => s.set_prev next_cell (s.cells this).prev
    | none => s
  let s := s.set_prev this none
  .ok (s.set_next this none)

/-- The `while` loop of `JSFinalizationGroup::RemoveUnregisterToken`; `fuel`
bounds the number of iterations. The result is the heap, `was_present`,
`new_key_list_head` and the notifier's state. -/
def JSFinalizationGroup.RemoveUnregisterToken.loop {ν : Type} (unregister_token : Nat)
    (match_callback : Heap → Nat → Except Fault Heap)
    (gc_notify_updated_slot : ν → HeapObject → ObjectSlot → Option Nat → ν) :
    Nat → Heap → Option Nat → Bool → Option Nat → Option Nat → ν →
      Except Fault (Heap × Bool × Option Nat × ν)
  | _, s, none, was_present, new_key_list_head, _, n =>
    .ok (s, was_present, new_key_list_head, n)
  | 0, _, some _, _, _, _, _ => .error .fuel
  | fuel + 1, s, some weak_cell, was_present, new_key_list_head, new_key_list_prev, n =>
    let value := (s.cells weak_cell).key_list_next
    if (s.cells weak_cell).unregister_token = some unregister_token then
      (match_callback s weak_cell).bind fun s =>
      let s := s.set_key_list_prev weak_cell none
      let s := s.set_key_list_next weak_cell none
      loop unregister_token match_callback gc_notify_updated_slot
        fuel s value true new_key_list_head new_key_list_prev n
    else
      let s := s.set_key_list_prev weak_cell new_key_list_prev
      let n := gc_notify_updated_slot n (.weakCell weak_cell) .kKeyListPrevOffset
        new_key_list_prev
      let s := s.set_key_list_next weak_cell none
      match new_key_list_prev with
      | none =>
        loop unregister_token match_callback gc_notify_updated_slot
          fuel s value was_present (some weak_cell) (some weak_cell) n
      | some prev_cell =>
        if new_key_list_head = none then .error .dcheck
        else
          let s := s.set_key_list_next prev_cell (some weak_cell)
          let n := gc_notify_updated_slot n (.weakCell prev_cell) .kKeyListNextOffset
            (some weak_cell)
          loop unregister_token match_callback gc_notify_updated_slot
            fuel s value was_present new_key_list_head (some weak_cell) n

/-- Embedding of `JSFinalizationGroup::RemoveUnregisterToken` on the group `this`. The
dictionary is changed in place in the source; here the changed dictionary is
stored back into the group. -/
def JSFinalizationGroup.RemoveUnregisterToken {ν : Type} (fuel : Nat) (s : Heap) (this : Nat)
    (unregister_token : Nat) (match_callback : Heap → Nat → Except Fault Heap)
    (gc_notify_updated_slot : ν → HeapObject → ObjectSlot → Option Nat → ν) (n : ν) :
    Except Fault (Bool × Heap × ν) :=
  match (s.groups this).key_map with
  | none => .ok (false, s, n)
  | some key_map =>
    match s.GetHash unregister_token with
    | none => .ok (false, s, n)
    | some key =>
      match key_map.FindEntry key with
      | none => .ok (false, s, n)
      | some entry =>
        let value := key_map.ValueAt entry
        (JSFinalizationGroup.RemoveUnregisterToken.loop unregister_token match_callback
            gc_notify_updated_slot fuel s value false none none n).bind
          fun (s, was_present, new_key_list_head, n) =>
          match new_key_list_head with
          | none =>
            if was_present = false then .error .dcheck
            else .ok (was_present, s.set_key_map this (some (key_map.ClearEntry entry)), n)
          | some head =>
            let s := s.set_key_map this (some (key_map.ValueAtPut entry head))
            let n := gc_notify_updated_slot n (.keyMap this) (.valueAt entry) (some head)
            .ok (was_present, s, n)

/-- Embedding of `JSFinalizationGroup::Unregister`: the shared routine with
`RemoveFromFinalizationGroupCells` as match action and a notifier that does
nothing. -/
def JSFinalizationGroup.Unregister (fuel : Nat) (s : Heap) (finalization_group : Nat)
    (unregister_token : Nat) : Except Fault (Bool × Heap) :=
  (JSFinalizationGroup.RemoveUnregisterToken fuel s finalization_group unregister_token
      WeakCell.RemoveFromFinalizationGroupCells
      (fun (_ : Unit) (_ : HeapObject) (_ : ObjectSlot) (_ : Option Nat) => ()) ()).map
    fun r => (r.1, r.2.1)

/-- Embedding of `JSFinalizationGroup::NeedsCleanup`. -/
def JSFinalizationGroup.NeedsCleanup (s : Heap) (this : Nat) : Bool :=
  (s.groups this).cleared_cells.isSome

/-- Embedding of `JSFinalizationGroup::PopClearedCellHoldings`: the holdings and the heap. -/
def JSFinalizationGroup.PopClearedCellHoldings (s : Heap) (finalization_group : Nat) :
    Except Fault (Nat × Heap) :=
  match (s.groups finalization_group).cleared_cells with
  | none => .error .cast
  | some weak_cell =>
    if (s.cells weak_cell).prev ≠ none then .error .dcheck
    else
      let s := s.set_cleared_cells finalization_group (s.cells weak_cell).next
      let s := s.set_next weak_cell none
      let r : Except Fault Heap :=
        match (s.groups finalization_group).cleared_cells with
        | some cleared_cells_head =>
          if (s.cells cleared_cells_head).prev ≠ some weak_cell then .error .dcheck
          else .ok (s.set_prev cleared_cells_head none)
        | none => .ok s
      r.bind fun s =>
      -- Also remove the WeakCell from the key_map (if it's there).
      let r : Except Fault Heap :=
        match (s.cells weak_cell).unregister_token with
        | none => .ok s
        | some unregister_token =>
          match (s.cells weak_cell).key_list_prev with
          | none =>
            match (s.groups finalization_group).key_map with
            | none => .error .cast
            | some key_map =>
              match s.GetHash unregister_token with
              | none => .error .cast
              | some key =>
                let entry := key_map.FindEntry key
                match (s.cells weak_cell).key_list_next with
                | none =>
                  match entry with
                  | none => .error .dcheck
                  | some e =>
                    .ok (s.set_key_map finalization_group (some (key_map.DeleteEntry e)))
                | some next =>
                  if (s.cells next).key_list_prev ≠ some weak_cell then .error .dcheck
                  else
                    let s := s.set_key_list_prev next none
                    let s := s.set_key_list_next weak_cell none
                    .ok (s.set_key_map finalization_group (some (key_map.Set key next)))
          | some prev =>
            let s := s.set_key_list_next prev (s.cells weak_cell).key_list_next
            match (s.cells weak_cell).key_list_next with
            | some next => .ok (s.set_key_list_prev next (s.cells weak_cell).key_list_prev)
            | none => .ok s
      r.bind fun s => .ok ((s.cells weak_cell).holdings, s)

/-- Embedding of `WeakCell::Nullify` on the cell `this`, with the slot-update notifier and
its state. -/
def WeakCell.Nullify {ν : Type} (s : Heap) (this : Nat)
    (gc_notify_updated_slot : ν → HeapObject → ObjectSlot → Option Nat → ν) (n : ν) :
    Except Fault (Heap × ν) :=
  if (s.cells this).target = none then .error .dcheck
  else
    let s := s.set_target this none
    let fg := (s.cells this).finalization_group
    let r : Except Fault (Heap × ν) :=
      match (s.cells this).prev with
      | some prev_cell =>
        if (s.groups fg).active_cells = some this then .error .dcheck
        else
          let s := s.set_next prev_cell (s.cells this).next
          .ok (s, gc_notify_updated_slot n (.weakCell prev_cell) .kNextOffset
            (s.cells this).next)
      | none =>
        if (s.groups fg).active_cells ≠ some this then .error .dcheck
        else
          let s := s.set_active_cells fg (s.cells this).next
          .ok (s, gc_notify_updated_slot n (.finalizationGroup fg) .kActiveCellsOffset
            (s.cells this).next)
    r.bind fun (s, n) =>
    let (s, n) : Heap × ν :=
      match (s.cells this).next with
      | some next_cell =>
        let s := s.set_prev next_cell (s.cells this).prev
        (s, gc_notify_updated_slot n (.weakCell next_cell) .kPrevOffset (s.cells this).prev)
      | none => (s, n)
    let s := s.set_prev this none
    let cleared_head := (s.groups fg).cleared_cells
    let (s, n) : Heap × ν :=
      match cleared_head with
      | some cleared_head_cell =>
        let s := s.set_prev cleared_head_cell (some this)
        (s, gc_notify_updated_slot n (.weakCell cleared_head_cell) .kPrevOffset (some this))
      | none => (s, n)
    let s := s.set_next this (s.groups fg).cleared_cells
    let n := gc_notify_updated_slot n (.weakCell this) .kNextOffset (s.cells this).next
    let s := s.set_cleared_cells fg (some this)
    let n := gc_notify_updated_slot n (.finalizationGroup fg) .kClearedCellsOffset (some this)
    .ok (s, n)

/-! ## Abstraction: the lists threaded through the heap -/

/-- The list `l` is the doubly linked list that starts at `h`: each cell's
`nxt` is the following cell (`none` after the last), each cell's `prv` is the
cell before it, and the first cell's `prv` is `p`. -/
def IsDList (nxt prv : Nat → Option Nat) : Option Nat → Option Nat → List Nat → Prop
  | _, h, [] => h = none
  | p, h, a :: l => h = some a ∧ prv a = p ∧ IsDList nxt prv (some a) (nxt a) l

/-- The list `l` is what following `nxt` from `h` up to `none` visits. -/
def IsSList (nxt : Nat → Option Nat) : Option Nat → List Nat → Prop
  | h, [] => h = none
  | h, a :: l => h = some a ∧ IsSList nxt (nxt a) l

instance IsDList.decide (nxt prv : Nat → Option Nat) :
    (p h : Option Nat) → (l : List Nat) → Decidable (IsDList nxt prv p h l)
  | _, h, [] => inferInstanceAs (Decidable (h = none))
  | p, h, a :: l =>
    have := IsDList.decide nxt prv (some a) (nxt a) l
    inferInstanceAs (Decidable (h = some a ∧ prv a = p ∧ IsDList nxt prv (some a) (nxt a) l))

namespace Heap

/-- The cells linked by `next`/`prev` from the head `h` are exactly `l`. -/
def CellList (s : Heap) (h : Option Nat) (l : List Nat) : Prop :=
  IsDList (fun a => (s.cells a).next) (fun a => (s.cells a).prev) none h l

/-- The cells linked by `key_list_next`/`key_list_prev` from the head `h` are exactly `l`. -/
def KeyList (s : Heap) (h : Option Nat) (l : List Nat) : Prop :=
  IsDList (fun a => (s.cells a).key_list_next) (fun a => (s.cells a).key_list_prev) none h l

/-- The active list of group `g` is `l`. -/
def ActiveList (s : Heap) (g : Nat) (l : List Nat) : Prop :=
  s.CellList (s.groups g).active_cells l

/-- The cleared list of group `g` is `l`. -/
def ClearedList (s : Heap) (g : Nat) (l : List Nat) : Prop :=
  s.CellList (s.groups g).cleared_cells l

/-- The value the key map of group `g` stores under `key`: `none` when the key
map is undefined or has no entry for `key`. -/
def keyMapAt (s : Heap) (g : Nat) (key : Nat) : Option Nat :=
  match (s.groups g).key_map with
  | none => none
  | some d => d key

/-- The collision chain of group `g` stored under `key` is `l` (`[]` when there
is no entry). -/
def Chain (s : Heap) (g : Nat) (key : Nat) (l : List Nat) : Prop :=
  s.KeyList (s.keyMapAt g key) l

end Heap

/-- The registry `g` is well formed, with active list `act`, cleared list `clr`
and collision chains `chain`. -/
structure Inv (s : Heap) (g : Nat) (act clr : List Nat) (chain : Nat → List Nat) : Prop where
  active : s.ActiveList g act
  cleared : s.ClearedList g clr
  nodup : (act ++ clr).Nodup
  bound : ∀ c ∈ act ++ clr, c < s.next_cell
  owner : ∀ c ∈ act ++ clr, (s.cells c).finalization_group = g
  target_active : ∀ c ∈ act, (s.cells c).target ≠ none
  target_cleared : ∀ c ∈ clr, (s.cells c).target = none
  hashed : ∀ c ∈ act ++ clr, ∀ t, (s.cells c).unregister_token = some t → s.hashes t ≠ none
  chains : ∀ k, s.Chain g k (chain k)
  chain_nodup : ∀ k, (chain k).Nodup
  chain_mem : ∀ k c, c ∈ chain k ↔
    c ∈ act ++ clr ∧ ∃ t, (s.cells c).unregister_token = some t ∧ s.hashes t = some k

/-- The registry `g` of heap `s` is well formed. -/
def WellFormed (s : Heap) (g : Nat) : Prop :=
  ∃ act clr chain, Inv s g act clr chain

/-- The last cell of `l`, or `p` when `l` is empty. -/
def lastOr : Option Nat → List Nat → Option Nat
  | p, [] => p
  | _, a :: l => lastOr (some a) l

/-- The key under which `Register` files a cell with the given unregister
token: the token's identity hash, `fresh` when the token has none yet, and no
key for the undefined token. -/
def registerKey (s : Heap) (unregister_token : Option Nat) (fresh : Nat) : Option Nat :=
  unregister_token.map fun t => (s.hashes t).getD fresh

/-- The heaps a registry `g` reaches from the empty registry by `Register`,
`Unregister`, `Nullify` on a cell of its active list and
`PopClearedCellHoldings` (which stops with a fault on an empty cleared list). -/
inductive Reachable (g : Nat) : Heap → Prop
  | init (s : Heap) : (s.groups g).active_cells = none → (s.groups g).cleared_cells = none →
      (s.groups g).key_map = none → Reachable g s
  | register {s s2 : Heap} (target holdings : Nat) (tok : Option Nat) (fresh : Nat) :
      Reachable g s → JSFinalizationGroup.Register s g target holdings tok fresh = .ok s2 →
      Reachable g s2
  | unregister {s s2 : Heap} (fuel token : Nat) (b : Bool) :
      Reachable g s → JSFinalizationGroup.Unregister fuel s g token = .ok (b, s2) →
      Reachable g s2
  | nullify {ν : Type} {s s2 : Heap} (c : Nat)
      (f : ν → HeapObject → ObjectSlot → Option Nat → ν) (n n2 : ν) (act : List Nat) :
      Reachable g s → s.ActiveList g act → c ∈ act → WeakCell.Nullify s c f n = .ok (s2, n2) →
      Reachable g s2
  | pop {s s2 : Heap} (holdings : Nat) :
      Reachable g s → JSFinalizationGroup.PopClearedCellHoldings s g = .ok (holdings, s2) →
      Reachable g s2

/-- Driver: `WeakCell::Nullify` applied to the cells of `cs`, one after the other. -/
def nullifyAll {ν : Type} (f : ν → HeapObject → ObjectSlot → Option Nat → ν) :
    Heap → List Nat → ν → Except Fault (Heap × ν)
  | s, [], n => .ok (s, n)
  | s, c :: cs, n => (WeakCell.Nullify s c f n).bind fun r => nullifyAll f r.1 cs r.2

/-- Driver: `PopClearedCellHoldings` called `k` times: the holdings in the order they
are returned, and the final heap. -/
def popN (g : Nat) : Nat → Heap → Except Fault (List Nat × Heap)
  | 0, s => .ok ([], s)
  | k + 1, s =>
    (JSFinalizationGroup.PopClearedCellHoldings s g).bind fun r =>
      (popN g k r.2).bind fun r2 => .ok (r.1 :: r2.1, r2.2)

/-- The result of a run that did not fault, `d` otherwise. -/
def okOr {α : Type} (d : α) : Except Fault α → α
  | .ok a => a
  | .error _ => d

/-- A notifier that records nothing. -/
def noNotify : Unit → HeapObject → ObjectSlot → Option Nat → Unit := fun _ _ _ _ => ()

/-- A heap whose registries are all empty. -/
def heap0 : Heap :=
  { cells := fun _ => ⟨0, none, 0, none, none, none, none, none⟩
    groups := fun _ => ⟨none, none, none⟩
    hashes := fun _ => none
    next_cell := 0 }

/-- Registry 0 after registering target 100 with holdings 200 and token 50, whose
identity hash becomes 7: cell 0. -/
def heap1 : Heap := okOr heap0 (JSFinalizationGroup.Register heap0 0 100 200 (some 50) 7)

/-- Then target 101 with holdings 201 and token 51, whose identity hash becomes
7 as well: cell 1. -/
def heap2 : Heap := okOr heap1 (JSFinalizationGroup.Register heap1 0 101 201 (some 51) 7)

/-- Then the target of cell 0 is collected. -/
def heap3 : Heap := (okOr (heap2, ()) (WeakCell.Nullify heap2 0 noNotify ())).1

/-- What the collision property promises in the heap `s2`, in which `cellA` and
`cellB` are registered with the colliding tokens `A` and another one:
`Unregister(A)` returns true, `cellA` leaves the active list and the chain of
key `k`, `cellB` stays active with target `tB` and holdings `hB` and stays in
the chain stored under `k`, and clearing `cellB` and popping returns `hB`. -/
def CollisionOutcome (s2 : Heap) (g A cellA cellB tB hB k fuel : Nat) : Prop :=
  ∃ s3, JSFinalizationGroup.Unregister fuel s2 g A = .ok (true, s3) ∧
    ∃ (act3 clr3 : List Nat) (chain3 : Nat → List Nat), Inv s3 g act3 clr3 chain3 ∧
      cellA ∉ act3 ∧ cellA ∉ chain3 k ∧
      cellB ∈ act3 ∧ (s3.cells cellB).target = some tB ∧ (s3.cells cellB).holdings = hB ∧
      cellB ∈ chain3 k ∧
      ∀ {ν : Type} (f : ν → HeapObject → ObjectSlot → Option Nat → ν) (n : ν),
        ∃ s4 n4, WeakCell.Nullify s3 cellB f n = .ok (s4, n4) ∧
          ∃ s5, JSFinalizationGroup.PopClearedCellHoldings s4 g = .ok (hB, s5)

/-- What a traced run records, in program order: a write of a reference field
(containing object, field, value written) or a slot-update notification
(containing object, field, value passed). -/
inductive Event where
  | write (o : HeapObject) (slot : ObjectSlot) (v : Option Nat)
  | notify (o : HeapObject) (slot : ObjectSlot) (v : Option Nat)
  deriving DecidableEq, Repr

/-- Whether an event is a notification. -/
def Event.isNotify : Event → Bool
  | .write _ _ _ => false
  | .notify _ _ _ => true

/-- The recording notifier: it appends each notification it receives to its log. -/
def recordNotifier : List Event → HeapObject → ObjectSlot → Option Nat → List Event :=
  fun log o slot v => log ++ [Event.notify o slot v]

/-- The writes of a trace that are not immediately followed by a notification
with the same object, field and value. -/
def unnotified : List Event → List Event
  | [] => []
  | .notify _ _ _ :: rest => unnotified rest
  | .write o slot v :: rest =>
    if rest.head? = some (Event.notify o slot v) then unnotified rest
    else Event.write o slot v :: unnotified rest

/-- Every write of the trace has a notification with the same object, field and
value somewhere in the trace. -/
def AllWritesNotified (tr : List Event) : Prop :=
  ∀ o slot v, Event.write o slot v ∈ tr → Event.notify o slot v ∈ tr

/-- Every write of the trace that stores a cell reference is immediately
followed by a notification with the same object, field and value. -/
def CellWritesNotified : List Event → Prop
  | [] => True
  | .write o slot (some v) :: rest =>
    rest.head? = some (Event.notify o slot (some v)) ∧ CellWritesNotified rest
  | .write _ _ none :: rest => CellWritesNotified rest
  | .notify _ _ _ :: rest => CellWritesNotified rest

/-- Embedding of `WeakCell::Nullify` that records, in program order, each field
write and each slot-update notification it performs. A notification's value
is read after the write, as in the source. -/
def WeakCell.NullifyTrace (s : Heap) (this : Nat) : Except Fault (Heap × List Event) :=
  if (s.cells this).target = none then .error .dcheck
  else
    let s := s.set_target this none
    let tr : List Event := [Event.write (.weakCell this) .kTargetOffset none]
    let fg := (s.cells this).finalization_group
    let r : Except Fault (Heap × List Event) :=
      match (s.cells this).prev with
      | some prev_cell =>
        if (s.groups fg).active_cells = some this then .error .dcheck
        else
          let v := (s.cells this).next
          let s := s.set_next prev_cell v
          .ok (s, tr ++ [Event.write (.weakCell prev_cell) .kNextOffset v,
            Event.notify (.weakCell prev_cell) .kNextOffset (s.cells this).next])
      | none =>
        if (s.groups fg).active_cells ≠ some this then .error .dcheck
        else
          let v := (s.cells this).next
          let s := s.set_active_cells fg v
          .ok (s, tr ++ [Event.write (.finalizationGroup fg) .kActiveCellsOffset v,
            Event.notify (.finalizationGroup fg) .kActiveCellsOffset (s.cells this).next])
    r.bind fun (s, tr) =>
    let (s, tr) : Heap × List Event :=
      match (s.cells this).next with
      | some next_cell =>
        let v := (s.cells this).prev
        let s := s.set_prev next_cell v
        (s, tr ++ [Event.write (.weakCell next_cell) .kPrevOffset v,
          Event.notify (.weakCell next_cell) .kPrevOffset (s.cells this).prev])
      | none => (s, tr)
    let s := s.set_prev this none
    let tr := tr ++ [Event.write (.weakCell this) .kPrevOffset none]
    let cleared_head := (s.groups fg).cleared_cells
    let (s, tr) : Heap × List Event :=
      match cleared_head with
      | some cleared_head_cell =>
        let s := s.set_prev cleared_head_cell (some this)
        (s, tr ++ [Event.write (.weakCell cleared_head_cell) .kPrevOffset (some this),
          Event.notify (.weakCell cleared_head_cell) .kPrevOffset (some this)])
      | none => (s, tr)
    let v := (s.groups fg).cleared_cells
    let s := s.set_next this v
    let tr := tr ++ [Event.write (.weakCell this) .kNextOffset v,
      Event.notify (.weakCell this) .kNextOffset (s.cells this).next]
    let s := s.set_cleared_cells fg (some this)
    let tr := tr ++ [Event.write (.finalizationGroup fg) .kClearedCellsOffset (some this),
      Event.notify (.finalizationGroup fg) .kClearedCellsOffset (some this)]
    .ok (s, tr)

/-- The `while` loop of `JSFinalizationGroup::RemoveUnregisterToken`, recording in
program order each field write the routine performs itself and each
notification; the writes of the match action are its own and are not
recorded. The trace is that of this iteration followed by that of the rest. -/
def JSFinalizationGroup.RemoveUnregisterToken.loopTrace (unregister_token : Nat)
    (match_callback : Heap → Nat → Except Fault Heap) :
    Nat → Heap → Option Nat → Bool → Option Nat → Option Nat →
      Except Fault (Heap × Bool × Option Nat × List Event)
  | _, s, none, was_present, new_key_list_head, _ =>
    .ok (s, was_present, new_key_list_head, [])
  | 0, _, some _, _, _, _ => .error .fuel
  | fuel + 1, s, some weak_cell, was_present, new_key_list_head, new_key_list_prev =>
    let value := (s.cells weak_cell).key_list_next
    if (s.cells weak_cell).unregister_token = some unregister_token then
      (match_callback s weak_cell).bind fun s =>
      let s := s.set_key_list_prev weak_cell none
      let s := s.set_key_list_next weak_cell none
      (loopTrace unregister_token match_callback
        fuel s value true new_key_list_head new_key_list_prev).bind fun r =>
      .ok (r.1, r.2.1, r.2.2.1,
        [Event.write (.weakCell weak_cell) .kKeyListPrevOffset none,
          Event.write (.weakCell weak_cell) .kKeyListNextOffset none] ++ r.2.2.2)
    else
      let s := s.set_key_list_prev weak_cell new_key_list_prev
      let s := s.set_key_list_next weak_cell none
      match new_key_list_prev with
      | none =>
        (loopTrace unregister_token match_callback
          fuel s value was_present (some weak_cell) (some weak_cell)).bind fun r =>
        .ok (r.1, r.2.1, r.2.2.1,
          [Event.write (.weakCell weak_cell) .kKeyListPrevOffset none,
            Event.notify (.weakCell weak_cell) .kKeyListPrevOffset none,
            Event.write (.weakCell weak_cell) .kKeyListNextOffset none] ++ r.2.2.2)
      | some prev_cell =>
        if new_key_list_head = none then .error .dcheck
        else
          let s := s.set_key_list_next prev_cell (some weak_cell)
          (loopTrace unregister_token match_callback
            fuel s value was_present new_key_list_head (some weak_cell)).bind fun r =>
          .ok (r.1, r.2.1, r.2.2.1,
            [Event.write (.weakCell weak_cell) .kKeyListPrevOffset (some prev_cell),
              Event.notify (.weakCell weak_cell) .kKeyListPrevOffset (some prev_cell),
              Event.write (.weakCell weak_cell) .kKeyListNextOffset none,
              Event.write (.weakCell prev_cell) .kKeyListNextOffset (some weak_cell),
              Event.notify (.weakCell prev_cell) .kKeyListNextOffset (some weak_cell)]
              ++ r.2.2.2)

/-- Embedding of `JSFinalizationGroup::RemoveUnregisterToken` that records the
writes the routine performs itself and the notifications. Clearing the entry
is recorded as a write of no value to the entry's value slot. -/
def JSFinalizationGroup.RemoveUnregisterTokenTrace (fuel : Nat) (s : Heap) (this : Nat)
    (unregister_token : Nat) (match_callback : Heap → Nat → Except Fault Heap) :
    Except Fault (Bool × Heap × List Event) :=
  match (s.groups this).key_map with
  | none => .ok (false, s, [])
  | some key_map =>
    match s.GetHash unregister_token with
    | none => .ok (false, s, [])
    | some key =>
      match key_map.FindEntry key with
      | none => .ok (false, s, [])
      | some entry =>
        let value := key_map.ValueAt entry
        (JSFinalizationGroup.RemoveUnregisterToken.loopTrace unregister_token match_callback
            fuel s value false none none).bind
          fun (s, was_present, new_key_list_head, tr) =>
          match new_key_list_head with
          | none =>
            if was_present = false then .error .dcheck
            else .ok (was_present, s.set_key_map this (some (key_map.ClearEntry entry)),
              tr ++ [Event.write (.keyMap this) (.valueAt entry) none])
          | some head =>
            let s := s.set_key_map this (some (key_map.ValueAtPut entry head))
            .ok (was_present, s,
              tr ++ [Event.write (.keyMap this) (.valueAt entry) (some head),
                Event.notify (.keyMap this) (.valueAt entry) (some head)])

/-- The heaps a registry `g` reaches from the heap `s0`, in which it is empty,
by `Register`, `Unregister`, `PopClearedCellHoldings` and `Nullify` on a cell
that `Register` created since `s0` and whose target is not undefined. -/
inductive History (g : Nat) (s0 : Heap) : Heap → Prop
  | init : (s0.groups g).active_cells = none → (s0.groups g).cleared_cells = none →
      (s0.groups g).key_map = none → History g s0 s0
  | register {s s2 : Heap} (target holdings : Nat) (tok : Option Nat) (fresh : Nat) :
      History g s0 s → JSFinalizationGroup.Register s g target holdings tok fresh = .ok s2 →
      History g s0 s2
  | unregister {s s2 : Heap} (fuel token : Nat) (b : Bool) :
      History g s0 s → JSFinalizationGroup.Unregister fuel s g token = .ok (b, s2) →
      History g s0 s2
  | nullify {ν : Type} {s s2 : Heap} (c : Nat)
      (f : ν → HeapObject → ObjectSlot → Option Nat → ν) (n n2 : ν) :
      History g s0 s → s0.next_cell ≤ c → c < s.next_cell → (s.cells c).target ≠ none →
      WeakCell.Nullify s c f n = .ok (s2, n2) → History g s0 s2
  | pop {s s2 : Heap} (holdings : Nat) :
      History g s0 s → JSFinalizationGroup.PopClearedCellHoldings s g = .ok (holdings, s2) →
      History g s0 s2

/-- Registry 0 of `heap2` after Unregister of token 50: cell 1 is left, and the
chain under key 7 still exists. -/
def heap4 : Heap := (okOr (false, heap2) (JSFinalizationGroup.Unregister 2 heap2 0 50)).2

/-- Registry 0 of `heap2` after a third registration (target 102, holdings 202,
token 50, which already has the identity hash 7): cell 2, and the chain under
key 7 is 2, 1, 0. -/
def heap6 : Heap := okOr heap2 (JSFinalizationGroup.Register heap2 0 102 202 (some 50) 9)

/-- Then the target of cell 1, the middle of the chain, is collected. -/
def heap7 : Heap := (okOr (heap6, ()) (WeakCell.Nullify heap6 1 noNotify ())).1

/-! ## General facts about linked lists -/

variable {nxt prv nxt2 prv2 : Nat → Option Nat}

theorem IsDList.congr {p h : Option Nat} {l : List Nat}
    (hn : ∀ a ∈ l, nxt2 a = nxt a) (hv : ∀ a ∈ l, prv2 a = prv a)
    (hl : IsDList nxt prv p h l) : IsDList nxt2 prv2 p h l := by
  induction l generalizing p h with
  | nil => exact hl
  | cons a l ih =>
    obtain ⟨h1, h2, h3⟩ := hl
    refine ⟨h1, ?_, ?_⟩
    · rw [hv a (List.mem_cons_self a l)]; exact h2
    · rw [hn a (List.mem_cons_self a l)]
      exact ih (fun b hb => hn b (List.mem_cons_of_mem a hb))
        (fun b hb => hv b (List.mem_cons_of_mem a hb)) h3

theorem IsDList.unique {p h : Option Nat} {l l2 : List Nat}
    (hl : IsDList nxt prv p h l) (hl2 : IsDList nxt prv p h l2) : l = l2 := by
  induction l generalizing p h l2 with
  | nil =>
    cases l2 with
    | nil => rfl
    | cons b l2 =>
      have h1 : h = none := hl
      have h2 : h = some b := hl2.1
      rw [h1] at h2; cases h2
  | cons a l ih =>
    cases l2 with
    | nil =>
      have h1 : h = none := hl2
      have h2 : h = some a := hl.1
      rw [h1] at h2; cases h2
    | cons b l2 =>
      obtain ⟨h1, _, h3⟩ := hl
      obtain ⟨g1, _, g3⟩ := hl2
      rw [h1] at g1
      cases g1
      rw [ih h3 g3]

theorem IsDList.head_eq {p h : Option Nat} {l : List Nat}
    (hl : IsDList nxt prv p h l) : h = l.head? := by
  cases l with
  | nil => exact hl
  | cons a l => exact hl.1

/-- The successor of a listed cell is listed. -/
theorem IsDList.next_mem {p h : Option Nat} {l : List Nat}
    (hl : IsDList nxt prv p h l) {c b : Nat} (hc : c ∈ l) (hb : nxt c = some b) : b ∈ l := by
  induction l generalizing p h with
  | nil => cases hc
  | cons a l ih =>
    obtain ⟨_, _, h3⟩ := hl
    rcases List.mem_cons.1 hc with rfl | hc2
    · cases l with
      | nil =>
        have : nxt c = none := h3
        rw [this] at hb; cases hb
      | cons d l =>
        have : nxt c = some d := h3.1
        rw [this] at hb; cases hb
        exact List.mem_cons_of_mem _ (List.mem_cons_self _ _)
    · exact List.mem_cons_of_mem _ (ih h3 hc2)

/-- The predecessor of a listed cell is the one before the list or is listed. -/
theorem IsDList.prev_mem {p h : Option Nat} {l : List Nat}
    (hl : IsDList nxt prv p h l) {c b : Nat} (hc : c ∈ l) (hb : prv c = some b) :
    p = some b ∨ b ∈ l := by
  induction l generalizing p h with
  | nil => cases hc
  | cons a l ih =>
    obtain ⟨_, h2, h3⟩ := hl
    rcases List.mem_cons.1 hc with rfl | hc2
    · left; rw [← h2, hb]
    · right
      rcases ih h3 hc2 with h4 | h4
      · cases h4; exact List.mem_cons_self _ _
      · exact List.mem_cons_of_mem _ h4

/-- A listed cell that is not the head has a listed predecessor. -/
theorem IsDList.prev_of_ne_head {p h : Option Nat} {l : List Nat}
    (hl : IsDList nxt prv p h l) {c : Nat} (hc : c ∈ l) (hh : h ≠ some c) :
    ∃ b ∈ l, prv c = some b := by
  induction l generalizing p h with
  | nil => cases hc
  | cons a l ih =>
    obtain ⟨h1, _, h3⟩ := hl
    rcases List.mem_cons.1 hc with rfl | hc2
    · exact absurd h1 hh
    · by_cases hn : nxt a = some c
      · cases l with
        | nil => cases hc2
        | cons d l =>
          have hd : nxt a = some d := h3.1
          rw [hd] at hn; cases hn
          exact ⟨a, List.mem_cons_self _ _, h3.2.1⟩
      · obtain ⟨b, hb, hb2⟩ := ih h3 hc2 hn
        exact ⟨b, List.mem_cons_of_mem _ hb, hb2⟩

/-- The head of a list with no cell before it is the only cell without predecessor. -/
theorem IsDList.prev_head {h : Option Nat} {l : List Nat}
    (hl : IsDList nxt prv none h l) {c : Nat} (hh : h = some c) : prv c = none := by
  cases l with
  | nil =>
    have : h = none := hl
    rw [this] at hh; cases hh
  | cons a l =>
    have h1 : h = some a := hl.1
    rw [h1] at hh; cases hh
    exact hl.2.1

theorem IsDList.head_mem {p h : Option Nat} {l : List Nat}
    (hl : IsDList nxt prv p h l) {c : Nat} (hh : h = some c) : c ∈ l := by
  cases l with
  | nil =>
    have : h = none := hl
    rw [this] at hh; cases hh
  | cons a l =>
    have h1 : h = some a := hl.1
    rw [h1] at hh; cases hh
    exact List.mem_cons_self _ _

/-- Unlinking a cell `c` from a duplicate-free list. -/
theorem IsDList.erase {p h : Option Nat} {l : List Nat} {c : Nat}
    (hl : IsDList nxt prv p h l) (nd : l.Nodup) (hp : ∀ q, p = some q → q ∉ l) (hc : c ∈ l)
    (hn : ∀ a ∈ l, a ≠ c → nxt2 a = if prv c = some a then nxt c else nxt a)
    (hv : ∀ a ∈ l, a ≠ c → prv2 a = if nxt c = some a then prv c else prv a) :
    IsDList nxt2 prv2 p (if h = some c then nxt c else h) (l.erase c) := by
  induction l generalizing p h with
  | nil => cases hc
  | cons a l ih =>
    obtain ⟨h1, h2, h3⟩ := hl
    have hal : a ∉ l := (List.nodup_cons.1 nd).1
    have ndl : l.Nodup := (List.nodup_cons.1 nd).2
    by_cases hac : a = c
    · subst hac
      rw [List.erase_cons_head, if_pos h1]
      -- the tail, with the first cell's predecessor replaced
      cases l with
      | nil => exact h3
      | cons d l =>
        obtain ⟨g1, g2, g3⟩ := h3
        have hda : d ≠ a := fun e => hal (e ▸ List.mem_cons_self _ _)
        refine ⟨g1, ?_, ?_⟩
        · rw [hv d (List.mem_cons_of_mem _ (List.mem_cons_self _ _)) hda, if_pos g1, h2]
        · have hpd : prv a ≠ some d := by
            rw [h2]; intro e
            exact hp d e (List.mem_cons_of_mem _ (List.mem_cons_self _ _))
          rw [hn d (List.mem_cons_of_mem _ (List.mem_cons_self _ _)) hda, if_neg hpd]
          refine IsDList.congr ?_ ?_ g3
          · intro b hb
            have hbl : b ∈ d :: l := List.mem_cons_of_mem _ hb
            have hba : b ≠ a := fun e => hal (e ▸ hbl)
            rw [hn b (List.mem_cons_of_mem _ hbl) hba, if_neg]
            rw [h2]; intro e
            exact hp b e (List.mem_cons_of_mem _ hbl)
          · intro b hb
            have hbl : b ∈ d :: l := List.mem_cons_of_mem _ hb
            have hba : b ≠ a := fun e => hal (e ▸ hbl)
            rw [hv b (List.mem_cons_of_mem _ hbl) hba, if_neg]
            rw [g1]; intro e
            cases e
            exact (List.nodup_cons.1 ndl).1 hb
    · have hcl : c ∈ l := by
        rcases List.mem_cons.1 hc with e | e
        · exact absurd e.symm hac
        · exact e
      have hne : h ≠ some c := by rw [h1]; intro e; cases e; exact hac rfl
      rw [List.erase_cons_tail (by simpa using hac), if_neg hne]
      refine ⟨h1, ?_, ?_⟩
      · rw [hv a (List.mem_cons_self _ _) hac, if_neg, h2]
        intro e
        exact hal (IsDList.next_mem h3 hcl e)
      · have key := ih h3 ndl (fun q hq => by cases hq; exact hal) hcl
          (fun b hb hbc => hn b (List.mem_cons_of_mem _ hb) hbc)
          (fun b hb hbc => hv b (List.mem_cons_of_mem _ hb) hbc)
        rw [hn a (List.mem_cons_self _ _) hac]
        by_cases hnc : nxt a = some c
        · rw [if_pos hnc] at key
          have : prv c = some a := by
            cases l with
            | nil => cases hcl
            | cons d l =>
              have hd : nxt a = some d := h3.1
              rw [hd] at hnc; cases hnc
              exact h3.2.1
          rw [if_pos this]; exact key
        · rw [if_neg hnc] at key
          have : prv c ≠ some a := by
            intro e
            obtain ⟨b, hb, hb2⟩ := IsDList.prev_of_ne_head h3 hcl hnc
            rw [hb2] at e; cases e
            exact hal hb
          rw [if_neg this]; exact key

theorem lastOr_mem {p : Option Nat} {l : List Nat} (hl : l ≠ []) :
    ∃ b ∈ l, lastOr p l = some b := by
  induction l generalizing p with
  | nil => exact absurd rfl hl
  | cons a l ih =>
    cases l with
    | nil => exact ⟨a, List.mem_cons_self _ _, rfl⟩
    | cons d l =>
      obtain ⟨b, hb, hb2⟩ := ih (p := some a) (List.cons_ne_nil d l)
      exact ⟨b, List.mem_cons_of_mem _ hb, hb2⟩

theorem lastOr_none {l : List Nat} : lastOr none l = none ↔ l = [] := by
  constructor
  · intro h
    by_contra hl
    obtain ⟨b, _, hb⟩ := lastOr_mem (p := none) hl
    rw [hb] at h; cases h
  · rintro rfl; rfl

theorem lastOr_append_singleton (p : Option Nat) (l : List Nat) (w : Nat) :
    lastOr p (l ++ [w]) = some w := by
  induction l generalizing p with
  | nil => rfl
  | cons a l ih => exact ih (some a)

/-- Linking a new cell `w` in front of a list. -/
theorem IsDList.cons {h : Option Nat} {l : List Nat} {w : Nat}
    (hl : IsDList nxt prv none h l) (nd : l.Nodup)
    (hnw : nxt2 w = h) (hvw : prv2 w = none)
    (hn : ∀ a ∈ l, nxt2 a = nxt a)
    (hv : ∀ a ∈ l, prv2 a = if h = some a then some w else prv a) :
    IsDList nxt2 prv2 none (some w) (w :: l) := by
  refine ⟨rfl, hvw, ?_⟩
  rw [hnw]
  cases l with
  | nil => exact hl
  | cons a l =>
    obtain ⟨h1, h2, h3⟩ := hl
    refine ⟨h1, ?_, ?_⟩
    · rw [hv a (List.mem_cons_self _ _), if_pos h1]
    · rw [hn a (List.mem_cons_self _ _)]
      refine IsDList.congr (fun b hb => hn b (List.mem_cons_of_mem _ hb)) ?_ h3
      intro b hb
      rw [hv b (List.mem_cons_of_mem _ hb), if_neg]
      rw [h1]; intro e; cases e
      exact (List.nodup_cons.1 nd).1 hb

/-- Linking a new cell `w` behind the last cell of a list. -/
theorem IsDList.snoc {p h : Option Nat} {l : List Nat} {w : Nat}
    (hl : IsDList nxt prv p h l) (nd : l.Nodup) (hp : ∀ q, p = some q → q ∉ l)
    (hnw : nxt2 w = none) (hvw : prv2 w = lastOr p l)
    (hn : ∀ a ∈ l, nxt2 a = if lastOr p l = some a then some w else nxt a)
    (hv : ∀ a ∈ l, prv2 a = prv a) :
    IsDList nxt2 prv2 p (if l = [] then some w else h) (l ++ [w]) := by
  induction l generalizing p h with
  | nil => exact ⟨rfl, hvw, hnw⟩
  | cons a l ih =>
    obtain ⟨h1, h2, h3⟩ := hl
    have hal : a ∉ l := (List.nodup_cons.1 nd).1
    rw [if_neg (List.cons_ne_nil a l)]
    refine ⟨h1, ?_, ?_⟩
    · rw [hv a (List.mem_cons_self _ _)]; exact h2
    · have key := ih h3 (List.nodup_cons.1 nd).2 (fun q hq => by cases hq; exact hal) hvw
        (fun b hb => hn b (List.mem_cons_of_mem _ hb))
        (fun b hb => hv b (List.mem_cons_of_mem _ hb))
      rw [hn a (List.mem_cons_self _ _)]
      by_cases hl0 : l = []
      · subst hl0
        simpa [lastOr] using key
      · rw [if_neg hl0] at key
        obtain ⟨b, hb, hb2⟩ := lastOr_mem (p := some a) hl0
        have : lastOr p (a :: l) ≠ some a := by
          show lastOr (some a) l ≠ some a
          rw [hb2]; intro e; cases e; exact hal hb
        rw [if_neg this]; exact key

theorem IsSList.congr_next {h : Option Nat} {l : List Nat}
    (hn : ∀ a ∈ l, nxt2 a = nxt a) (hl : IsSList nxt h l) : IsSList nxt2 h l := by
  induction l generalizing h with
  | nil => exact hl
  | cons a l ih =>
    obtain ⟨h1, h3⟩ := hl
    refine ⟨h1, ?_⟩
    rw [hn a (List.mem_cons_self a l)]
    exact ih (fun b hb => hn b (List.mem_cons_of_mem a hb)) h3

theorem IsDList.toSList {p h : Option Nat} {l : List Nat}
    (hl : IsDList nxt prv p h l) : IsSList nxt h l := by
  induction l generalizing p h with
  | nil => exact hl
  | cons a l ih => exact ⟨hl.1, ih hl.2.2⟩

theorem filter_erase_of_false (q : Nat → Bool) (l : List Nat) (w : Nat) (hw : q w = false) :
    (l.erase w).filter q = l.filter q := by
  induction l with
  | nil => rfl
  | cons a l ih =>
    by_cases haw : a = w
    · subst haw
      rw [List.erase_cons_head, List.filter_cons_of_neg (by simp [hw])]
    · rw [List.erase_cons_tail (by simpa using haw)]
      by_cases hq : q a = true
      · rw [List.filter_cons_of_pos hq, List.filter_cons_of_pos hq, ih]
      · rw [List.filter_cons_of_neg hq, List.filter_cons_of_neg hq, ih]

/-! ## Reading a field after a write -/

namespace Heap

@[simp] theorem upd_apply {α : Type} (f : Nat → α) (a : Nat) (v : α) (b : Nat) :
    upd f a v b = if b = a then v else f b := rfl

@[simp] theorem set_finalization_group_finalization_group (s : Heap) (a : Nat) (v : Nat) (b : Nat) :
    ((s.set_finalization_group a v).cells b).finalization_group = if b = a then v else (s.cells b).finalization_group := by
  unfold set_finalization_group upd; by_cases h : b = a <;> simp [h]
@[simp] theorem set_finalization_group_target (s : Heap) (a : Nat) (v : Nat) (b : Nat) :
    ((s.set_finalization_group a v).cells b).target = (s.cells b).target := by
  unfold set_finalization_group upd; by_cases h : b = a <;> simp [h]
@[simp] theorem set_finalization_group_holdings (s : Heap) (a : Nat) (v : Nat) (b : Nat) :
    ((s.set_finalization_group a v).cells b).holdings = (s.cells b).holdings := by
  unfold set_finalization_group upd; by_cases h : b = a <;> simp [h]
@[simp] theorem set_finalization_group_prev (s : Heap) (a : Nat) (v : Nat) (b : Nat) :
    ((s.set_finalization_group a v).cells b).prev = (s.cells b).prev := by
  unfold set_finalization_group upd; by_cases h : b = a <;> simp [h]
@[simp] theorem set_finalization_group_next (s : Heap) (a : Nat) (v : Nat) (b : Nat) :
    ((s.set_finalization_group a v).cells b).next = (s.cells b).next := by
  unfold set_finalization_group upd; by_cases h : b = a <;> simp [h]
@[simp] theorem set_finalization_group_unregister_token (s : Heap) (a : Nat) (v : Nat) (b : Nat) :
    ((s.set_finalization_group a v).cells b).unregister_token = (s.cells b).unregister_token := by
  unfold set_finalization_group upd; by_cases h : b = a <;> simp [h]
@[simp] theorem set_finalization_group_key_list_prev (s : Heap) (a : Nat) (v : Nat) (b : Nat) :
    ((s.set_finalization_group a v).cells b).key_list_prev = (s.cells b).key_list_prev := by
  unfold set_finalization_group upd; by_cases h : b = a <;> simp [h]
@[simp] theorem set_finalization_group_key_list_next (s : Heap) (a : Nat) (v : Nat) (b : Nat) :
    ((s.set_finalization_group a v).cells b).key_list_next = (s.cells b).key_list_next := by
  unfold set_finalization_group upd; by_cases h : b = a <;> simp [h]
@[simp] theorem set_finalization_group_groups (s : Heap) (a : Nat) (v : Nat) :
    (s.set_finalization_group a v).groups = s.groups := rfl
@[simp] theorem set_finalization_group_hashes (s : Heap) (a : Nat) (v : Nat) :
    (s.set_finalization_group a v).hashes = s.hashes := rfl
@[simp] theorem set_finalization_group_next_cell (s : Heap) (a : Nat) (v : Nat) :
    (s.set_finalization_group a v).next_cell = s.next_cell := rfl

@[simp] theorem set_target_finalization_group (s : Heap) (a : Nat) (v : Option Nat) (b : Nat) :
    ((s.set_target a v).cells b).finalization_group = (s.cells b).finalization_group := by
  unfold set_target upd; by_cases h : b = a <;> simp [h]
@[simp] theorem set_target_target (s : Heap) (a : Nat) (v : Option Nat) (b : Nat) :
    ((s.set_target a v).cells b).target = if b = a then v else (s.cells b).target := by
  unfold set_target upd; by_cases h : b = a <;> simp [h]
@[simp] theorem set_target_holdings (s : Heap) (a : Nat) (v : Option Nat) (b : Nat) :
    ((s.set_target a v).cells b).holdings = (s.cells b).holdings := by
  unfold set_target upd; by_cases h : b = a <;> simp [h]
@[simp] theorem set_target_prev (s : Heap) (a : Nat) (v : Option Nat) (b : Nat) :
    ((s.set_target a v).cells b).prev = (s.cells b).prev := by
  unfold set_target upd; by_cases h : b = a <;> simp [h]
@[simp] theorem set_target_next (s : Heap) (a : Nat) (v : Option Nat) (b : Nat) :
    ((s.set_target a v).cells b).next = (s.cells b).next := by
  unfold set_target upd; by_cases h : b = a <;> simp [h]
@[simp] theorem set_target_unregister_token (s : Heap) (a : Nat) (v : Option Nat) (b : Nat) :
    ((s.set_target a v).cells b).unregister_token = (s.cells b).unregister_token := by
  unfold set_target upd; by_cases h : b = a <;> simp [h]
@[simp] theorem set_target_key_list_prev (s : Heap) (a : Nat) (v : Option Nat) (b : Nat) :
    ((s.set_target a v).cells b).key_list_prev = (s.cells b).key_list_prev := by
  unfold set_target upd; by_cases h : b = a <;> simp [h]
@[simp] theorem set_target_key_list_next (s : Heap) (a : Nat) (v : Option Nat) (b : Nat) :
    ((s.set_target a v).cells b).key_list_next = (s.cells b).key_list_next := by
  unfold set_target upd; by_cases h : b = a <;> simp [h]
@[simp] theorem set_target_groups (s : Heap) (a : Nat) (v : Option Nat) :
    (s.set_target a v).groups = s.groups := rfl
@[simp] theorem set_target_hashes (s : Heap) (a : Nat) (v : Option Nat) :
    (s.set_target a v).hashes = s.hashes := rfl
@[simp] theorem set_target_next_cell (s : Heap) (a : Nat) (v : Option Nat) :
    (s.set_target a v).next_cell = s.next_cell := rfl

@[simp] theorem set_holdings_finalization_group (s : Heap) (a : Nat) (v : Nat) (b : Nat) :
    ((s.set_holdings a v).cells b).finalization_group = (s.cells b).finalization_group := by
  unfold set_holdings upd; by_cases h : b = a <;> simp [h]
@[simp] theorem set_holdings_target (s : Heap) (a : Nat) (v : Nat) (b : Nat) :
    ((s.set_holdings a v).cells b).target = (s.cells b).target := by
  unfold set_holdings upd; by_cases h : b = a <;> simp [h]
@[simp] theorem set_holdings_holdings (s : Heap) (a : Nat) (v : Nat) (b : Nat) :
    ((s.set_holdings a v).cells b).holdings = if b = a then v else (s.cells b).holdings := by
  unfold set_holdings upd; by_cases h : b = a <;> simp [h]
@[simp] theorem set_holdings_prev (s : Heap) (a : Nat) (v : Nat) (b : Nat) :
    ((s.set_holdings a v).cells b).prev = (s.cells b).prev := by
  unfold set_holdings upd; by_cases h : b = a <;> simp [h]
@[simp] theorem set_holdings_next (s : Heap) (a : Nat) (v : Nat) (b : Nat) :
    ((s.set_holdings a v).cells b).next = (s.cells b).next := by
  unfold set_holdings upd; by_cases h : b = a <;> simp [h]
@[simp] theorem set_holdings_unregister_token (s : Heap) (a : Nat) (v : Nat) (b : Nat) :
    ((s.set_holdings a v).cells b).unregister_token = (s.cells b).unregister_token := by
  unfold set_holdings upd; by_cases h : b = a <;> simp [h]
@[simp] theorem set_holdings_key_list_prev (s : Heap) (a : Nat) (v : Nat) (b : Nat) :
    ((s.set_holdings a v).cells b).key_list_prev = (s.cells b).key_list_prev := by
  unfold set_holdings upd; by_cases h : b = a <;> simp [h]
@[simp] theorem set_holdings_key_list_next (s : Heap) (a : Nat) (v : Nat) (b : Nat) :
    ((s.set_holdings a v).cells b).key_list_next = (s.cells b).key_list_next := by
  unfold set_holdings upd; by_cases h : b = a <;> simp [h]
@[simp] theorem set_holdings_groups (s : Heap) (a : Nat) (v : Nat) :
    (s.set_holdings a v).groups = s.groups := rfl
@[simp] theorem set_holdings_hashes (s : Heap) (a : Nat) (v : Nat) :
    (s.set_holdings a v).hashes = s.hashes := rfl
@[simp] theorem set_holdings_next_cell (s : Heap) (a : Nat) (v : Nat) :
    (s.set_holdings a v).next_cell = s.next_cell := rfl

@[simp] theorem set_prev_finalization_group (s : Heap) (a : Nat) (v : Option Nat) (b : Nat) :
    ((s.set_prev a v).cells b).finalization_group = (s.cells b).finalization_group := by
  unfold set_prev upd; by_cases h : b = a <;> simp [h]
@[simp] theorem set_prev_target (s : Heap) (a : Nat) (v : Option Nat) (b : Nat) :
    ((s.set_prev a v).cells b).target = (s.cells b).target := by
  unfold set_prev upd; by_cases h : b = a <;> simp [h]
@[simp] theorem set_prev_holdings (s : Heap) (a : Nat) (v : Option Nat) (b : Nat) :
    ((s.set_prev a v).cells b).holdings = (s.cells b).holdings := by
  unfold set_prev upd; by_cases h : b = a <;> simp [h]
@[simp] theorem set_prev_prev (s : Heap) (a : Nat) (v : Option Nat) (b : Nat) :
    ((s.set_prev a v).cells b).prev = if b = a then v else (s.cells b).prev := by
  unfold set_prev upd; by_cases h : b = a <;> simp [h]
@[simp] theorem set_prev_next (s : Heap) (a : Nat) (v : Option Nat) (b : Nat) :
    ((s.set_prev a v).cells b).next = (s.cells b).next := by
  unfold set_prev upd; by_cases h : b = a <;> simp [h]
@[simp] theorem set_prev_unregister_token (s : Heap) (a : Nat) (v : Option Nat) (b : Nat) :
    ((s.set_prev a v).cells b).unregister_token = (s.cells b).unregister_token := by
  unfold set_prev upd; by_cases h : b = a <;> simp [h]
@[simp] theorem set_prev_key_list_prev (s : Heap) (a : Nat) (v : Option Nat) (b : Nat) :
    ((s.set_prev a v).cells b).key_list_prev = (s.cells b).key_list_prev := by
  unfold set_prev upd; by_cases h : b = a <;> simp [h]
@[simp] theorem set_prev_key_list_next (s : Heap) (a : Nat) (v : Option Nat) (b : Nat) :
    ((s.set_prev a v).cells b).key_list_next = (s.cells b).key_list_next := by
  unfold set_prev upd; by_cases h : b = a <;> simp [h]
@[simp] theorem set_prev_groups (s : Heap) (a : Nat) (v : Option Nat) :
    (s.set_prev a v).groups = s.groups := rfl
@[simp] theorem set_prev_hashes (s : Heap) (a : Nat) (v : Option Nat) :
    (s.set_prev a v).hashes = s.hashes := rfl
@[simp] theorem set_prev_next_cell (s : Heap) (a : Nat) (v : Option Nat) :
    (s.set_prev a v).next_cell = s.next_cell := rfl

@[simp] theorem set_next_finalization_group (s : Heap) (a : Nat) (v : Option Nat) (b : Nat) :
    ((s.set_next a v).cells b).finalization_group = (s.cells b).finalization_group := by
  unfold set_next upd; by_cases h : b = a <;> simp [h]
@[simp] theorem set_next_target (s : Heap) (a : Nat) (v : Option Nat) (b : Nat) :
    ((s.set_next a v).cells b).target = (s.cells b).target := by
  unfold set_next upd; by_cases h : b = a <;> simp [h]
@[simp] theorem set_next_holdings (s : Heap) (a : Nat) (v : Option Nat) (b : Nat) :
    ((s.set_next a v).cells b).holdings = (s.cells b).holdings := by
  unfold set_next upd; by_cases h : b = a <;> simp [h]
@[simp] theorem set_next_prev (s : Heap) (a : Nat) (v : Option Nat) (b : Nat) :
    ((s.set_next a v).cells b).prev = (s.cells b).prev := by
  unfold set_next upd; by_cases h : b = a <;> simp [h]
@[simp] theorem set_next_next (s : Heap) (a : Nat) (v : Option Nat) (b : Nat) :
    ((s.set_next a v).cells b).next = if b = a then v else (s.cells b).next := by
  unfold set_next upd; by_cases h : b = a <;> simp [h]
@[simp] theorem set_next_unregister_token (s : Heap) (a : Nat) (v : Option Nat) (b : Nat) :
    ((s.set_next a v).cells b).unregister_token = (s.cells b).unregister_token := by
  unfold set_next upd; by_cases h : b = a <;> simp [h]
@[simp] theorem set_next_key_list_prev (s : Heap) (a : Nat) (v : Option Nat) (b : Nat) :
    ((s.set_next a v).cells b).key_list_prev = (s.cells b).key_list_prev := by
  unfold set_next upd; by_cases h : b = a <;> simp [h]
@[simp] theorem set_next_key_list_next (s : Heap) (a : Nat) (v : Option Nat) (b : Nat) :
    ((s.set_next a v).cells b).key_list_next = (s.cells b).key_list_next := by
  unfold set_next upd; by_cases h : b = a <;> simp [h]
@[simp] theorem set_next_groups (s : Heap) (a : Nat) (v : Option Nat) :
    (s.set_next a v).groups = s.groups := rfl
@[simp] theorem set_next_hashes (s : Heap) (a : Nat) (v : Option Nat) :
    (s.set_next a v).hashes = s.hashes := rfl
@[simp] theorem set_next_next_cell (s : Heap) (a : Nat) (v : Option Nat) :
    (s.set_next a v).next_cell = s.next_cell := rfl

@[simp] theorem set_unregister_token_finalization_group (s : Heap) (a : Nat) (v : Option Nat) (b : Nat) :
    ((s.set_unregister_token a v).cells b).finalization_group = (s.cells b).finalization_group := by
  unfold set_unregister_token upd; by_cases h : b = a <;> simp [h]
@[simp] theorem set_unregister_token_target (s : Heap) (a : Nat) (v : Option Nat) (b : Nat) :
    ((s.set_unregister_token a v).cells b).target = (s.cells b).target := by
  unfold set_unregister_token upd; by_cases h : b = a <;> simp [h]
@[simp] theorem set_unregister_token_holdings (s : Heap) (a : Nat) (v : Option Nat) (b : Nat) :
    ((s.set_unregister_token a v).cells b).holdings = (s.cells b).holdings := by
  unfold set_unregister_token upd; by_cases h : b = a <;> simp [h]
@[simp] theorem set_unregister_token_prev (s : Heap) (a : Nat) (v : Option Nat) (b : Nat) :
    ((s.set_unregister_token a v).cells b).prev = (s.cells b).prev := by
  unfold set_unregister_token upd; by_cases h : b = a <;> simp [h]
@[simp] theorem set_unregister_token_next (s : Heap) (a : Nat) (v : Option Nat) (b : Nat) :
    ((s.set_unregister_token a v).cells b).next = (s.cells b).next := by
  unfold set_unregister_token upd; by_cases h : b = a <;> simp [h]
@[simp] theorem set_unregister_token_unregister_token (s : Heap) (a : Nat) (v : Option Nat) (b : Nat) :
    ((s.set_unregister_token a v).cells b).unregister_token = if b = a then v else (s.cells b).unregister_token := by
  unfold set_unregister_token upd; by_cases h : b = a <;> simp [h]
@[simp] theorem set_unregister_token_key_list_prev (s : Heap) (a : Nat) (v : Option Nat) (b : Nat) :
    ((s.set_unregister_token a v).cells b).key_list_prev = (s.cells b).key_list_prev := by
  unfold set_unregister_token upd; by_cases h : b = a <;> simp [h]
@[simp] theorem set_unregister_token_key_list_next (s : Heap) (a : Nat) (v : Option Nat) (b : Nat) :
    ((s.set_unregister_token a v).cells b).key_list_next = (s.cells b).key_list_next := by
  unfold set_unregister_token upd; by_cases h : b = a <;> simp [h]
@[simp] theorem set_unregister_token_groups (s : Heap) (a : Nat) (v : Option Nat) :
    (s.set_unregister_token a v).groups = s.groups := rfl
@[simp] theorem set_unregister_token_hashes (s : Heap) (a : Nat) (v : Option Nat) :
    (s.set_unregister_token a v).hashes = s.hashes := rfl
@[simp] theorem set_unregister_token_next_cell (s : Heap) (a : Nat) (v : Option Nat) :
    (s.set_unregister_token a v).next_cell = s.next_cell := rfl

@[simp] theorem set_key_list_prev_finalization_group (s : Heap) (a : Nat) (v : Option Nat) (b : Nat) :
    ((s.set_key_list_prev a v).cells b).finalization_group = (s.cells b).finalization_group := by
  unfold set_key_list_prev upd; by_cases h : b = a <;> simp [h]
@[simp] theorem set_key_list_prev_target (s : Heap) (a : Nat) (v : Option Nat) (b : Nat) :
    ((s.set_key_list_prev a v).cells b).target = (s.cells b).target := by
  unfold set_key_list_prev upd; by_cases h : b = a <;> simp [h]
@[simp] theorem set_key_list_prev_holdings (s : Heap) (a : Nat) (v : Option Nat) (b : Nat) :
    ((s.set_key_list_prev a v).cells b).holdings = (s.cells b).holdings := by
  unfold set_key_list_prev upd; by_cases h : b = a <;> simp [h]
@[simp] theorem set_key_list_prev_prev (s : Heap) (a : Nat) (v : Option Nat) (b : Nat) :
    ((s.set_key_list_prev a v).cells b).prev = (s.cells b).prev := by
  unfold set_key_list_prev upd; by_cases h : b = a <;> simp [h]
@[simp] theorem set_key_list_prev_next (s : Heap) (a : Nat) (v : Option Nat) (b : Nat) :
    ((s.set_key_list_prev a v).cells b).next = (s.cells b).next := by
  unfold set_key_list_prev upd; by_cases h : b = a <;> simp [h]
@[simp] theorem set_key_list_prev_unregister_token (s : Heap) (a : Nat) (v : Option Nat) (b : Nat) :
    ((s.set_key_list_prev a v).cells b).unregister_token = (s.cells b).unregister_token := by
  unfold set_key_list_prev upd; by_cases h : b = a <;> simp [h]
@[simp] theorem set_key_list_prev_key_list_prev (s : Heap) (a : Nat) (v : Option Nat) (b : Nat) :
    ((s.set_key_list_prev a v).cells b).key_list_prev = if b = a then v else (s.cells b).key_list_prev := by
  unfold set_key_list_prev upd; by_cases h : b = a <;> simp [h]
@[simp] theorem set_key_list_prev_key_list_next (s : Heap) (a : Nat) (v : Option Nat) (b : Nat) :
    ((s.set_key_list_prev a v).cells b).key_list_next = (s.cells b).key_list_next := by
  unfold set_key_list_prev upd; by_cases h : b = a <;> simp [h]
@[simp] theorem set_key_list_prev_groups (s : Heap) (a : Nat) (v : Option Nat) :
    (s.set_key_list_prev a v).groups = s.groups := rfl
@[simp] theorem set_key_list_prev_hashes (s : Heap) (a : Nat) (v : Option Nat) :
    (s.set_key_list_prev a v).hashes = s.hashes := rfl
@[simp] theorem set_key_list_prev_next_cell (s : Heap) (a : Nat) (v : Option Nat) :
    (s.set_key_list_prev a v).next_cell = s.next_cell := rfl

@[simp] theorem set_key_list_next_finalization_group (s : Heap) (a : Nat) (v : Option Nat) (b : Nat) :
    ((s.set_key_list_next a v).cells b).finalization_group = (s.cells b).finalization_group := by
  unfold set_key_list_next upd; by_cases h : b = a <;> simp [h]
@[simp] theorem set_key_list_next_target (s : Heap) (a : Nat) (v : Option Nat) (b : Nat) :
    ((s.set_key_list_next a v).cells b).target = (s.cells b).target := by
  unfold set_key_list_next upd; by_cases h : b = a <;> simp [h]
@[simp] theorem set_key_list_next_holdings (s : Heap) (a : Nat) (v : Option Nat) (b : Nat) :
    ((s.set_key_list_next a v).cells b).holdings = (s.cells b).holdings := by
  unfold set_key_list_next upd; by_cases h : b = a <;> simp [h]
@[simp] theorem set_key_list_next_prev (s : Heap) (a : Nat) (v : Option Nat) (b : Nat) :
    ((s.set_key_list_next a v).cells b).prev = (s.cells b).prev := by
  unfold set_key_list_next upd; by_cases h : b = a <;> simp [h]
@[simp] theorem set_key_list_next_next (s : Heap) (a : Nat) (v : Option Nat) (b : Nat) :
    ((s.set_key_list_next a v).cells b).next = (s.cells b).next := by
  unfold set_key_list_next upd; by_cases h : b = a <;> simp [h]
@[simp] theorem set_key_list_next_unregister_token (s : Heap) (a : Nat) (v : Option Nat) (b : Nat) :
    ((s.set_key_list_next a v).cells b).unregister_token = (s.cells b).unregister_token := by
  unfold set_key_list_next upd; by_cases h : b = a <;> simp [h]
@[simp] theorem set_key_list_next_key_list_prev (s : Heap) (a : Nat) (v : Option Nat) (b : Nat) :
    ((s.set_key_list_next a v).cells b).key_list_prev = (s.cells b).key_list_prev := by
  unfold set_key_list_next upd; by_cases h : b = a <;> simp [h]
@[simp] theorem set_key_list_next_key_list_next (s : Heap) (a : Nat) (v : Option Nat) (b : Nat) :
    ((s.set_key_list_next a v).cells b).key_list_next = if b = a then v else (s.cells b).key_list_next := by
  unfold set_key_list_next upd; by_cases h : b = a <;> simp [h]
@[simp] theorem set_key_list_next_groups (s : Heap) (a : Nat) (v : Option Nat) :
    (s.set_key_list_next a v).groups = s.groups := rfl
@[simp] theorem set_key_list_next_hashes (s : Heap) (a : Nat) (v : Option Nat) :
    (s.set_key_list_next a v).hashes = s.hashes := rfl
@[simp] theorem set_key_list_next_next_cell (s : Heap) (a : Nat) (v : Option Nat) :
    (s.set_key_list_next a v).next_cell = s.next_cell := rfl

@[simp] theorem set_active_cells_active_cells (s : Heap) (g : Nat) (v : Option Nat) (g2 : Nat) :
    ((s.set_active_cells g v).groups g2).active_cells = if g2 = g then v else (s.groups g2).active_cells := by
  unfold set_active_cells upd; by_cases h : g2 = g <;> simp [h]
@[simp] theorem set_active_cells_cleared_cells (s : Heap) (g : Nat) (v : Option Nat) (g2 : Nat) :
    ((s.set_active_cells g v).groups g2).cleared_cells = (s.groups g2).cleared_cells := by
  unfold set_active_cells upd; by_cases h : g2 = g <;> simp [h]
@[simp] theorem set_active_cells_key_map (s : Heap) (g : Nat) (v : Option Nat) (g2 : Nat) :
    ((s.set_active_cells g v).groups g2).key_map = (s.groups g2).key_map := by
  unfold set_active_cells upd; by_cases h : g2 = g <;> simp [h]
@[simp] theorem set_active_cells_cells (s : Heap) (g : Nat) (v : Option Nat) :
    (s.set_active_cells g v).cells = s.cells := rfl
@[simp] theorem set_active_cells_hashes (s : Heap) (g : Nat) (v : Option Nat) :
    (s.set_active_cells g v).hashes = s.hashes := rfl
@[simp] theorem set_active_cells_next_cell (s : Heap) (g : Nat) (v : Option Nat) :
    (s.set_active_cells g v).next_cell = s.next_cell := rfl

@[simp] theorem set_cleared_cells_active_cells (s : Heap) (g : Nat) (v : Option Nat) (g2 : Nat) :
    ((s.set_cleared_cells g v).groups g2).active_cells = (s.groups g2).active_cells := by
  unfold set_cleared_cells upd; by_cases h : g2 = g <;> simp [h]
@[simp] theorem set_cleared_cells_cleared_cells (s : Heap) (g : Nat) (v : Option Nat) (g2 : Nat) :
    ((s.set_cleared_cells g v).groups g2).cleared_cells = if g2 = g then v else (s.groups g2).cleared_cells := by
  unfold set_cleared_cells upd; by_cases h : g2 = g <;> simp [h]
@[simp] theorem set_cleared_cells_key_map (s : Heap) (g : Nat) (v : Option Nat) (g2 : Nat) :
    ((s.set_cleared_cells g v).groups g2).key_map = (s.groups g2).key_map := by
  unfold set_cleared_cells upd; by_cases h : g2 = g <;> simp [h]
@[simp] theorem set_cleared_cells_cells (s : Heap) (g : Nat) (v : Option Nat) :
    (s.set_cleared_cells g v).cells = s.cells := rfl
@[simp] theorem set_cleared_cells_hashes (s : Heap) (g : Nat) (v : Option Nat) :
    (s.set_cleared_cells g v).hashes = s.hashes := rfl
@[simp] theorem set_cleared_cells_next_cell (s : Heap) (g : Nat) (v : Option Nat) :
    (s.set_cleared_cells g v).next_cell = s.next_cell := rfl

@[simp] theorem set_key_map_active_cells (s : Heap) (g : Nat) (v : Option SimpleNumberDictionary) (g2 : Nat) :
    ((s.set_key_map g v).groups g2).active_cells = (s.groups g2).active_cells := by
  unfold set_key_map upd; by_cases h : g2 = g <;> simp [h]
@[simp] theorem set_key_map_cleared_cells (s : Heap) (g : Nat) (v : Option SimpleNumberDictionary) (g2 : Nat) :
    ((s.set_key_map g v).groups g2).cleared_cells = (s.groups g2).cleared_cells := by
  unfold set_key_map upd; by_cases h : g2 = g <;> simp [h]
@[simp] theorem set_key_map_key_map (s : Heap) (g : Nat) (v : Option SimpleNumberDictionary) (g2 : Nat) :
    ((s.set_key_map g v).groups g2).key_map = if g2 = g then v else (s.groups g2).key_map := by
  unfold set_key_map upd; by_cases h : g2 = g <;> simp [h]
@[simp] theorem set_key_map_cells (s : Heap) (g : Nat) (v : Option SimpleNumberDictionary) :
    (s.set_key_map g v).cells = s.cells := rfl
@[simp] theorem set_key_map_hashes (s : Heap) (g : Nat) (v : Option SimpleNumberDictionary) :
    (s.set_key_map g v).hashes = s.hashes := rfl
@[simp] theorem set_key_map_next_cell (s : Heap) (g : Nat) (v : Option SimpleNumberDictionary) :
    (s.set_key_map g v).next_cell = s.next_cell := rfl

@[simp] theorem set_active_cells_groups_ne (s : Heap) (g : Nat) (v : Option Nat) (g2 : Nat)
    (h : g2 ≠ g) : (s.set_active_cells g v).groups g2 = s.groups g2 := by
  unfold set_active_cells upd; simp [h]

@[simp] theorem set_cleared_cells_groups_ne (s : Heap) (g : Nat) (v : Option Nat) (g2 : Nat)
    (h : g2 ≠ g) : (s.set_cleared_cells g v).groups g2 = s.groups g2 := by
  unfold set_cleared_cells upd; simp [h]

@[simp] theorem set_key_map_groups_ne (s : Heap) (g : Nat) (v : Option SimpleNumberDictionary)
    (g2 : Nat) (h : g2 ≠ g) : (s.set_key_map g v).groups g2 = s.groups g2 := by
  unfold set_key_map upd; simp [h]

end Heap

open Heap

/-! ## The operations on a well-formed registry -/

/-- The heap after `WeakCell::Nullify`, field by field. -/
theorem Nullify_fields {ν : Type} (s : Heap) (g c : Nat)
    (f : ν → HeapObject → ObjectSlot → Option Nat → ν) (n : ν)
    (ho : (s.cells c).finalization_group = g) (ht : (s.cells c).target ≠ none)
    (hh : (s.cells c).prev = none ↔ (s.groups g).active_cells = some c) :
    ∃ s2 n2, WeakCell.Nullify s c f n = .ok (s2, n2) ∧
      (∀ a, (s2.cells a).next =
        if a = c then (s.groups g).cleared_cells
        else if (s.cells c).prev = some a then (s.cells c).next else (s.cells a).next) ∧
      (∀ a, (s2.cells a).prev =
        if (s.groups g).cleared_cells = some a then some c
        else if a = c then none
        else if (s.cells c).next = some a then (s.cells c).prev else (s.cells a).prev) ∧
      (∀ a, (s2.cells a).target = if a = c then none else (s.cells a).target) ∧
      (∀ a, (s2.cells a).key_list_prev = (s.cells a).key_list_prev ∧
        (s2.cells a).key_list_next = (s.cells a).key_list_next ∧
        (s2.cells a).unregister_token = (s.cells a).unregister_token ∧
        (s2.cells a).holdings = (s.cells a).holdings ∧
        (s2.cells a).finalization_group = (s.cells a).finalization_group) ∧
      (s2.groups g).active_cells =
        (if (s.cells c).prev = none then (s.cells c).next else (s.groups g).active_cells) ∧
      (s2.groups g).cleared_cells = some c ∧
      (s2.groups g).key_map = (s.groups g).key_map ∧
      (∀ g2, g2 ≠ g → s2.groups g2 = s.groups g2) ∧
      s2.hashes = s.hashes ∧ s2.next_cell = s.next_cell := by
  unfold WeakCell.Nullify
  rcases hp : (s.cells c).prev with _ | q <;>
  rcases hnx : (s.cells c).next with _ | b <;>
  rcases hcl : (s.groups g).cleared_cells with _ | d
  all_goals
    first
    | have hac : (s.groups g).active_cells = some c := hh.1 hp
    | have hac : (s.groups g).active_cells ≠ some c := fun e => by
        have := hh.2 e; rw [hp] at this; cases this
  all_goals
    simp [ht, ho, hp, hnx, hcl, hac, Except.bind]
  all_goals
    first
    | done
    | (refine ⟨?_, ?_, ?_⟩ <;> intro a <;> (try intro h2) <;> simp_all [eq_comm])
    | (refine ⟨?_, ?_⟩ <;> intro a <;> (try intro h2) <;> simp_all [eq_comm])
    | (intro a h2; simp_all [eq_comm])

theorem Heap.Chain.congr_links {s s2 : Heap} {g k : Nat} {l : List Nat}
    (hk : (s2.groups g).key_map = (s.groups g).key_map)
    (hf : ∀ a ∈ l, (s2.cells a).key_list_prev = (s.cells a).key_list_prev ∧
      (s2.cells a).key_list_next = (s.cells a).key_list_next)
    (hl : s.Chain g k l) : s2.Chain g k l := by
  unfold Heap.Chain Heap.KeyList Heap.keyMapAt at *
  rw [hk]
  exact IsDList.congr (fun a ha => (hf a ha).2) (fun a ha => (hf a ha).1) hl

theorem Inv.nodup_active {s : Heap} {g : Nat} {act clr : List Nat} {chain : Nat → List Nat}
    (h : Inv s g act clr chain) : act.Nodup := (List.nodup_append.1 h.nodup).1

theorem Inv.nodup_cleared {s : Heap} {g : Nat} {act clr : List Nat} {chain : Nat → List Nat}
    (h : Inv s g act clr chain) : clr.Nodup := (List.nodup_append.1 h.nodup).2.1

theorem Inv.disjoint {s : Heap} {g : Nat} {act clr : List Nat} {chain : Nat → List Nat}
    (h : Inv s g act clr chain) {a : Nat} (ha : a ∈ act) (hc : a ∈ clr) : False :=
  (List.nodup_append.1 h.nodup).2.2 ha hc

/-- Specification of `WeakCell::Nullify` on an active cell of a well-formed registry: it returns,
the cell moves from the active list to the head of the cleared list, and
nothing else changes. -/
theorem Nullify_spec {ν : Type} {s : Heap} {g : Nat} {act clr : List Nat}
    {chain : Nat → List Nat} (c : Nat)
    (f : ν → HeapObject → ObjectSlot → Option Nat → ν) (n : ν)
    (inv : Inv s g act clr chain) (hc : c ∈ act) :
    ∃ s2 n2, WeakCell.Nullify s c f n = .ok (s2, n2) ∧
      Inv s2 g (act.erase c) (c :: clr) chain ∧
      (∀ a, (s2.cells a).target = if a = c then none else (s.cells a).target) ∧
      (∀ a, (s2.cells a).key_list_prev = (s.cells a).key_list_prev ∧
        (s2.cells a).key_list_next = (s.cells a).key_list_next ∧
        (s2.cells a).unregister_token = (s.cells a).unregister_token ∧
        (s2.cells a).holdings = (s.cells a).holdings ∧
        (s2.cells a).finalization_group = (s.cells a).finalization_group) ∧
      (s2.groups g).key_map = (s.groups g).key_map ∧
      (∀ g2, g2 ≠ g → s2.groups g2 = s.groups g2) ∧
      s2.hashes = s.hashes ∧ s2.next_cell = s.next_cell := by
  have ho := inv.owner c (List.mem_append_left _ hc)
  have ht := inv.target_active c hc
  have hcc : c ∉ clr := fun e => inv.disjoint hc e
  have hh : (s.cells c).prev = none ↔ (s.groups g).active_cells = some c := by
    constructor
    · intro hp
      by_contra hne
      obtain ⟨b, _, hb⟩ := IsDList.prev_of_ne_head inv.active hc hne
      change (s.cells c).prev = some b at hb
      rw [hp] at hb; cases hb
    · intro hh
      exact IsDList.prev_head inv.active hh
  obtain ⟨s2, n2, hres, hnext, hprev, htgt, hsame, hact, hclr, hkm, hgr, hhash, hnc⟩ :=
    Nullify_fields s g c f n ho ht hh
  have hmem : ∀ x, x ∈ act.erase c ++ c :: clr ↔ x ∈ act ++ clr := by
    intro x
    have := (List.perm_cons_erase hc).mem_iff (a := x)
    simp only [List.mem_append, List.mem_cons] at this ⊢
    rw [this]; tauto
  -- the successor and predecessor of `c` are active cells
  have hnA : ∀ b, (s.cells c).next = some b → b ∈ act := fun b hb =>
    IsDList.next_mem inv.active hc hb
  have hpA : ∀ b, (s.cells c).prev = some b → b ∈ act := fun b hb => by
    rcases IsDList.prev_mem inv.active hc hb with h | h
    · cases h
    · exact h
  have hclrA : ∀ b, (s.groups g).cleared_cells = some b → b ∈ clr := fun b hb =>
    IsDList.head_mem inv.cleared hb
  refine ⟨s2, n2, hres, ?_, htgt, hsame, hkm, hgr, hhash, hnc⟩
  constructor
  · -- active list
    unfold Heap.ActiveList Heap.CellList
    have h1 : (s2.groups g).active_cells =
        if (s.groups g).active_cells = some c then (s.cells c).next
        else (s.groups g).active_cells := by
      rw [hact]
      by_cases hp : (s.cells c).prev = none
      · rw [if_pos hp, if_pos (hh.1 hp)]
      · rw [if_neg hp, if_neg (fun e => hp (hh.2 e))]
    rw [h1]
    refine IsDList.erase inv.active inv.nodup_active (fun q hq => by cases hq) hc ?_ ?_
    · intro a _ hac
      show (s2.cells a).next = _
      rw [hnext a, if_neg hac]
    · intro a ha hac
      show (s2.cells a).prev = _
      rw [hprev a, if_neg (fun e => inv.disjoint ha (hclrA a e)), if_neg hac]
  · -- cleared list
    unfold Heap.ClearedList Heap.CellList
    rw [hclr]
    refine IsDList.cons inv.cleared inv.nodup_cleared ?_ ?_ ?_ ?_
    · show (s2.cells c).next = _
      rw [hnext c, if_pos rfl]
    · show (s2.cells c).prev = _
      rw [hprev c, if_neg (fun e => hcc (hclrA c e)), if_pos rfl]
    · intro a ha
      show (s2.cells a).next = _
      have hac : a ≠ c := fun e => hcc (e ▸ ha)
      rw [hnext a, if_neg hac, if_neg (fun e => inv.disjoint (hpA a e) ha)]
    · intro a ha
      show (s2.cells a).prev = _
      have hac : a ≠ c := fun e => hcc (e ▸ ha)
      rw [hprev a]
      by_cases h : (s.groups g).cleared_cells = some a
      · rw [if_pos h, if_pos h]
      · rw [if_neg h, if_neg h, if_neg hac, if_neg (fun e => inv.disjoint (hnA a e) ha)]
  · exact (((List.perm_cons_erase hc).append_right clr).trans
      List.perm_middle.symm).nodup_iff.1 inv.nodup
  · intro x hx; rw [hnc]; exact inv.bound x ((hmem x).1 hx)
  · intro x hx; rw [(hsame x).2.2.2.2]; exact inv.owner x ((hmem x).1 hx)
  · intro x hx
    have hxc : x ≠ c := fun e => by
      subst e; exact (List.Nodup.mem_erase_iff inv.nodup_active).1 hx |>.1 rfl
    rw [htgt x, if_neg hxc]
    exact inv.target_active x (List.mem_of_mem_erase hx)
  · intro x hx
    rw [htgt x]
    by_cases hxc : x = c
    · rw [if_pos hxc]
    · rw [if_neg hxc]
      rcases List.mem_cons.1 hx with e | e
      · exact absurd e hxc
      · exact inv.target_cleared x e
  · intro x hx t htok
    rw [(hsame x).2.2.1] at htok
    rw [hhash]
    exact inv.hashed x ((hmem x).1 hx) t htok
  · intro k
    exact Heap.Chain.congr_links hkm (fun a _ => ⟨(hsame a).1, (hsame a).2.1⟩) (inv.chains k)
  · exact inv.chain_nodup
  · intro k x
    rw [inv.chain_mem k x, hmem x, (hsame x).2.2.1, hhash]

/-- The heap after `Register` without an unregister token, field by field. -/
theorem Register_fields_none (s : Heap) (g target holdings fresh : Nat) :
    ∃ s2, JSFinalizationGroup.Register s g target holdings none fresh = .ok s2 ∧
      (∀ a, (s2.cells a).next =
        if a = s.next_cell then (s.groups g).active_cells else (s.cells a).next) ∧
      (∀ a, (s2.cells a).prev =
        if (s.groups g).active_cells = some a then some s.next_cell
        else if a = s.next_cell then none else (s.cells a).prev) ∧
      (∀ a, a ≠ s.next_cell → (s2.cells a).target = (s.cells a).target ∧
        (s2.cells a).holdings = (s.cells a).holdings ∧
        (s2.cells a).unregister_token = (s.cells a).unregister_token ∧
        (s2.cells a).finalization_group = (s.cells a).finalization_group ∧
        (s2.cells a).key_list_prev = (s.cells a).key_list_prev ∧
        (s2.cells a).key_list_next = (s.cells a).key_list_next) ∧
      ((s2.cells s.next_cell).target = some target ∧
        (s2.cells s.next_cell).holdings = holdings ∧
        (s2.cells s.next_cell).unregister_token = none ∧
        (s2.cells s.next_cell).finalization_group = g ∧
        (s2.cells s.next_cell).key_list_prev = none ∧
        (s2.cells s.next_cell).key_list_next = none) ∧
      (s2.groups g).active_cells = some s.next_cell ∧
      (s2.groups g).cleared_cells = (s.groups g).cleared_cells ∧
      (s2.groups g).key_map = (s.groups g).key_map ∧
      (∀ g2, g2 ≠ g → s2.groups g2 = s.groups g2) ∧
      s2.hashes = s.hashes ∧ s2.next_cell = s.next_cell + 1 := by
  unfold JSFinalizationGroup.Register Heap.NewWeakCell
  rcases hac : (s.groups g).active_cells with _ | d
  all_goals simp [hac]
  all_goals repeat' apply And.intro
  all_goals first | done | (intros; simp_all [eq_comm])

/-- The heap after `Register` with an unregister token, field by field; `k` is
the token's identity hash (created from `fresh` when it had none). -/
theorem Register_fields_some (s : Heap) (g target holdings token fresh k : Nat)
    (hk : k = (s.hashes token).getD fresh) :
    ∃ s2, JSFinalizationGroup.Register s g target holdings (some token) fresh = .ok s2 ∧
      (∀ a, (s2.cells a).next =
        if a = s.next_cell then (s.groups g).active_cells else (s.cells a).next) ∧
      (∀ a, (s2.cells a).prev =
        if (s.groups g).active_cells = some a then some s.next_cell
        else if a = s.next_cell then none else (s.cells a).prev) ∧
      (∀ a, (s2.cells a).key_list_next =
        if a = s.next_cell then s.keyMapAt g k else (s.cells a).key_list_next) ∧
      (∀ a, (s2.cells a).key_list_prev =
        if s.keyMapAt g k = some a then some s.next_cell
        else if a = s.next_cell then none else (s.cells a).key_list_prev) ∧
      (∀ a, a ≠ s.next_cell → (s2.cells a).target = (s.cells a).target ∧
        (s2.cells a).holdings = (s.cells a).holdings ∧
        (s2.cells a).unregister_token = (s.cells a).unregister_token ∧
        (s2.cells a).finalization_group = (s.cells a).finalization_group) ∧
      ((s2.cells s.next_cell).target = some target ∧
        (s2.cells s.next_cell).holdings = holdings ∧
        (s2.cells s.next_cell).unregister_token = some token ∧
        (s2.cells s.next_cell).finalization_group = g) ∧
      (s2.groups g).active_cells = some s.next_cell ∧
      (s2.groups g).cleared_cells = (s.groups g).cleared_cells ∧
      (∀ k2, s2.keyMapAt g k2 = if k2 = k then some s.next_cell else s.keyMapAt g k2) ∧
      (s2.groups g).key_map ≠ none ∧
      (∀ g2, g2 ≠ g → s2.groups g2 = s.groups g2) ∧
      (∀ t, s2.hashes t = if t = token then some k else s.hashes t) ∧
      s2.next_cell = s.next_cell + 1 := by
  unfold JSFinalizationGroup.Register Heap.NewWeakCell Heap.GetOrCreateHash Heap.keyMapAt
  rcases hh : s.hashes token with _ | hv
  all_goals simp only [hh, Option.getD] at hk
  all_goals subst hk
  all_goals rcases hac : (s.groups g).active_cells with _ | d
  all_goals rcases hkm : (s.groups g).key_map with _ | m
  all_goals first
    | (rcases hmk : m k with _ | e)
    | (rcases hmk : m fresh with _ | e)
    | skip
  all_goals first
    | simp [hac, hkm, hh, hmk, SimpleNumberDictionary.New,
        SimpleNumberDictionary.FindEntry, SimpleNumberDictionary.ValueAt,
        SimpleNumberDictionary.Set, Except.bind]
    | simp [hac, hkm, hh, SimpleNumberDictionary.New,
        SimpleNumberDictionary.FindEntry, SimpleNumberDictionary.ValueAt,
        SimpleNumberDictionary.Set, Except.bind]
  all_goals repeat' apply And.intro
  all_goals first | done | (intros; simp_all [eq_comm])

/-- The heap after `Register`, field by field, for any unregister token. -/
theorem Register_fields (s : Heap) (g target holdings : Nat) (tok : Option Nat) (fresh : Nat) :
    ∃ s2, JSFinalizationGroup.Register s g target holdings tok fresh = .ok s2 ∧
      (∀ a, (s2.cells a).next =
        if a = s.next_cell then (s.groups g).active_cells else (s.cells a).next) ∧
      (∀ a, (s2.cells a).prev =
        if (s.groups g).active_cells = some a then some s.next_cell
        else if a = s.next_cell then none else (s.cells a).prev) ∧
      (∀ a, (s2.cells a).key_list_next =
        if a = s.next_cell then (registerKey s tok fresh).bind (s.keyMapAt g)
        else (s.cells a).key_list_next) ∧
      (∀ a, (s2.cells a).key_list_prev =
        if (registerKey s tok fresh).bind (s.keyMapAt g) = some a then some s.next_cell
        else if a = s.next_cell then none else (s.cells a).key_list_prev) ∧
      (∀ a, a ≠ s.next_cell → (s2.cells a).target = (s.cells a).target ∧
        (s2.cells a).holdings = (s.cells a).holdings ∧
        (s2.cells a).unregister_token = (s.cells a).unregister_token ∧
        (s2.cells a).finalization_group = (s.cells a).finalization_group) ∧
      ((s2.cells s.next_cell).target = some target ∧
        (s2.cells s.next_cell).holdings = holdings ∧
        (s2.cells s.next_cell).unregister_token = tok ∧
        (s2.cells s.next_cell).finalization_group = g) ∧
      (s2.groups g).active_cells = some s.next_cell ∧
      (s2.groups g).cleared_cells = (s.groups g).cleared_cells ∧
      (∀ k2, s2.keyMapAt g k2 =
        if registerKey s tok fresh = some k2 then some s.next_cell else s.keyMapAt g k2) ∧
      (tok = none → (s2.groups g).key_map = (s.groups g).key_map) ∧
      (∀ g2, g2 ≠ g → s2.groups g2 = s.groups g2) ∧
      (∀ t, s2.hashes t = if tok = some t then registerKey s tok fresh else s.hashes t) ∧
      s2.next_cell = s.next_cell + 1 := by
  cases tok with
  | none =>
    obtain ⟨s2, h0, h1, h2, h3, h4, h5, h6, h7, h8, h9, h10⟩ :=
      Register_fields_none s g target holdings fresh
    refine ⟨s2, h0, h1, h2, ?_, ?_, ?_, ?_, h5, h6, ?_, fun _ => h7, h8, ?_, h10⟩
    · intro a
      by_cases ha : a = s.next_cell
      · subst ha; simp [registerKey, h4.2.2.2.2.2]
      · simp [registerKey, ha, (h3 a ha).2.2.2.2.2]
    · intro a
      by_cases ha : a = s.next_cell
      · subst ha; simp [registerKey, h4.2.2.2.2.1]
      · simp [registerKey, ha, (h3 a ha).2.2.2.2.1]
    · intro a ha
      exact ⟨(h3 a ha).1, (h3 a ha).2.1, (h3 a ha).2.2.1, (h3 a ha).2.2.2.1⟩
    · exact ⟨h4.1, h4.2.1, h4.2.2.1, h4.2.2.2.1⟩
    · intro k2; simp [registerKey, Heap.keyMapAt, h7]
    · intro t; simp [h9]
  | some token =>
    obtain ⟨s2, h0, h1, h2, h3, h4, h5, h6, h7, h8, h9, _, h11, h12, h13⟩ :=
      Register_fields_some s g target holdings token fresh _ rfl
    refine ⟨s2, h0, h1, h2, ?_, ?_, h5, h6, h7, h8, ?_, ?_, h11, ?_, h13⟩
    · intro a; rw [h3 a]; simp [registerKey]
    · intro a; rw [h4 a]; simp [registerKey]
    · intro k2; rw [h9 k2]; simp [registerKey, eq_comm]
    · intro h; cases h
    · intro t; rw [h12 t]; simp [registerKey, eq_comm]

theorem Heap.Chain.congr_at {s s2 : Heap} {g k : Nat} {l : List Nat}
    (hk : s2.keyMapAt g k = s.keyMapAt g k)
    (hf : ∀ a ∈ l, (s2.cells a).key_list_prev = (s.cells a).key_list_prev ∧
      (s2.cells a).key_list_next = (s.cells a).key_list_next)
    (hl : s.Chain g k l) : s2.Chain g k l := by
  unfold Heap.Chain Heap.KeyList at *
  rw [hk]
  exact IsDList.congr (fun a ha => (hf a ha).2) (fun a ha => (hf a ha).1) hl

/-- A cell is in the chain of one key only. -/
theorem Inv.chain_key {s : Heap} {g : Nat} {act clr : List Nat} {chain : Nat → List Nat}
    (h : Inv s g act clr chain) {a k k2 : Nat} (h1 : a ∈ chain k) (h2 : a ∈ chain k2) :
    k = k2 := by
  obtain ⟨_, t, ht, hk⟩ := (h.chain_mem k a).1 h1
  obtain ⟨_, t2, ht2, hk2⟩ := (h.chain_mem k2 a).1 h2
  rw [ht] at ht2; cases ht2
  rw [hk] at hk2; cases hk2; rfl

theorem Inv.chain_sub {s : Heap} {g : Nat} {act clr : List Nat} {chain : Nat → List Nat}
    (h : Inv s g act clr chain) {a k : Nat} (h1 : a ∈ chain k) : a ∈ act ++ clr :=
  ((h.chain_mem k a).1 h1).1

/-- Specification of `JSFinalizationGroup::Register` on a well-formed registry: it returns, the
new cell is the head of the active list and of the chain of its key, and the
registry stays well formed. -/
theorem Register_spec {s : Heap} {g : Nat} {act clr : List Nat} {chain : Nat → List Nat}
    (target holdings : Nat) (tok : Option Nat) (fresh : Nat)
    (inv : Inv s g act clr chain) :
    ∃ s2, JSFinalizationGroup.Register s g target holdings tok fresh = .ok s2 ∧
      Inv s2 g (s.next_cell :: act) clr
        (fun k => if registerKey s tok fresh = some k then s.next_cell :: chain k
          else chain k) := by
  obtain ⟨s2, hres, hnext, hprev, hknext, hkprev, hold, hnew, hact, hclr, hkm, _, _, hhash, hnc⟩ :=
    Register_fields s g target holdings tok fresh
  have hw : ∀ x ∈ act ++ clr, x ≠ s.next_cell := fun x hx e =>
    absurd (inv.bound x hx) (by rw [e]; exact lt_irrefl _)
  have hwA : ∀ x ∈ act, x ≠ s.next_cell := fun x hx => hw x (List.mem_append_left _ hx)
  have hwC : ∀ x ∈ clr, x ≠ s.next_cell := fun x hx => hw x (List.mem_append_right _ hx)
  have hwK : ∀ k, ∀ x ∈ chain k, x ≠ s.next_cell := fun k x hx => hw x (inv.chain_sub hx)
  have hheadA : ∀ b, (s.groups g).active_cells = some b → b ∈ act := fun b hb =>
    IsDList.head_mem inv.active hb
  have hstable : ∀ t, s.hashes t ≠ none → s2.hashes t = s.hashes t := by
    intro t ht
    rw [hhash t]
    by_cases h : tok = some t
    · subst h
      rw [if_pos rfl]
      rcases hh : s.hashes t with _ | v
      · exact absurd hh ht
      · simp [registerKey, hh]
    · rw [if_neg h]
  have hex : ∀ k, registerKey s tok fresh = some k →
      (registerKey s tok fresh).bind (s.keyMapAt g) = s.keyMapAt g k := by
    intro k hk; rw [hk]; rfl
  have hexmem : ∀ k b, registerKey s tok fresh = some k →
      (registerKey s tok fresh).bind (s.keyMapAt g) = some b → b ∈ chain k := by
    intro k b hk hb
    rw [hex k hk] at hb
    exact IsDList.head_mem (inv.chains k) hb
  refine ⟨s2, hres, ?_⟩
  constructor
  · -- active list
    unfold Heap.ActiveList Heap.CellList
    rw [hact]
    refine IsDList.cons inv.active inv.nodup_active ?_ ?_ ?_ ?_
    · show (s2.cells _).next = _
      rw [hnext, if_pos rfl]
    · show (s2.cells _).prev = _
      rw [hprev, if_neg (fun e => hwA _ (hheadA _ e) rfl), if_pos rfl]
    · intro a ha
      show (s2.cells a).next = _
      rw [hnext, if_neg (hwA a ha)]
    · intro a ha
      show (s2.cells a).prev = _
      rw [hprev a]
      by_cases h : (s.groups g).active_cells = some a
      · rw [if_pos h, if_pos h]
      · rw [if_neg h, if_neg h, if_neg (hwA a ha)]
  · -- cleared list
    unfold Heap.ClearedList Heap.CellList
    rw [hclr]
    refine IsDList.congr ?_ ?_ inv.cleared
    · intro a ha
      show (s2.cells a).next = _
      rw [hnext, if_neg (hwC a ha)]
    · intro a ha
      show (s2.cells a).prev = _
      rw [hprev, if_neg (fun e => inv.disjoint (hheadA a e) ha), if_neg (hwC a ha)]
  · show (s.next_cell :: (act ++ clr)).Nodup
    exact List.nodup_cons.2 ⟨fun e => hw _ e rfl, inv.nodup⟩
  · intro x hx
    rw [hnc]
    rcases List.mem_cons.1 hx with e | e
    · rw [e]; exact Nat.lt_succ_self _
    · exact Nat.lt_succ_of_lt (inv.bound x e)
  · intro x hx
    rcases List.mem_cons.1 hx with e | e
    · rw [e]; exact hnew.2.2.2
    · rw [(hold x (hw x e)).2.2.2]; exact inv.owner x e
  · intro x hx
    rcases List.mem_cons.1 hx with e | e
    · rw [e, hnew.1]; exact Option.some_ne_none _
    · rw [(hold x (hwA x e)).1]; exact inv.target_active x e
  · intro x hx
    rw [(hold x (hwC x hx)).1]; exact inv.target_cleared x hx
  · intro x hx t ht
    rcases List.mem_cons.1 hx with e | e
    · rw [e, hnew.2.2.1] at ht
      rw [hhash t, if_pos ht, ht]
      simp [registerKey]
    · rw [(hold x (hw x e)).2.2.1] at ht
      have := inv.hashed x e t ht
      rw [hstable t this]; exact this
  · -- chains
    intro k
    by_cases hk : registerKey s tok fresh = some k
    · simp only [if_pos hk]
      unfold Heap.Chain Heap.KeyList
      rw [hkm k, if_pos hk]
      refine IsDList.cons (inv.chains k) (inv.chain_nodup k) ?_ ?_ ?_ ?_
      · show (s2.cells _).key_list_next = _
        rw [hknext, if_pos rfl, hex k hk]
      · show (s2.cells _).key_list_prev = _
        rw [hkprev, if_neg (fun e => hwK k _ (hexmem k _ hk e) rfl), if_pos rfl]
      · intro a ha
        show (s2.cells a).key_list_next = _
        rw [hknext, if_neg (hwK k a ha)]
      · intro a ha
        show (s2.cells a).key_list_prev = _
        rw [hkprev a, hex k hk]
        by_cases h : s.keyMapAt g k = some a
        · rw [if_pos h, if_pos h]
        · rw [if_neg h, if_neg h, if_neg (hwK k a ha)]
    · simp only [if_neg hk]
      refine Heap.Chain.congr_at ?_ ?_ (inv.chains k)
      · rw [hkm k, if_neg hk]
      · intro a ha
        constructor
        · rw [hkprev a, if_neg (hwK k a ha), if_neg]
          intro e
          rcases hk2 : registerKey s tok fresh with _ | k2
          · rw [hk2] at e; cases e
          · have := hexmem k2 a hk2 e
            have := inv.chain_key this ha
            rw [hk2, this] at hk; exact hk rfl
        · rw [hknext a, if_neg (hwK k a ha)]
  · intro k
    by_cases hk : registerKey s tok fresh = some k
    · simp only [if_pos hk]
      exact List.nodup_cons.2 ⟨fun e => hwK k _ e rfl, inv.chain_nodup k⟩
    · simp only [if_neg hk]; exact inv.chain_nodup k
  · intro k x
    by_cases hx : x = s.next_cell
    · subst hx
      have hnotin : s.next_cell ∉ chain k := fun e => hwK k _ e rfl
      rw [hnew.2.2.1]
      constructor
      · intro h
        by_cases hk : registerKey s tok fresh = some k
        · refine ⟨List.mem_cons_self _ _, ?_⟩
          rcases tok with _ | t
          · simp [registerKey] at hk
          · exact ⟨t, rfl, by rw [hhash t, if_pos rfl, hk]⟩
        · rw [if_neg hk] at h; exact absurd h hnotin
      · rintro ⟨_, t, ht, hk⟩
        rw [hhash t, if_pos ht] at hk
        rw [if_pos hk]; exact List.mem_cons_self _ _
    · have h1 : (x ∈ if registerKey s tok fresh = some k then s.next_cell :: chain k
          else chain k) ↔ x ∈ chain k := by
        by_cases hk : registerKey s tok fresh = some k
        · rw [if_pos hk]; simp [hx]
        · rw [if_neg hk]
      have h2 : (x ∈ s.next_cell :: act ++ clr) ↔ x ∈ act ++ clr := by
        show x ∈ s.next_cell :: (act ++ clr) ↔ _
        simp [hx]
      rw [h1, h2, inv.chain_mem k x, (hold x hx).2.2.1]
      constructor
      · rintro ⟨hm, t, ht, hk⟩
        refine ⟨hm, t, ht, ?_⟩
        rw [hstable t (by rw [hk]; exact Option.some_ne_none _)]; exact hk
      · rintro ⟨hm, t, ht, hk⟩
        refine ⟨hm, t, ht, ?_⟩
        rw [← hstable t (inv.hashed x hm t ht)]; exact hk

/-- The heap after `PopClearedCellHoldings`, field by field; `c` is the head of
the cleared list. -/
theorem Pop_fields (s : Heap) (g c : Nat)
    (hcl : (s.groups g).cleared_cells = some c) (hp : (s.cells c).prev = none)
    (hnp : ∀ h, (s.cells c).next = some h → (s.cells h).prev = some c)
    (hk : ∀ t, (s.cells c).unregister_token = some t → (s.cells c).key_list_prev = none →
      ∃ d k, (s.groups g).key_map = some d ∧ s.hashes t = some k ∧
        ((s.cells c).key_list_next = none → d k ≠ none) ∧
        (∀ nx, (s.cells c).key_list_next = some nx → (s.cells nx).key_list_prev = some c)) :
    ∃ s2, JSFinalizationGroup.PopClearedCellHoldings s g = .ok ((s.cells c).holdings, s2) ∧
      (∀ a, (s2.cells a).next = if a = c then none else (s.cells a).next) ∧
      (∀ a, (s2.cells a).prev = if (s.cells c).next = some a then none else (s.cells a).prev) ∧
      (∀ a, (s2.cells a).key_list_next =
        if (s.cells c).unregister_token = none then (s.cells a).key_list_next
        else if (s.cells c).key_list_prev = some a then (s.cells c).key_list_next
        else if a = c ∧ (s.cells c).key_list_prev = none then none
        else (s.cells a).key_list_next) ∧
      (∀ a, (s2.cells a).key_list_prev =
        if (s.cells c).unregister_token = none then (s.cells a).key_list_prev
        else if (s.cells c).key_list_next = some a then (s.cells c).key_list_prev
        else (s.cells a).key_list_prev) ∧
      (∀ a, (s2.cells a).target = (s.cells a).target ∧
        (s2.cells a).holdings = (s.cells a).holdings ∧
        (s2.cells a).unregister_token = (s.cells a).unregister_token ∧
        (s2.cells a).finalization_group = (s.cells a).finalization_group) ∧
      (s2.groups g).active_cells = (s.groups g).active_cells ∧
      (s2.groups g).cleared_cells = (s.cells c).next ∧
      (∀ k2, s2.keyMapAt g k2 =
        if (s.cells c).key_list_prev = none ∧
            (s.cells c).unregister_token.bind s.hashes = some k2
        then (s.cells c).key_list_next else s.keyMapAt g k2) ∧
      ((s.cells c).unregister_token = none → (s2.groups g).key_map = (s.groups g).key_map) ∧
      (∀ g2, g2 ≠ g → s2.groups g2 = s.groups g2) ∧
      s2.hashes = s.hashes ∧ s2.next_cell = s.next_cell := by
  unfold JSFinalizationGroup.PopClearedCellHoldings Heap.GetHash Heap.keyMapAt
  rcases htk : (s.cells c).unregister_token with _ | t
  · rcases hnx : (s.cells c).next with _ | h
    · simp [hcl, hp, hnx, htk, Except.bind]
      intros; simp_all
    · have hnph := hnp h hnx
      simp [hcl, hp, hnx, htk, hnph, Except.bind]
      repeat' apply And.intro
      all_goals first | done | (intros; simp_all [eq_comm])
  · rcases hkp : (s.cells c).key_list_prev with _ | p
    · obtain ⟨d, k, hd, hh, hfound, hnxp⟩ := hk t htk hkp
      rcases hkn : (s.cells c).key_list_next with _ | nx
      · obtain ⟨e, he⟩ := Option.ne_none_iff_exists'.1 (hfound hkn)
        rcases hnx : (s.cells c).next with _ | h
        · simp [hcl, hp, hnx, htk, hkp, hkn, hd, hh, he, Except.bind,
            SimpleNumberDictionary.FindEntry, SimpleNumberDictionary.DeleteEntry]
          repeat' apply And.intro
          all_goals first | done | (intros; simp_all [eq_comm]; done) | (intro a; by_cases hac : a = c <;> simp [hac, hkn, hkp, htk, hnx, eq_comm])
        · have hnph := hnp h hnx
          simp [hcl, hp, hnx, htk, hkp, hkn, hd, hh, he, hnph, Except.bind,
            SimpleNumberDictionary.FindEntry, SimpleNumberDictionary.DeleteEntry]
          repeat' apply And.intro
          all_goals first | done | (intros; simp_all [eq_comm]; done) | (intro a; by_cases hac : a = c <;> simp [hac, hkn, hkp, htk, hnx, eq_comm])
      · have hnxp2 := hnxp nx hkn
        rcases hnx : (s.cells c).next with _ | h
        · simp [hcl, hp, hnx, htk, hkp, hkn, hd, hh, hnxp2, Except.bind,
            SimpleNumberDictionary.FindEntry, SimpleNumberDictionary.Set]
          repeat' apply And.intro
          all_goals first | done | (intros; simp_all [eq_comm])
        · have hnph := hnp h hnx
          simp [hcl, hp, hnx, htk, hkp, hkn, hd, hh, hnxp2, hnph, Except.bind,
            SimpleNumberDictionary.FindEntry, SimpleNumberDictionary.Set]
          repeat' apply And.intro
          all_goals first | done | (intros; simp_all [eq_comm])
    · rcases hkn : (s.cells c).key_list_next with _ | nx <;>
      rcases hnx : (s.cells c).next with _ | h
      all_goals first
        | (have hnph := hnp h hnx
           simp [hcl, hp, hnx, htk, hkp, hkn, hnph, Except.bind])
        | simp [hcl, hp, hnx, htk, hkp, hkn, Except.bind]
      all_goals repeat' apply And.intro
      all_goals first | done | (intros; simp_all [eq_comm])

/-- The predecessor of the successor of a listed cell is that cell. -/
theorem IsDList.prev_next {p h : Option Nat} {l : List Nat}
    (hl : IsDList nxt prv p h l) {c b : Nat} (hc : c ∈ l) (hb : nxt c = some b) :
    prv b = some c := by
  induction l generalizing p h with
  | nil => cases hc
  | cons a l ih =>
    obtain ⟨_, _, h3⟩ := hl
    rcases List.mem_cons.1 hc with rfl | hc2
    · cases l with
      | nil =>
        have : nxt c = none := h3
        rw [this] at hb; cases hb
      | cons d l =>
        have : nxt c = some d := h3.1
        rw [this] at hb; cases hb
        exact h3.2.1
    · exact ih h3 hc2

/-- In a list with nothing before it, exactly the head has no predecessor. -/
theorem IsDList.prev_none_iff {h : Option Nat} {l : List Nat}
    (hl : IsDList nxt prv none h l) {c : Nat} (hc : c ∈ l) :
    prv c = none ↔ h = some c := by
  constructor
  · intro hp
    by_contra hne
    obtain ⟨b, _, hb⟩ := IsDList.prev_of_ne_head hl hc hne
    rw [hp] at hb; cases hb
  · exact IsDList.prev_head hl

/-- Specification of `JSFinalizationGroup::PopClearedCellHoldings` on a well-formed registry whose
cleared list starts with `c`: it returns the holdings of `c`, and `c` leaves
the cleared list and its chain. -/
theorem Pop_spec {s : Heap} {g : Nat} {act clr : List Nat} {chain : Nat → List Nat} {c : Nat}
    (inv : Inv s g act (c :: clr) chain) :
    ∃ s2, JSFinalizationGroup.PopClearedCellHoldings s g = .ok ((s.cells c).holdings, s2) ∧
      Inv s2 g act clr (fun k => (chain k).erase c) ∧
      (∀ a, (s2.cells a).target = (s.cells a).target ∧
        (s2.cells a).holdings = (s.cells a).holdings ∧
        (s2.cells a).unregister_token = (s.cells a).unregister_token ∧
        (s2.cells a).finalization_group = (s.cells a).finalization_group) ∧
      (∀ g2, g2 ≠ g → s2.groups g2 = s.groups g2) ∧
      s2.hashes = s.hashes ∧ s2.next_cell = s.next_cell := by
  have hcl : (s.groups g).cleared_cells = some c := inv.cleared.1
  have hp : (s.cells c).prev = none := inv.cleared.2.1
  have hcC : c ∈ c :: clr := List.mem_cons_self _ _
  have hcL : c ∈ act ++ c :: clr := List.mem_append_right _ hcC
  have hcA : c ∉ act := fun e => inv.disjoint e hcC
  have ndC : (c :: clr).Nodup := inv.nodup_cleared
  have hcc : c ∉ clr := (List.nodup_cons.1 ndC).1
  have hnC : ∀ b, (s.cells c).next = some b → b ∈ clr := by
    intro b hb
    have h3 := inv.cleared.2.2
    exact IsDList.head_mem h3 hb
  have hnp : ∀ h, (s.cells c).next = some h → (s.cells h).prev = some c := fun h hh =>
    IsDList.prev_next inv.cleared hcC hh
  -- the chain of `c`
  have hchain : ∀ t, (s.cells c).unregister_token = some t →
      ∃ k, s.hashes t = some k ∧ c ∈ chain k := by
    intro t ht
    obtain ⟨k, hk⟩ := Option.ne_none_iff_exists'.1 (inv.hashed c hcL t ht)
    exact ⟨k, hk, (inv.chain_mem k c).2 ⟨hcL, t, ht, hk⟩⟩
  have hk : ∀ t, (s.cells c).unregister_token = some t → (s.cells c).key_list_prev = none →
      ∃ d k, (s.groups g).key_map = some d ∧ s.hashes t = some k ∧
        ((s.cells c).key_list_next = none → d k ≠ none) ∧
        (∀ nx, (s.cells c).key_list_next = some nx → (s.cells nx).key_list_prev = some c) := by
    intro t ht hkp
    obtain ⟨k, hk, hck⟩ := hchain t ht
    have hhead : s.keyMapAt g k = some c := (IsDList.prev_none_iff (inv.chains k) hck).1 hkp
    unfold Heap.keyMapAt at hhead
    rcases hd : (s.groups g).key_map with _ | d
    · rw [hd] at hhead; cases hhead
    · rw [hd] at hhead
      have hhead2 : d k = some c := hhead
      refine ⟨d, k, rfl, hk, fun _ => by rw [hhead2]; exact Option.some_ne_none _, ?_⟩
      intro nx hnx
      exact IsDList.prev_next (inv.chains k) hck hnx
  obtain ⟨s2, hres, hnext, hprev, hknext, hkprev, hsame, hact, hclr2, hkm, hkm0, hgr, hhash,
    hnc⟩ := Pop_fields s g c hcl hp hnp hk
  have hmem : ∀ x, x ∈ act ++ clr ↔ x ≠ c ∧ x ∈ act ++ c :: clr := by
    intro x
    simp only [List.mem_append, List.mem_cons]
    constructor
    · rintro (h | h)
      · exact ⟨fun e => hcA (by rw [← e]; exact h), Or.inl h⟩
      · exact ⟨fun e => hcc (by rw [← e]; exact h), Or.inr (Or.inr h)⟩
    · rintro ⟨h1, h2 | h2 | h2⟩
      · exact Or.inl h2
      · exact absurd h2 h1
      · exact Or.inr h2
  refine ⟨s2, hres, ?_, hsame, hgr, hhash, hnc⟩
  constructor
  · -- active list
    unfold Heap.ActiveList Heap.CellList
    rw [hact]
    refine IsDList.congr ?_ ?_ inv.active
    · intro a ha
      show (s2.cells a).next = _
      have hac : a ≠ c := fun e => hcA (by rw [← e]; exact ha)
      rw [hnext, if_neg hac]
    · intro a ha
      show (s2.cells a).prev = _
      rw [hprev, if_neg (fun e => inv.disjoint ha (List.mem_cons_of_mem _ (hnC a e)))]
  · -- cleared list
    unfold Heap.ClearedList Heap.CellList
    have key := @IsDList.erase _ _ (fun a => (s2.cells a).next)
      (fun a => (s2.cells a).prev) _ _ _ _ inv.cleared ndC (fun q hq => by cases hq) hcC
      (by
        intro a _ hac
        show (s2.cells a).next = _
        rw [hnext, if_neg hac]
        show _ = if (s.cells c).prev = some a then _ else _
        rw [hp, if_neg (by simp)])
      (by
        intro a _ _
        show (s2.cells a).prev = _
        rw [hprev]
        show _ = if (s.cells c).next = some a then (s.cells c).prev else _
        rw [hp])
    rw [if_pos hcl, List.erase_cons_head] at key
    rw [hclr2]; exact key
  · exact List.Nodup.append inv.nodup_active (List.nodup_cons.1 ndC).2
      (fun a ha hc => inv.disjoint ha (List.mem_cons_of_mem _ hc))
  · intro x hx; rw [hnc]; exact inv.bound x ((hmem x).1 hx).2
  · intro x hx; rw [(hsame x).2.2.2]; exact inv.owner x ((hmem x).1 hx).2
  · intro x hx; rw [(hsame x).1]; exact inv.target_active x hx
  · intro x hx; rw [(hsame x).1]; exact inv.target_cleared x (List.mem_cons_of_mem _ hx)
  · intro x hx t ht
    rw [(hsame x).2.2.1] at ht
    rw [hhash]; exact inv.hashed x ((hmem x).1 hx).2 t ht
  · -- chains
    intro k2
    show s2.Chain g k2 ((chain k2).erase c)
    by_cases hck : c ∈ chain k2
    · obtain ⟨_, t, ht, hk2⟩ := (inv.chain_mem k2 c).1 hck
      have htn : (s.cells c).unregister_token ≠ none := by rw [ht]; exact Option.some_ne_none _
      unfold Heap.Chain Heap.KeyList
      have key := @IsDList.erase _ _ (fun a => (s2.cells a).key_list_next)
        (fun a => (s2.cells a).key_list_prev) _ _ _ _ (inv.chains k2) (inv.chain_nodup k2)
        (fun q hq => by cases hq) hck
        (by
          intro a _ hac
          show (s2.cells a).key_list_next = _
          rw [hknext, if_neg htn]
          show _ = if (s.cells c).key_list_prev = some a then _ else _
          by_cases h : (s.cells c).key_list_prev = some a
          · rw [if_pos h, if_pos h]
          · rw [if_neg h, if_neg h, if_neg (fun e => hac e.1)])
        (by
          intro a _ _
          show (s2.cells a).key_list_prev = _
          rw [hkprev, if_neg htn])
      have hkey : s2.keyMapAt g k2 =
          if s.keyMapAt g k2 = some c then (s.cells c).key_list_next else s.keyMapAt g k2 := by
        rw [hkm k2, ht]
        have hb : (some t).bind s.hashes = some k2 := hk2
        by_cases hkp : (s.cells c).key_list_prev = none
        · rw [if_pos ⟨hkp, hb⟩, if_pos ((IsDList.prev_none_iff (inv.chains k2) hck).1 hkp)]
        · rw [if_neg (fun e => hkp e.1),
            if_neg (fun e => hkp ((IsDList.prev_none_iff (inv.chains k2) hck).2 e))]
      rw [hkey]; exact key
    · rw [List.erase_of_not_mem hck]
      have hkey : s2.keyMapAt g k2 = s.keyMapAt g k2 := by
        rw [hkm k2, if_neg]
        rintro ⟨_, hb⟩
        rcases ht : (s.cells c).unregister_token with _ | t
        · rw [ht] at hb; cases hb
        · rw [ht] at hb
          exact hck ((inv.chain_mem k2 c).2 ⟨hcL, t, ht, hb⟩)
      refine Heap.Chain.congr_at hkey ?_ (inv.chains k2)
      intro a ha
      have hac : a ≠ c := fun e => hck (e ▸ ha)
      rcases ht : (s.cells c).unregister_token with _ | t
      · rw [hkprev, hknext, if_pos ht, if_pos ht]; exact ⟨rfl, rfl⟩
      · have htn : (s.cells c).unregister_token ≠ none := by
          rw [ht]; exact Option.some_ne_none _
        obtain ⟨k, _, hk1⟩ := hchain t ht
        have hkk : k ≠ k2 := fun e => hck (e ▸ hk1)
        constructor
        · rw [hkprev, if_neg htn, if_neg]
          intro e
          exact hkk (inv.chain_key (IsDList.next_mem (inv.chains k) hk1 e) ha)
        · rw [hknext, if_neg htn, if_neg, if_neg (fun e => hac e.1)]
          intro e
          rcases IsDList.prev_mem (inv.chains k) hk1 e with h | h
          · cases h
          · exact hkk (inv.chain_key h ha)
  · intro k2; exact (inv.chain_nodup k2).erase c
  · intro k2 x
    show x ∈ (chain k2).erase c ↔ _
    rw [(inv.chain_nodup k2).mem_erase_iff, inv.chain_mem k2 x, hmem x, (hsame x).2.2.1, hhash]
    tauto

/-- The heap after `WeakCell::RemoveFromFinalizationGroupCells`, field by field. -/
theorem RemoveFromFinalizationGroupCells_fields (s : Heap) (g c : Nat)
    (ho : (s.cells c).finalization_group = g)
    (hh : (s.cells c).prev = none ↔
      ((s.groups g).active_cells = some c ∨ (s.groups g).cleared_cells = some c)) :
    ∃ s2, WeakCell.RemoveFromFinalizationGroupCells s c = .ok s2 ∧
      (∀ a, (s2.cells a).next =
        if a = c then none
        else if (s.cells c).prev = some a then (s.cells c).next else (s.cells a).next) ∧
      (∀ a, (s2.cells a).prev =
        if a = c then none
        else if (s.cells c).next = some a then (s.cells c).prev else (s.cells a).prev) ∧
      (∀ a, (s2.cells a).target = if a = c then none else (s.cells a).target) ∧
      (∀ a, (s2.cells a).key_list_prev = (s.cells a).key_list_prev ∧
        (s2.cells a).key_list_next = (s.cells a).key_list_next ∧
        (s2.cells a).unregister_token = (s.cells a).unregister_token ∧
        (s2.cells a).holdings = (s.cells a).holdings ∧
        (s2.cells a).finalization_group = (s.cells a).finalization_group) ∧
      (s2.groups g).active_cells =
        (if (s.groups g).active_cells = some c then (s.cells c).next
         else (s.groups g).active_cells) ∧
      (s2.groups g).cleared_cells =
        (if (s.groups g).active_cells = some c then (s.groups g).cleared_cells
         else if (s.groups g).cleared_cells = some c then (s.cells c).next
         else (s.groups g).cleared_cells) ∧
      (s2.groups g).key_map = (s.groups g).key_map ∧
      (∀ g2, g2 ≠ g → s2.groups g2 = s.groups g2) ∧
      s2.hashes = s.hashes ∧ s2.next_cell = s.next_cell := by
  unfold WeakCell.RemoveFromFinalizationGroupCells
  rcases hp : (s.cells c).prev with _ | q <;>
  rcases hnx : (s.cells c).next with _ | b <;>
  by_cases hac : (s.groups g).active_cells = some c <;>
  by_cases hcl : (s.groups g).cleared_cells = some c
  all_goals simp only [hp, hac, hcl, or_self, or_true, true_or, iff_true, true_iff,
    iff_false, false_iff, not_true_eq_false, not_false_eq_true, reduceCtorEq] at hh
  all_goals simp [ho, hp, hnx, hac, hcl, Except.bind]
  all_goals repeat' apply And.intro
  all_goals first | done | (intros; simp_all [eq_comm])

/-- Specification of `WeakCell::RemoveFromFinalizationGroupCells` on a listed cell: it returns
and the cell leaves the list it is in. -/
theorem RemoveFromFinalizationGroupCells_spec {s : Heap} {g : Nat} {act clr : List Nat}
    {c : Nat} (ha : s.ActiveList g act) (hc : s.ClearedList g clr)
    (nd : (act ++ clr).Nodup) (hmem : c ∈ act ++ clr)
    (ho : (s.cells c).finalization_group = g) :
    ∃ s2, WeakCell.RemoveFromFinalizationGroupCells s c = .ok s2 ∧
      s2.ActiveList g (act.erase c) ∧ s2.ClearedList g (clr.erase c) ∧
      (∀ a, (s2.cells a).target = if a = c then none else (s.cells a).target) ∧
      (∀ a, (s2.cells a).key_list_prev = (s.cells a).key_list_prev ∧
        (s2.cells a).key_list_next = (s.cells a).key_list_next ∧
        (s2.cells a).unregister_token = (s.cells a).unregister_token ∧
        (s2.cells a).holdings = (s.cells a).holdings ∧
        (s2.cells a).finalization_group = (s.cells a).finalization_group) ∧
      (∀ a, a ∉ act ++ clr → (s2.cells a).next = (s.cells a).next ∧
        (s2.cells a).prev = (s.cells a).prev) ∧
      (s2.groups g).key_map = (s.groups g).key_map ∧
      (∀ g2, g2 ≠ g → s2.groups g2 = s.groups g2) ∧
      s2.hashes = s.hashes ∧ s2.next_cell = s.next_cell := by
  have ndA : act.Nodup := (List.nodup_append.1 nd).1
  have ndC : clr.Nodup := (List.nodup_append.1 nd).2.1
  have disj : ∀ a, a ∈ act → a ∈ clr → False := fun a h1 h2 =>
    (List.nodup_append.1 nd).2.2 h1 h2
  have hheadA : ∀ b, (s.groups g).active_cells = some b → b ∈ act := fun b hb =>
    IsDList.head_mem ha hb
  have hheadC : ∀ b, (s.groups g).cleared_cells = some b → b ∈ clr := fun b hb =>
    IsDList.head_mem hc hb
  rcases List.mem_append.1 hmem with hcA | hcC
  · -- an active cell
    have hcC : c ∉ clr := fun e => disj c hcA e
    have hnc : (s.groups g).cleared_cells ≠ some c := fun e => hcC (hheadC c e)
    have hpn : (s.cells c).prev = none ↔ (s.groups g).active_cells = some c :=
      IsDList.prev_none_iff ha hcA
    have hh : (s.cells c).prev = none ↔
        ((s.groups g).active_cells = some c ∨ (s.groups g).cleared_cells = some c) := by
      rw [hpn]; simp [hnc]
    obtain ⟨s2, hres, hnext, hprev, htgt, hsame, hact, hclr, hkm, hgr, hhash, hnxc⟩ :=
      RemoveFromFinalizationGroupCells_fields s g c ho hh
    have hnA : ∀ b, (s.cells c).next = some b → b ∈ act := fun b hb =>
      IsDList.next_mem ha hcA hb
    have hpA : ∀ b, (s.cells c).prev = some b → b ∈ act := fun b hb => by
      rcases IsDList.prev_mem ha hcA hb with h | h
      · cases h
      · exact h
    refine ⟨s2, hres, ?_, ?_, htgt, hsame, ?_, hkm, hgr, hhash, hnxc⟩
    rotate_left 2
    · intro a ha2
      have hac : a ≠ c := fun e => ha2 (by rw [e]; exact hmem)
      rw [hnext a, hprev a, if_neg hac, if_neg hac,
        if_neg (fun e => ha2 (List.mem_append_left _ (hpA a e))),
        if_neg (fun e => ha2 (List.mem_append_left _ (hnA a e)))]
      exact ⟨rfl, rfl⟩
    · unfold Heap.ActiveList Heap.CellList
      rw [hact]
      refine IsDList.erase ha ndA (fun q hq => by cases hq) hcA ?_ ?_
      · intro a _ hac
        show (s2.cells a).next = _
        rw [hnext a, if_neg hac]
      · intro a _ hac
        show (s2.cells a).prev = _
        rw [hprev a, if_neg hac]
    · rw [List.erase_of_not_mem hcC]
      unfold Heap.ClearedList Heap.CellList
      have : (s2.groups g).cleared_cells = (s.groups g).cleared_cells := by
        rw [hclr]
        by_cases h : (s.groups g).active_cells = some c
        · rw [if_pos h]
        · rw [if_neg h, if_neg hnc]
      rw [this]
      refine IsDList.congr ?_ ?_ hc
      · intro a ha2
        show (s2.cells a).next = _
        have hac : a ≠ c := fun e => hcC (by rw [← e]; exact ha2)
        rw [hnext a, if_neg hac, if_neg (fun e => disj a (hpA a e) ha2)]
      · intro a ha2
        show (s2.cells a).prev = _
        have hac : a ≠ c := fun e => hcC (by rw [← e]; exact ha2)
        rw [hprev a, if_neg hac, if_neg (fun e => disj a (hnA a e) ha2)]
  · -- a cleared cell
    have hcA : c ∉ act := fun e => disj c e hcC
    have hna : (s.groups g).active_cells ≠ some c := fun e => hcA (hheadA c e)
    have hpn : (s.cells c).prev = none ↔ (s.groups g).cleared_cells = some c :=
      IsDList.prev_none_iff hc hcC
    have hh : (s.cells c).prev = none ↔
        ((s.groups g).active_cells = some c ∨ (s.groups g).cleared_cells = some c) := by
      rw [hpn]; simp [hna]
    obtain ⟨s2, hres, hnext, hprev, htgt, hsame, hact, hclr, hkm, hgr, hhash, hnxc⟩ :=
      RemoveFromFinalizationGroupCells_fields s g c ho hh
    have hnC : ∀ b, (s.cells c).next = some b → b ∈ clr := fun b hb =>
      IsDList.next_mem hc hcC hb
    have hpC : ∀ b, (s.cells c).prev = some b → b ∈ clr := fun b hb => by
      rcases IsDList.prev_mem hc hcC hb with h | h
      · cases h
      · exact h
    refine ⟨s2, hres, ?_, ?_, htgt, hsame, ?_, hkm, hgr, hhash, hnxc⟩
    rotate_left 2
    · intro a ha2
      have hac : a ≠ c := fun e => ha2 (by rw [e]; exact hmem)
      rw [hnext a, hprev a, if_neg hac, if_neg hac,
        if_neg (fun e => ha2 (List.mem_append_right _ (hpC a e))),
        if_neg (fun e => ha2 (List.mem_append_right _ (hnC a e)))]
      exact ⟨rfl, rfl⟩
    · rw [List.erase_of_not_mem hcA]
      unfold Heap.ActiveList Heap.CellList
      rw [hact, if_neg hna]
      refine IsDList.congr ?_ ?_ ha
      · intro a ha2
        show (s2.cells a).next = _
        have hac : a ≠ c := fun e => hcA (by rw [← e]; exact ha2)
        rw [hnext a, if_neg hac, if_neg (fun e => disj a ha2 (hpC a e))]
      · intro a ha2
        show (s2.cells a).prev = _
        have hac : a ≠ c := fun e => hcA (by rw [← e]; exact ha2)
        rw [hprev a, if_neg hac, if_neg (fun e => disj a ha2 (hnC a e))]
    · unfold Heap.ClearedList Heap.CellList
      rw [hclr, if_neg hna]
      refine IsDList.erase hc ndC (fun q hq => by cases hq) hcC ?_ ?_
      · intro a _ hac
        show (s2.cells a).next = _
        rw [hnext a, if_neg hac]
      · intro a _ hac
        show (s2.cells a).prev = _
        rw [hprev a, if_neg hac]

theorem IsDList.head_ne_none {nxt prv : Nat → Option Nat} {p h : Option Nat} {l : List Nat}
    (hl : IsDList nxt prv p h l) (hne : l ≠ []) : h ≠ none := by
  cases l with
  | nil => exact absurd rfl hne
  | cons a l => rw [hl.1]; exact Option.some_ne_none _

/-- The loop of `RemoveUnregisterToken` with `RemoveFromFinalizationGroupCells`
as match action, run on the rest `l2` of a chain: it returns, the matching
cells leave their lists, and the other cells are appended to the rebuilt
chain `r`. -/
theorem RemoveUnregisterToken_loop_spec {ν : Type} (T g : Nat)
    (f : ν → HeapObject → ObjectSlot → Option Nat → ν) (tok : Nat → Option Nat) :
    ∀ (l2 : List Nat) (fuel : Nat) (s : Heap) (value : Option Nat) (wp : Bool)
      (head prev : Option Nat) (n : ν) (act clr r : List Nat),
      l2.length ≤ fuel →
      (∀ a, (s.cells a).unregister_token = tok a) →
      s.ActiveList g act → s.ClearedList g clr → (act ++ clr).Nodup →
      (∀ c ∈ act ++ clr, (s.cells c).finalization_group = g) →
      IsSList (fun a => (s.cells a).key_list_next) value l2 → l2.Nodup →
      (∀ c ∈ l2, c ∈ act ++ clr) →
      (∀ c ∈ act ++ clr, tok c = some T → c ∈ l2) →
      IsDList (fun a => (s.cells a).key_list_next) (fun a => (s.cells a).key_list_prev)
        none head r →
      r.Nodup → (∀ c ∈ r, c ∉ l2) → prev = lastOr none r →
      ∃ s2 wp2 head2 n2,
        JSFinalizationGroup.RemoveUnregisterToken.loop T
          WeakCell.RemoveFromFinalizationGroupCells f fuel s value wp head prev n
          = .ok (s2, wp2, head2, n2) ∧
        s2.ActiveList g (act.filter fun c => decide (tok c ≠ some T)) ∧
        s2.ClearedList g (clr.filter fun c => decide (tok c ≠ some T)) ∧
        IsDList (fun a => (s2.cells a).key_list_next) (fun a => (s2.cells a).key_list_prev)
          none head2 (r ++ l2.filter fun c => decide (tok c ≠ some T)) ∧
        wp2 = (wp || l2.any fun c => decide (tok c = some T)) ∧
        (∀ a, (s2.cells a).unregister_token = (s.cells a).unregister_token ∧
          (s2.cells a).holdings = (s.cells a).holdings ∧
          (s2.cells a).finalization_group = (s.cells a).finalization_group) ∧
        (∀ a, (s2.cells a).target =
          if a ∈ l2 ∧ tok a = some T then none else (s.cells a).target) ∧
        (∀ a, a ∉ l2 → a ∉ r → (s2.cells a).key_list_prev = (s.cells a).key_list_prev ∧
          (s2.cells a).key_list_next = (s.cells a).key_list_next) ∧
        (∀ a, a ∉ act ++ clr → (s2.cells a).next = (s.cells a).next ∧
          (s2.cells a).prev = (s.cells a).prev) ∧
        (s2.groups g).key_map = (s.groups g).key_map ∧
        (∀ g2, g2 ≠ g → s2.groups g2 = s.groups g2) ∧
        s2.hashes = s.hashes ∧ s2.next_cell = s.next_cell := by
  intro l2
  induction l2 with
  | nil =>
    intro fuel s value wp head prev n act clr r _ htok ha hc nd _ hs _ _ hall hr _ _ _
    have hv : value = none := hs
    subst hv
    have hfa : (act.filter fun c => decide (tok c ≠ some T)) = act := by
      rw [List.filter_eq_self]
      intro c hc2
      have : tok c ≠ some T := fun e => by
        have := hall c (List.mem_append_left _ hc2) e
        cases this
      simpa using this
    have hfc : (clr.filter fun c => decide (tok c ≠ some T)) = clr := by
      rw [List.filter_eq_self]
      intro c hc2
      have : tok c ≠ some T := fun e => by
        have := hall c (List.mem_append_right _ hc2) e
        cases this
      simpa using this
    refine ⟨s, wp, head, n, ?_, ?_, ?_, ?_, ?_, ?_, ?_, ?_, ?_, rfl, fun _ _ => rfl, rfl, rfl⟩
    · cases fuel <;> rfl
    · rw [hfa]; exact ha
    · rw [hfc]; exact hc
    · simpa using hr
    · simp
    · intro a; exact ⟨rfl, rfl, rfl⟩
    · intro a; simp
    · intro a _ _; exact ⟨rfl, rfl⟩
    · intro a _; exact ⟨rfl, rfl⟩
  | cons w l2 ih =>
    intro fuel s value wp head prev n act clr r hfuel htok ha hc nd hown hs hnd hsub hall hr
      hrnd hrdis hprev
    obtain ⟨hv, hs2⟩ := hs
    subst hv
    obtain ⟨fuel, rfl⟩ : ∃ k, fuel = k + 1 := by
      cases fuel with
      | zero => simp at hfuel
      | succ k => exact ⟨k, rfl⟩
    have hfuel2 : l2.length ≤ fuel := by simpa using hfuel
    have hwl : w ∉ l2 := (List.nodup_cons.1 hnd).1
    have hnd2 : l2.Nodup := (List.nodup_cons.1 hnd).2
    have hwr : w ∉ r := fun e => hrdis w e (List.mem_cons_self _ _)
    have hwm : w ∈ act ++ clr := hsub w (List.mem_cons_self _ _)
    have hmemE : ∀ c, c ∈ act.erase w ++ clr.erase w ↔ c ≠ w ∧ c ∈ act ++ clr := by
      intro c
      rw [List.mem_append, List.mem_append,
        (List.nodup_append.1 nd).1.mem_erase_iff, (List.nodup_append.1 nd).2.1.mem_erase_iff]
      tauto
    by_cases htw : tok w = some T
    · -- the cell matches: it is removed from its list and from the chain
      obtain ⟨s1, hres1, ha1, hc1, htgt1, hsame1, hnp1, hkm1, hgr1, hhash1, hnc1⟩ :=
        RemoveFromFinalizationGroupCells_spec ha hc nd hwm (hown w hwm)
      have hstep := ih fuel ((s1.set_key_list_prev w none).set_key_list_next w none)
        (s.cells w).key_list_next true head prev n (act.erase w) (clr.erase w) r hfuel2
        (by intro a; simp [(hsame1 a).2.2.1, htok a])
        (by simpa [Heap.ActiveList, Heap.CellList] using ha1)
        (by simpa [Heap.ClearedList, Heap.CellList] using hc1)
        (((List.nodup_append.1 nd).1.erase w).append ((List.nodup_append.1 nd).2.1.erase w)
          (fun a h1 h2 => (List.nodup_append.1 nd).2.2 (List.mem_of_mem_erase h1)
            (List.mem_of_mem_erase h2)))
        (by
          intro c hc2
          simp only [set_key_list_next_finalization_group,
            set_key_list_prev_finalization_group, (hsame1 c).2.2.2.2]
          exact hown c ((hmemE c).1 hc2).2)
        (by
          refine IsSList.congr_next ?_ hs2
          intro a ha2
          have haw : a ≠ w := fun e => hwl (by rw [← e]; exact ha2)
          simp [haw, (hsame1 a).2.1])
        hnd2
        (by
          intro c hc2
          have hcw : c ≠ w := fun e => hwl (by rw [← e]; exact hc2)
          exact (hmemE c).2 ⟨hcw, hsub c (List.mem_cons_of_mem _ hc2)⟩)
        (by
          intro c hc2 hct
          obtain ⟨hcw, hc3⟩ := (hmemE c).1 hc2
          rcases List.mem_cons.1 (hall c hc3 hct) with e | e
          · exact absurd e hcw
          · exact e)
        (by
          refine IsDList.congr ?_ ?_ hr
          · intro a ha2
            have haw : a ≠ w := fun e => hwr (by rw [← e]; exact ha2)
            simp [haw, (hsame1 a).2.1]
          · intro a ha2
            have haw : a ≠ w := fun e => hwr (by rw [← e]; exact ha2)
            simp [haw, (hsame1 a).1])
        hrnd (fun c hc2 hc3 => hrdis c hc2 (List.mem_cons_of_mem _ hc3)) hprev
      obtain ⟨s2, wp2, head2, n2, hres, hA, hC, hK, hwp, hsame, htgt, hkl, hnp, hkm, hgr, hhash,
        hnc⟩ := hstep
      have hkw : (fun c => decide (tok c ≠ some T)) w = false := by simp [htw]
      refine ⟨s2, wp2, head2, n2, ?_, ?_, ?_, ?_, ?_, ?_, ?_, ?_, ?_, ?_, ?_, ?_, ?_⟩
      · rw [JSFinalizationGroup.RemoveUnregisterToken.loop]
        simp only [htok w, htw, if_true, hres1, Except.bind]
        exact hres
      · rw [← filter_erase_of_false _ act w hkw]; exact hA
      · rw [← filter_erase_of_false _ clr w hkw]; exact hC
      · rw [List.filter_cons_of_neg (by simp [htw])]; exact hK
      · rw [hwp]; simp [htw]
      · intro a
        obtain ⟨h1, h2, h3⟩ := hsame a
        simp only [set_key_list_next_unregister_token, set_key_list_prev_unregister_token,
          set_key_list_next_holdings, set_key_list_prev_holdings,
          set_key_list_next_finalization_group, set_key_list_prev_finalization_group] at h1 h2 h3
        exact ⟨h1.trans (hsame1 a).2.2.1, h2.trans (hsame1 a).2.2.2.1,
          h3.trans (hsame1 a).2.2.2.2⟩
      · intro a
        rw [htgt a]
        simp only [set_key_list_next_target, set_key_list_prev_target, htgt1 a,
          List.mem_cons]
        by_cases haw : a = w
        · subst haw; simp [htw]
        · simp [haw]
      · intro a ha2 ha3
        have haw : a ≠ w := fun e => ha2 (by rw [e]; exact List.mem_cons_self _ _)
        obtain ⟨h1, h2⟩ := hkl a (fun e => ha2 (List.mem_cons_of_mem _ e)) ha3
        simp only [set_key_list_next_key_list_prev, set_key_list_prev_key_list_prev,
          set_key_list_next_key_list_next, set_key_list_prev_key_list_next, if_neg haw]
          at h1 h2
        exact ⟨h1.trans (hsame1 a).1, h2.trans (hsame1 a).2.1⟩
      · intro a ha2
        have ha3 : a ∉ act.erase w ++ clr.erase w := fun e => ha2 ((hmemE a).1 e).2
        obtain ⟨h1, h2⟩ := hnp a ha3
        simp only [set_key_list_next_next, set_key_list_prev_next,
          set_key_list_next_prev, set_key_list_prev_prev] at h1 h2
        exact ⟨h1.trans (hnp1 a ha2).1, h2.trans (hnp1 a ha2).2⟩
      · rw [hkm]; simpa using hkm1
      · intro g2 hg2; rw [hgr g2 hg2]; simpa using hgr1 g2 hg2
      · rw [hhash]; simpa using hhash1
      · rw [hnc]; simpa using hnc1
    · -- the cell survives: it is appended to the rebuilt chain
      have hsurv : ∀ (s1 : Heap) (head1 : Option Nat) (n1 : ν),
          (∀ a, (s1.cells a).key_list_next =
            if prev = some a then some w else if a = w then none
            else (s.cells a).key_list_next) →
          (∀ a, (s1.cells a).key_list_prev =
            if a = w then prev else (s.cells a).key_list_prev) →
          (∀ a, (s1.cells a).next = (s.cells a).next ∧ (s1.cells a).prev = (s.cells a).prev ∧
            (s1.cells a).target = (s.cells a).target ∧
            (s1.cells a).unregister_token = (s.cells a).unregister_token ∧
            (s1.cells a).holdings = (s.cells a).holdings ∧
            (s1.cells a).finalization_group = (s.cells a).finalization_group) →
          s1.groups = s.groups → s1.hashes = s.hashes → s1.next_cell = s.next_cell →
          head1 = (if r = [] then some w else head) →
          ∃ s2 wp2 head2 n2,
            JSFinalizationGroup.RemoveUnregisterToken.loop T
              WeakCell.RemoveFromFinalizationGroupCells f fuel s1 (s.cells w).key_list_next
              wp head1 (some w) n1 = .ok (s2, wp2, head2, n2) ∧
            s2.ActiveList g (act.filter fun c => decide (tok c ≠ some T)) ∧
            s2.ClearedList g (clr.filter fun c => decide (tok c ≠ some T)) ∧
            IsDList (fun a => (s2.cells a).key_list_next)
              (fun a => (s2.cells a).key_list_prev)
              none head2 (r ++ (w :: l2).filter fun c => decide (tok c ≠ some T)) ∧
            wp2 = (wp || (w :: l2).any fun c => decide (tok c = some T)) ∧
            (∀ a, (s2.cells a).unregister_token = (s.cells a).unregister_token ∧
              (s2.cells a).holdings = (s.cells a).holdings ∧
              (s2.cells a).finalization_group = (s.cells a).finalization_group) ∧
            (∀ a, (s2.cells a).target =
              if a ∈ w :: l2 ∧ tok a = some T then none else (s.cells a).target) ∧
            (∀ a, a ∉ w :: l2 → a ∉ r →
              (s2.cells a).key_list_prev = (s.cells a).key_list_prev ∧
              (s2.cells a).key_list_next = (s.cells a).key_list_next) ∧
            (∀ a, a ∉ act ++ clr → (s2.cells a).next = (s.cells a).next ∧
              (s2.cells a).prev = (s.cells a).prev) ∧
            (s2.groups g).key_map = (s.groups g).key_map ∧
            (∀ g2, g2 ≠ g → s2.groups g2 = s.groups g2) ∧
            s2.hashes = s.hashes ∧ s2.next_cell = s.next_cell := by
        intro s1 head1 n1 hkn hkp hoth hgroups hh1 hn1 hhead1
        have hlast : ∀ a, prev = some a → a ∈ r := by
          intro a ha2
          by_cases hr0 : r = []
          · subst hr0; rw [hprev] at ha2; cases ha2
          · obtain ⟨b, hb, hb2⟩ := lastOr_mem (p := none) hr0
            rw [hprev, hb2] at ha2; cases ha2; exact hb
        have hstep := ih fuel s1 (s.cells w).key_list_next wp head1 (some w) n1 act clr
          (r ++ [w]) hfuel2
          (by intro a; rw [(hoth a).2.2.2.1, htok a])
          (by
            unfold Heap.ActiveList Heap.CellList
            rw [hgroups]
            exact IsDList.congr (fun a _ => (hoth a).1) (fun a _ => (hoth a).2.1) ha)
          (by
            unfold Heap.ClearedList Heap.CellList
            rw [hgroups]
            exact IsDList.congr (fun a _ => (hoth a).1) (fun a _ => (hoth a).2.1) hc)
          nd
          (by intro c hc2; rw [(hoth c).2.2.2.2.2]; exact hown c hc2)
          (by
            refine IsSList.congr_next ?_ hs2
            intro a ha2
            have haw : a ≠ w := fun e => hwl (by rw [← e]; exact ha2)
            show (s1.cells a).key_list_next = _
            rw [hkn a, if_neg haw, if_neg]
            intro e
            exact hrdis a (hlast a e) (List.mem_cons_of_mem _ ha2))
          hnd2
          (fun c hc2 => hsub c (List.mem_cons_of_mem _ hc2))
          (by
            intro c hc2 hct
            rcases List.mem_cons.1 (hall c hc2 hct) with e | e
            · rw [e] at hct; exact absurd hct htw
            · exact e)
          (by
            rw [hhead1]
            refine IsDList.snoc hr hrnd (fun q hq => by cases hq) ?_ ?_ ?_ ?_
            · show (s1.cells w).key_list_next = none
              rw [hkn w, if_neg (fun e => hwr (hlast w e)), if_pos rfl]
            · show (s1.cells w).key_list_prev = _
              rw [hkp w, if_pos rfl, hprev]
            · intro a ha2
              show (s1.cells a).key_list_next = _
              have haw : a ≠ w := fun e => hwr (by rw [← e]; exact ha2)
              rw [hkn a, ← hprev]
              by_cases h : prev = some a
              · rw [if_pos h, if_pos h]
              · rw [if_neg h, if_neg h, if_neg haw]
            · intro a ha2
              show (s1.cells a).key_list_prev = _
              have haw : a ≠ w := fun e => hwr (by rw [← e]; exact ha2)
              rw [hkp a, if_neg haw])
          (by
            rw [List.nodup_append]
            refine ⟨hrnd, List.nodup_singleton w, ?_⟩
            intro a ha2 ha3
            rw [List.mem_singleton] at ha3
            exact hwr (by rw [← ha3]; exact ha2))
          (by
            intro c hc2 hc3
            rcases List.mem_append.1 hc2 with e | e
            · exact hrdis c e (List.mem_cons_of_mem _ hc3)
            · rw [List.mem_singleton] at e
              exact hwl (by rw [← e]; exact hc3))
          (lastOr_append_singleton none r w).symm
        obtain ⟨s2, wp2, head2, n2, hres, hA, hC, hK, hwp, hsame, htgt, hkl, hnp, hkm, hgr,
          hhash, hnc⟩ := hstep
        refine ⟨s2, wp2, head2, n2, hres, hA, hC, ?_, ?_, ?_, ?_, ?_, ?_, ?_, ?_, ?_, ?_⟩
        · have hfw : ((w :: l2).filter fun c => decide (tok c ≠ some T)) =
              w :: l2.filter fun c => decide (tok c ≠ some T) := by
            simp [List.filter_cons, htw]
          rw [hfw]
          simpa using hK
        · rw [hwp]; simp [htw]
        · intro a
          obtain ⟨h1, h2, h3⟩ := hsame a
          exact ⟨h1.trans (hoth a).2.2.2.1, h2.trans (hoth a).2.2.2.2.1,
            h3.trans (hoth a).2.2.2.2.2⟩
        · intro a
          rw [htgt a, (hoth a).2.2.1]
          by_cases haw : a = w
          · subst haw; simp [htw, hwl]
          · simp [haw]
        · intro a ha2 ha3
          have haw : a ≠ w := fun e => ha2 (by rw [e]; exact List.mem_cons_self _ _)
          obtain ⟨h1, h2⟩ := hkl a (fun e => ha2 (List.mem_cons_of_mem _ e))
            (fun e => by
              rcases List.mem_append.1 e with e | e
              · exact ha3 e
              · exact haw (List.mem_singleton.1 e))
          rw [h1, h2, hkp a, hkn a, if_neg haw, if_neg haw,
            if_neg (fun e => ha3 (hlast a e))]
          exact ⟨rfl, rfl⟩
        · intro a ha2
          obtain ⟨h1, h2⟩ := hnp a ha2
          exact ⟨h1.trans (hoth a).1, h2.trans (hoth a).2.1⟩
        · rw [hkm, hgroups]
        · intro g2 hg2; rw [hgr g2 hg2, hgroups]
        · rw [hhash, hh1]
        · rw [hnc, hn1]
      rw [JSFinalizationGroup.RemoveUnregisterToken.loop]
      have htw2 : ¬ (s.cells w).unregister_token = some T := by rw [htok w]; exact htw
      simp only [htw2, if_false]
      rcases hpv : prev with _ | p
      · have hr0 : r = [] := lastOr_none.1 (by rw [← hprev, hpv])
        simp only []
        refine hsurv _ _ _ ?_ ?_ ?_ rfl rfl rfl ?_
        · intro a; by_cases haw : a = w <;> simp [haw, hpv]
        · intro a; by_cases haw : a = w <;> simp [haw, hpv]
        · intro a; simp
        · rw [if_pos hr0]
      · have hr0 : r ≠ [] := fun e => by
          rw [e] at hprev; rw [hprev] at hpv; cases hpv
        have hhn : head ≠ none := IsDList.head_ne_none hr hr0
        simp only [hhn, if_false]
        refine hsurv _ _ _ ?_ ?_ ?_ rfl rfl rfl ?_
        · intro a
          by_cases hap : a = p
          · subst hap; simp [hpv]
          · have hpa : ¬ p = a := fun e => hap e.symm
            have hpr : p ∈ r := by
              obtain ⟨b, hb, hb2⟩ := lastOr_mem (p := none) hr0
              rw [hprev, hb2] at hpv; cases hpv; exact hb
            have hwp : ¬ w = p := fun e => hwr (by rw [e]; exact hpr)
            have hpw : ¬ p = w := fun e => hwp e.symm
            by_cases haw : a = w
            · subst haw; simp [hwp, hpw, hpv]
            · simp [haw, hap, hpa, hpv]
        · intro a; by_cases haw : a = w <;> simp [haw, hpv]
        · intro a; simp
        · rw [if_neg hr0]

theorem Heap.Chain.nil_of_none {s : Heap} {g k : Nat} {l : List Nat}
    (h : s.keyMapAt g k = none) (hl : s.Chain g k l) : l = [] := by
  unfold Heap.Chain Heap.KeyList at hl
  rw [h] at hl
  cases l with
  | nil => rfl
  | cons a l => cases hl.1

/-- The length of a chain is at most the number of listed cells. -/
theorem Inv.chain_length {s : Heap} {g : Nat} {act clr : List Nat} {chain : Nat → List Nat}
    (h : Inv s g act clr chain) (k : Nat) : (chain k).length ≤ act.length + clr.length := by
  rw [← List.length_append]
  exact (List.subperm_of_subset (h.chain_nodup k) (fun a ha => h.chain_sub ha)).length_le

/-- The shared removal routine with `RemoveFromFinalizationGroupCells` as match
action, on a well-formed registry and with enough fuel: it returns, every
cell registered with the token leaves its list and its chain, and the result
tells whether there was one. -/
theorem RemoveUnregisterToken_spec {ν : Type} {s : Heap} {g : Nat} {act clr : List Nat}
    {chain : Nat → List Nat} (T : Nat)
    (f : ν → HeapObject → ObjectSlot → Option Nat → ν) (n : ν) (fuel : Nat)
    (inv : Inv s g act clr chain) (hfuel : act.length + clr.length ≤ fuel) :
    ∃ b s2 n2, JSFinalizationGroup.RemoveUnregisterToken fuel s g T
        WeakCell.RemoveFromFinalizationGroupCells f n = .ok (b, s2, n2) ∧
      Inv s2 g (act.filter fun c => decide ((s.cells c).unregister_token ≠ some T))
        (clr.filter fun c => decide ((s.cells c).unregister_token ≠ some T))
        (fun k => (chain k).filter fun c => decide ((s.cells c).unregister_token ≠ some T)) ∧
      (b = true ↔ ∃ c ∈ act ++ clr, (s.cells c).unregister_token = some T) ∧
      (∀ a, (s2.cells a).unregister_token = (s.cells a).unregister_token ∧
        (s2.cells a).holdings = (s.cells a).holdings ∧
        (s2.cells a).finalization_group = (s.cells a).finalization_group) ∧
      (∀ a, (s2.cells a).target =
        if a ∈ act ++ clr ∧ (s.cells a).unregister_token = some T then none
        else (s.cells a).target) ∧
      (∀ a, a ∉ act ++ clr → (s2.cells a).next = (s.cells a).next ∧
        (s2.cells a).prev = (s.cells a).prev ∧
        (s2.cells a).key_list_prev = (s.cells a).key_list_prev ∧
        (s2.cells a).key_list_next = (s.cells a).key_list_next) ∧
      (∀ g2, g2 ≠ g → s2.groups g2 = s.groups g2) ∧
      s2.hashes = s.hashes ∧ s2.next_cell = s.next_cell := by
  -- when no listed cell carries the token, nothing is filtered out
  have hnone : (∀ c ∈ act ++ clr, (s.cells c).unregister_token ≠ some T) →
      ∃ b s2 n2, (Except.ok (false, s, n) : Except Fault (Bool × Heap × ν)) = .ok (b, s2, n2) ∧
      Inv s2 g (act.filter fun c => decide ((s.cells c).unregister_token ≠ some T))
        (clr.filter fun c => decide ((s.cells c).unregister_token ≠ some T))
        (fun k => (chain k).filter fun c => decide ((s.cells c).unregister_token ≠ some T)) ∧
      (b = true ↔ ∃ c ∈ act ++ clr, (s.cells c).unregister_token = some T) ∧
      (∀ a, (s2.cells a).unregister_token = (s.cells a).unregister_token ∧
        (s2.cells a).holdings = (s.cells a).holdings ∧
        (s2.cells a).finalization_group = (s.cells a).finalization_group) ∧
      (∀ a, (s2.cells a).target =
        if a ∈ act ++ clr ∧ (s.cells a).unregister_token = some T then none
        else (s.cells a).target) ∧
      (∀ a, a ∉ act ++ clr → (s2.cells a).next = (s.cells a).next ∧
        (s2.cells a).prev = (s.cells a).prev ∧
        (s2.cells a).key_list_prev = (s.cells a).key_list_prev ∧
        (s2.cells a).key_list_next = (s.cells a).key_list_next) ∧
      (∀ g2, g2 ≠ g → s2.groups g2 = s.groups g2) ∧
      s2.hashes = s.hashes ∧ s2.next_cell = s.next_cell := by
    intro hno
    have hfa : (act.filter fun c => decide ((s.cells c).unregister_token ≠ some T)) = act := by
      rw [List.filter_eq_self]
      intro c hc; simpa using hno c (List.mem_append_left _ hc)
    have hfc : (clr.filter fun c => decide ((s.cells c).unregister_token ≠ some T)) = clr := by
      rw [List.filter_eq_self]
      intro c hc; simpa using hno c (List.mem_append_right _ hc)
    have hfk : (fun k => (chain k).filter
        fun c => decide ((s.cells c).unregister_token ≠ some T)) = chain := by
      funext k
      rw [List.filter_eq_self]
      intro c hc; simpa using hno c (inv.chain_sub hc)
    refine ⟨false, s, n, rfl, ?_, ?_, fun _ => ⟨rfl, rfl, rfl⟩, ?_,
      fun _ _ => ⟨rfl, rfl, rfl, rfl⟩, fun _ _ => rfl, rfl, rfl⟩
    · rw [hfa, hfc, hfk]; exact inv
    · constructor
      · intro h; cases h
      · rintro ⟨c, hc, hct⟩; exact absurd hct (hno c hc)
    · intro a
      rw [if_neg]
      rintro ⟨h1, h2⟩; exact hno a h1 h2
  -- a listed cell with the token is in the chain of the token's hash
  have hin : ∀ c ∈ act ++ clr, (s.cells c).unregister_token = some T →
      ∃ k, s.hashes T = some k ∧ c ∈ chain k := by
    intro c hc hct
    obtain ⟨k, hk⟩ := Option.ne_none_iff_exists'.1 (inv.hashed c hc T hct)
    exact ⟨k, hk, (inv.chain_mem k c).2 ⟨hc, T, hct, hk⟩⟩
  unfold JSFinalizationGroup.RemoveUnregisterToken Heap.GetHash
  rcases hkm : (s.groups g).key_map with _ | d
  · apply hnone
    intro c hc hct
    obtain ⟨k, _, hck⟩ := hin c hc hct
    have : s.keyMapAt g k = none := by unfold Heap.keyMapAt; rw [hkm]
    rw [Heap.Chain.nil_of_none this (inv.chains k)] at hck
    cases hck
  rcases hh : s.hashes T with _ | k
  · apply hnone
    intro c hc hct
    obtain ⟨k, hk, _⟩ := hin c hc hct
    rw [hh] at hk; cases hk
  have hkat : s.keyMapAt g k = d k := by unfold Heap.keyMapAt; rw [hkm]
  rcases hdk : d k with _ | v
  · simp only [SimpleNumberDictionary.FindEntry, hdk, Option.isSome_none, Bool.false_eq_true,
      if_false]
    apply hnone
    intro c hc hct
    obtain ⟨k2, hk2, hck⟩ := hin c hc hct
    rw [hh] at hk2; cases hk2
    rw [Heap.Chain.nil_of_none (hkat.trans hdk) (inv.chains k)] at hck
    cases hck
  simp only [SimpleNumberDictionary.FindEntry, hdk, Option.isSome_some, if_true,
    SimpleNumberDictionary.ValueAt]
  have hall : ∀ c ∈ act ++ clr, (s.cells c).unregister_token = some T → c ∈ chain k := by
    intro c hc hct
    obtain ⟨k2, hk2, hck⟩ := hin c hc hct
    rw [hh] at hk2; cases hk2; exact hck
  have hchk : IsDList (fun a => (s.cells a).key_list_next) (fun a => (s.cells a).key_list_prev)
      none (some v) (chain k) := by
    have := inv.chains k
    unfold Heap.Chain Heap.KeyList at this
    rw [hkat, hdk] at this; exact this
  obtain ⟨s2, wp2, head2, n2, hres, hA, hC, hK, hwp, hsame, htgt, hkl, hnp, hkm2, hgr, hhash,
    hnc⟩ := RemoveUnregisterToken_loop_spec T g f (fun a => (s.cells a).unregister_token)
      (chain k) fuel s (some v) false none none n act clr []
      (le_trans (inv.chain_length k) hfuel) (fun _ => rfl) inv.active inv.cleared inv.nodup
      inv.owner hchk.toSList (inv.chain_nodup k) (fun c hc => inv.chain_sub hc) hall
      rfl List.nodup_nil (fun c hc => by cases hc) rfl
  rw [hres]
  simp only [Except.bind, List.nil_append] at hK ⊢
  have hvk : v ∈ chain k := IsDList.head_mem hchk rfl
  have hfin : ∀ s3 : Heap, s3.cells = s2.cells →
      (s3.groups g).active_cells = (s2.groups g).active_cells →
      (s3.groups g).cleared_cells = (s2.groups g).cleared_cells →
      (∀ k2, s3.keyMapAt g k2 = if k2 = k then head2 else s.keyMapAt g k2) →
      (∀ g2, g2 ≠ g → s3.groups g2 = s2.groups g2) →
      s3.hashes = s2.hashes → s3.next_cell = s2.next_cell →
      Inv s3 g (act.filter fun c => decide ((s.cells c).unregister_token ≠ some T))
        (clr.filter fun c => decide ((s.cells c).unregister_token ≠ some T))
        (fun k => (chain k).filter fun c => decide ((s.cells c).unregister_token ≠ some T)) ∧
      (wp2 = true ↔ ∃ c ∈ act ++ clr, (s.cells c).unregister_token = some T) ∧
      (∀ a, (s3.cells a).unregister_token = (s.cells a).unregister_token ∧
        (s3.cells a).holdings = (s.cells a).holdings ∧
        (s3.cells a).finalization_group = (s.cells a).finalization_group) ∧
      (∀ a, (s3.cells a).target =
        if a ∈ act ++ clr ∧ (s.cells a).unregister_token = some T then none
        else (s.cells a).target) ∧
      (∀ a, a ∉ act ++ clr → (s3.cells a).next = (s.cells a).next ∧
        (s3.cells a).prev = (s.cells a).prev ∧
        (s3.cells a).key_list_prev = (s.cells a).key_list_prev ∧
        (s3.cells a).key_list_next = (s.cells a).key_list_next) ∧
      (∀ g2, g2 ≠ g → s3.groups g2 = s.groups g2) ∧
      s3.hashes = s.hashes ∧ s3.next_cell = s.next_cell := by
    intro s3 hcells hact3 hclr3 hkat3 hgr3 hh3 hn3
    have hmemF : ∀ x, x ∈ (act.filter fun c => decide ((s.cells c).unregister_token ≠ some T))
        ++ (clr.filter fun c => decide ((s.cells c).unregister_token ≠ some T)) ↔
        x ∈ act ++ clr ∧ (s.cells x).unregister_token ≠ some T := by
      intro x
      simp only [List.mem_append, List.mem_filter, decide_eq_true_eq]
      tauto
    have htgt3 : ∀ a, (s3.cells a).target =
        if a ∈ act ++ clr ∧ (s.cells a).unregister_token = some T then none
        else (s.cells a).target := by
      intro a
      rw [hcells, htgt a]
      by_cases h : (s.cells a).unregister_token = some T
      · by_cases h2 : a ∈ act ++ clr
        · rw [if_pos ⟨hall a h2 h, h⟩, if_pos ⟨h2, h⟩]
        · rw [if_neg (fun e => h2 (inv.chain_sub e.1)), if_neg (fun e => h2 e.1)]
      · rw [if_neg (fun e => h e.2), if_neg (fun e => h e.2)]
    refine ⟨?_, ?_, ?_, htgt3, ?_, ?_, ?_, ?_⟩
    · constructor
      · unfold Heap.ActiveList Heap.CellList
        rw [hact3, hcells]; exact hA
      · unfold Heap.ClearedList Heap.CellList
        rw [hclr3, hcells]; exact hC
      · rw [← List.filter_append]; exact inv.nodup.filter _
      · intro x hx; rw [hn3, hnc]; exact inv.bound x ((hmemF x).1 hx).1
      · intro x hx; rw [hcells, (hsame x).2.2]; exact inv.owner x ((hmemF x).1 hx).1
      · intro x hx
        obtain ⟨h1, h2⟩ := List.mem_filter.1 hx
        rw [htgt3 x, if_neg (fun e => by simp [e.2] at h2)]
        exact inv.target_active x h1
      · intro x hx
        obtain ⟨h1, _⟩ := List.mem_filter.1 hx
        rw [htgt3 x]
        split
        · rfl
        · exact inv.target_cleared x h1
      · intro x hx t ht
        rw [hcells, (hsame x).1] at ht
        rw [hh3, hhash]
        exact inv.hashed x ((hmemF x).1 hx).1 t ht
      · intro k2
        show s3.Chain g k2 ((chain k2).filter _)
        by_cases hk2 : k2 = k
        · subst hk2
          unfold Heap.Chain Heap.KeyList
          rw [hkat3 k2, if_pos rfl, hcells]; exact hK
        · have hfk : ((chain k2).filter
              fun c => decide ((s.cells c).unregister_token ≠ some T)) = chain k2 := by
            rw [List.filter_eq_self]
            intro c hc
            have : (s.cells c).unregister_token ≠ some T := fun e =>
              hk2 (inv.chain_key hc (hall c (inv.chain_sub hc) e))
            simpa using this
          rw [hfk]
          refine Heap.Chain.congr_at ?_ ?_ (inv.chains k2)
          · rw [hkat3 k2, if_neg hk2]
          · intro a ha
            rw [hcells]
            exact hkl a (fun e => hk2 (inv.chain_key ha e)) (fun e => by cases e)
      · intro k2; exact (inv.chain_nodup k2).filter _
      · intro k2 x
        show x ∈ (chain k2).filter _ ↔ _
        rw [List.mem_filter, inv.chain_mem k2 x, hmemF x, hcells, (hsame x).1, hh3, hhash]
        simp only [decide_eq_true_eq]
        tauto
    · rw [hwp]
      simp only [Bool.false_or, List.any_eq_true, decide_eq_true_eq]
      constructor
      · rintro ⟨c, hc, hct⟩; exact ⟨c, inv.chain_sub hc, hct⟩
      · rintro ⟨c, hc, hct⟩; exact ⟨c, hall c hc hct, hct⟩
    · intro a; rw [hcells]; exact hsame a
    · intro a ha
      have hak : a ∉ chain k := fun e => ha (inv.chain_sub e)
      rw [hcells]
      exact ⟨(hnp a ha).1, (hnp a ha).2, (hkl a hak (fun e => by cases e)).1,
        (hkl a hak (fun e => by cases e)).2⟩
    · intro g2 hg2; rw [hgr3 g2 hg2, hgr g2 hg2]
    · rw [hh3, hhash]
    · rw [hn3, hnc]
  rcases head2 with _ | hd
  · -- every cell of the chain matched
    have hf0 : ((chain k).filter fun c => decide ((s.cells c).unregister_token ≠ some T)) = [] := by
      cases hl : ((chain k).filter
          fun c => decide ((s.cells c).unregister_token ≠ some T)) with
      | nil => rfl
      | cons a l => rw [hl] at hK; cases hK.1
    have hvT : (s.cells v).unregister_token = some T := by
      by_contra hne
      have : v ∈ ((chain k).filter fun c => decide ((s.cells c).unregister_token ≠ some T)) :=
        List.mem_filter.2 ⟨hvk, by simpa using hne⟩
      rw [hf0] at this; cases this
    have hwp2 : wp2 = true := by
      rw [hwp]
      simp only [Bool.false_or, List.any_eq_true, decide_eq_true_eq]
      exact ⟨v, hvk, hvT⟩
    simp only [hwp2, Bool.true_eq_false, if_false]
    refine ⟨true, _, n2, rfl, ?_⟩
    have hfin2 := hfin (s2.set_key_map g (some (d.ClearEntry k))) rfl (by simp) (by simp)
      (by
        intro k2
        by_cases hk2 : k2 = k
        · simp [Heap.keyMapAt, SimpleNumberDictionary.ClearEntry, hk2]
        · simp [Heap.keyMapAt, SimpleNumberDictionary.ClearEntry, hk2, hkm])
      (fun g2 hg2 => by simp [hg2]) rfl rfl
    rw [hwp2] at hfin2
    exact hfin2
  · refine ⟨wp2, _, _, rfl, ?_⟩
    refine hfin (s2.set_key_map g (some (d.ValueAtPut k hd))) rfl (by simp) (by simp) ?_
      (fun g2 hg2 => by simp [hg2]) rfl rfl
    intro k2
    by_cases hk2 : k2 = k
    · simp [Heap.keyMapAt, SimpleNumberDictionary.ValueAtPut, hk2]
    · simp [Heap.keyMapAt, SimpleNumberDictionary.ValueAtPut, hk2, hkm]

/-- Specification of `JSFinalizationGroup::Unregister` on a well-formed registry, with enough
fuel for the chain walk. -/
theorem Unregister_spec {s : Heap} {g : Nat} {act clr : List Nat}
    {chain : Nat → List Nat} (T : Nat) (fuel : Nat)
    (inv : Inv s g act clr chain) (hfuel : act.length + clr.length ≤ fuel) :
    ∃ b s2, JSFinalizationGroup.Unregister fuel s g T = .ok (b, s2) ∧
      Inv s2 g (act.filter fun c => decide ((s.cells c).unregister_token ≠ some T))
        (clr.filter fun c => decide ((s.cells c).unregister_token ≠ some T))
        (fun k => (chain k).filter fun c => decide ((s.cells c).unregister_token ≠ some T)) ∧
      (b = true ↔ ∃ c ∈ act ++ clr, (s.cells c).unregister_token = some T) ∧
      (∀ a, (s2.cells a).unregister_token = (s.cells a).unregister_token ∧
        (s2.cells a).holdings = (s.cells a).holdings ∧
        (s2.cells a).finalization_group = (s.cells a).finalization_group) ∧
      (∀ a, (s2.cells a).target =
        if a ∈ act ++ clr ∧ (s.cells a).unregister_token = some T then none
        else (s.cells a).target) ∧
      (∀ a, a ∉ act ++ clr → (s2.cells a).next = (s.cells a).next ∧
        (s2.cells a).prev = (s.cells a).prev ∧
        (s2.cells a).key_list_prev = (s.cells a).key_list_prev ∧
        (s2.cells a).key_list_next = (s.cells a).key_list_next) ∧
      (∀ g2, g2 ≠ g → s2.groups g2 = s.groups g2) ∧
      s2.hashes = s.hashes ∧ s2.next_cell = s.next_cell := by
  obtain ⟨b, s2, n2, hres, hrest⟩ := RemoveUnregisterToken_spec T
    (fun (_ : Unit) (_ : HeapObject) (_ : ObjectSlot) (_ : Option Nat) => ()) () fuel inv hfuel
  refine ⟨b, s2, ?_, hrest⟩
  unfold JSFinalizationGroup.Unregister
  rw [hres]
  rfl

/-- The registry with no cells is well formed. -/
theorem Inv.empty {s : Heap} {g : Nat} (ha : (s.groups g).active_cells = none)
    (hc : (s.groups g).cleared_cells = none) (hk : (s.groups g).key_map = none) :
    Inv s g [] [] (fun _ => []) := by
  constructor
  · exact ha
  · exact hc
  · exact List.nodup_nil
  · intro c hc; cases hc
  · intro c hc; cases hc
  · intro c hc; cases hc
  · intro c hc; cases hc
  · intro c hc; cases hc
  · intro k
    unfold Heap.Chain Heap.KeyList Heap.keyMapAt
    rw [hk]; rfl
  · intro k; exact List.nodup_nil
  · intro k c
    constructor
    · intro h; cases h
    · rintro ⟨h, _⟩; cases h

/-- The lists of a well-formed registry are determined by the heap. -/
theorem Heap.CellList.unique_list {s : Heap} {h : Option Nat} {l l2 : List Nat}
    (h1 : s.CellList h l) (h2 : s.CellList h l2) : l = l2 :=
  IsDList.unique h1 h2

theorem Heap.Chain.unique_chain {s : Heap} {g k : Nat} {l l2 : List Nat}
    (h1 : s.Chain g k l) (h2 : s.Chain g k l2) : l = l2 :=
  IsDList.unique h1 h2

/-- More fuel does not change a result of the loop. -/
theorem RemoveUnregisterToken_loop_mono {ν : Type} (T : Nat)
    (mc : Heap → Nat → Except Fault Heap)
    (f : ν → HeapObject → ObjectSlot → Option Nat → ν) (k : Nat) :
    ∀ (fuel : Nat) (s : Heap) (value : Option Nat) (wp : Bool) (head prev : Option Nat) (n : ν)
      (r : Heap × Bool × Option Nat × ν),
      JSFinalizationGroup.RemoveUnregisterToken.loop T mc f fuel s value wp head prev n = .ok r →
      JSFinalizationGroup.RemoveUnregisterToken.loop T mc f (fuel + k) s value wp head prev n
        = .ok r := by
  intro fuel
  induction fuel with
  | zero =>
    intro s value wp head prev n r h
    cases value with
    | none =>
      rw [JSFinalizationGroup.RemoveUnregisterToken.loop] at h ⊢
      exact h
    | some w =>
      rw [JSFinalizationGroup.RemoveUnregisterToken.loop] at h
      cases h
  | succ fuel ih =>
    intro s value wp head prev n r h
    cases value with
    | none =>
      rw [JSFinalizationGroup.RemoveUnregisterToken.loop] at h ⊢
      exact h
    | some w =>
      rw [Nat.add_right_comm]
      rw [JSFinalizationGroup.RemoveUnregisterToken.loop] at h ⊢
      by_cases ht : (s.cells w).unregister_token = some T
      · simp only [ht, if_true] at h ⊢
        rcases hm : mc s w with e | s1
        · rw [hm] at h; cases h
        · rw [hm] at h
          simp only [Except.bind] at h ⊢
          exact ih _ _ _ _ _ _ _ h
      · simp only [ht, if_false] at h ⊢
        rcases prev with _ | p
        · simp only [] at h ⊢
          exact ih _ _ _ _ _ _ _ h
        · simp only [] at h ⊢
          by_cases hh : head = none
          · simp only [hh, if_true] at h
            cases h
          · simp only [hh, if_false] at h ⊢
            exact ih _ _ _ _ _ _ _ h

/-- More fuel does not change a result of `Unregister`. -/
theorem Unregister_mono {fuel : Nat} {s : Heap} {g T : Nat} {r : Bool × Heap} (k : Nat)
    (h : JSFinalizationGroup.Unregister fuel s g T = .ok r) :
    JSFinalizationGroup.Unregister (fuel + k) s g T = .ok r := by
  unfold JSFinalizationGroup.Unregister JSFinalizationGroup.RemoveUnregisterToken at h ⊢
  rcases hkm : (s.groups g).key_map with _ | d
  · rw [hkm] at h; simp only [] at h ⊢; exact h
  rw [hkm] at h; simp only [] at h ⊢
  rcases hh : s.GetHash T with _ | key
  · rw [hh] at h; simp only [] at h ⊢; exact h
  rw [hh] at h; simp only [] at h ⊢
  rcases he : d.FindEntry key with _ | entry
  · rw [he] at h; simp only [] at h ⊢; exact h
  rw [he] at h; simp only [] at h ⊢
  rcases hl : JSFinalizationGroup.RemoveUnregisterToken.loop T
      WeakCell.RemoveFromFinalizationGroupCells
      (fun (_ : Unit) (_ : HeapObject) (_ : ObjectSlot) (_ : Option Nat) => ())
      fuel s (d.ValueAt entry) false none none () with e | res
  · rw [hl] at h; cases h
  · rw [RemoveUnregisterToken_loop_mono T _ _ k _ _ _ _ _ _ _ _ hl]
    rw [hl] at h
    exact h

/-! ## The claims -/

/-- Every heap reached from the empty registry is well formed. -/
theorem Reachable.wellFormed {g : Nat} {s : Heap} (h : Reachable g s) : WellFormed s g := by
  induction h with
  | init s ha hc hk => exact ⟨[], [], _, Inv.empty ha hc hk⟩
  | register target holdings tok fresh _ hres ih =>
    obtain ⟨act, clr, chain, inv⟩ := ih
    obtain ⟨s3, hres3, inv3⟩ := Register_spec target holdings tok fresh inv
    rw [hres3] at hres
    cases hres
    exact ⟨_, _, _, inv3⟩
  | unregister fuel token b _ hres ih =>
    obtain ⟨act, clr, chain, inv⟩ := ih
    obtain ⟨b3, s3, hres3, inv3, _⟩ := Unregister_spec token (fuel + (act.length + clr.length))
      inv (Nat.le_add_left _ _)
    rw [Unregister_mono (act.length + clr.length) hres] at hres3
    cases hres3
    exact ⟨_, _, _, inv3⟩
  | nullify c f n n2 act0 _ hact hc hres ih =>
    obtain ⟨act, clr, chain, inv⟩ := ih
    have : act0 = act := Heap.CellList.unique_list hact inv.active
    subst this
    obtain ⟨s3, n3, hres3, inv3, _⟩ := Nullify_spec c f n inv hc
    rw [hres3] at hres
    cases hres
    exact ⟨_, _, _, inv3⟩
  | pop holdings _ hres ih =>
    obtain ⟨act, clr, chain, inv⟩ := ih
    cases clr with
    | nil =>
      have hcl : (_ : Option Nat) = none := inv.cleared
      unfold JSFinalizationGroup.PopClearedCellHoldings at hres
      rw [hcl] at hres
      cases hres
    | cons c clr =>
      obtain ⟨s3, hres3, inv3, _⟩ := Pop_spec inv
      rw [hres3] at hres
      cases hres
      exact ⟨_, _, _, inv3⟩

/-- C1 (list membership invariant): in every heap reached from the empty
registry by Register, Unregister, Nullify of an active cell and
PopClearedCellHoldings, the active list, the cleared list and every chain are
finite duplicate-free doubly linked lists, and each listed cell is in exactly
one of the two lists, in at most one chain, and in a chain exactly when its
unregister token is not undefined, namely the chain of its token's identity
hash. -/
theorem C1_list_membership_invariant (g : Nat) (s : Heap) (h : Reachable g s) :
    ∃ (act clr : List Nat) (chain : Nat → List Nat),
      s.ActiveList g act ∧ s.ClearedList g clr ∧ (∀ k, s.Chain g k (chain k)) ∧
      act.Nodup ∧ clr.Nodup ∧ (∀ k, (chain k).Nodup) ∧
      ∀ c ∈ act ++ clr,
        ((c ∈ act ∧ c ∉ clr) ∨ (c ∉ act ∧ c ∈ clr)) ∧
        (∀ k k2, c ∈ chain k → c ∈ chain k2 → k = k2) ∧
        ((∃ k, c ∈ chain k) ↔ (s.cells c).unregister_token ≠ none) ∧
        (∀ t, (s.cells c).unregister_token = some t →
          ∃ k, s.hashes t = some k ∧ c ∈ chain k) := by
  obtain ⟨act, clr, chain, inv⟩ := h.wellFormed
  have hin : ∀ c ∈ act ++ clr, ∀ t, (s.cells c).unregister_token = some t →
      ∃ k, s.hashes t = some k ∧ c ∈ chain k := by
    intro c hc t ht
    obtain ⟨k, hk⟩ := Option.ne_none_iff_exists'.1 (inv.hashed c hc t ht)
    exact ⟨k, hk, (inv.chain_mem k c).2 ⟨hc, t, ht, hk⟩⟩
  refine ⟨act, clr, chain, inv.active, inv.cleared, inv.chains, inv.nodup_active,
    inv.nodup_cleared, inv.chain_nodup, ?_⟩
  intro c hc
  refine ⟨?_, fun k k2 h1 h2 => inv.chain_key h1 h2, ?_, hin c hc⟩
  · rcases List.mem_append.1 hc with h1 | h1
    · exact Or.inl ⟨h1, fun e => inv.disjoint h1 e⟩
    · exact Or.inr ⟨fun e => inv.disjoint e h1, h1⟩
  · constructor
    · rintro ⟨k, hk⟩
      obtain ⟨_, t, ht, _⟩ := (inv.chain_mem k c).1 hk
      rw [ht]; exact Option.some_ne_none _
    · intro hne
      obtain ⟨t, ht⟩ := Option.ne_none_iff_exists'.1 hne
      obtain ⟨k, _, hk⟩ := hin c hc t ht
      exact ⟨k, hk⟩

theorem heap1_ok : JSFinalizationGroup.Register heap0 0 100 200 (some 50) 7 = .ok heap1 := rfl

theorem heap2_ok : JSFinalizationGroup.Register heap1 0 101 201 (some 51) 7 = .ok heap2 := rfl

theorem heap3_ok : WeakCell.Nullify heap2 0 noNotify () = .ok (heap3, ()) := rfl

theorem heap0_inv : Inv heap0 0 [] [] (fun _ => []) := Inv.empty rfl rfl rfl

theorem heap1_inv : Inv heap1 0 [0] [] (fun k => if k = 7 then [0] else []) := by
  obtain ⟨s2, h, inv⟩ := Register_spec 100 200 (some 50) 7 heap0_inv
  rw [heap1_ok] at h
  cases h
  have e : (fun k => if registerKey heap0 (some 50) 7 = some k then heap0.next_cell :: []
      else []) = (fun k => if k = 7 then [0] else []) := by
    funext k
    by_cases hk : k = 7
    · subst hk; rfl
    · have : ¬ registerKey heap0 (some 50) 7 = some k := by
        intro e; apply hk; cases e; rfl
      rw [if_neg this, if_neg hk]
  rw [e] at inv
  exact inv

theorem heap2_inv : Inv heap2 0 [1, 0] [] (fun k => if k = 7 then [1, 0] else []) := by
  obtain ⟨s2, h, inv⟩ := Register_spec 101 201 (some 51) 7 heap1_inv
  rw [heap2_ok] at h
  cases h
  have e : (fun k => if registerKey heap1 (some 51) 7 = some k
        then heap1.next_cell :: (if k = 7 then [0] else [])
      else (if k = 7 then [0] else [])) = (fun k => if k = 7 then [1, 0] else []) := by
    funext k
    by_cases hk : k = 7
    · subst hk; rfl
    · have : ¬ registerKey heap1 (some 51) 7 = some k := by
        intro e; apply hk; cases e; rfl
      rw [if_neg this, if_neg hk, if_neg hk]
  rw [e] at inv
  exact inv

theorem heap3_inv : Inv heap3 0 [1] [0] (fun k => if k = 7 then [1, 0] else []) := by
  obtain ⟨s2, n2, h, inv, _⟩ := Nullify_spec 0 noNotify () heap2_inv (by decide)
  rw [heap3_ok] at h
  cases h
  exact inv

theorem heap3_reachable : Reachable 0 heap3 :=
  Reachable.nullify 0 noNotify () () [1, 0]
    (Reachable.register 101 201 (some 51) 7
      (Reachable.register 100 200 (some 50) 7 (Reachable.init heap0 rfl rfl rfl) heap1_ok)
      heap2_ok)
    heap2_inv.active (by decide) heap3_ok

/-- C1, at the example heap reached by two registrations and one clearing. -/
theorem C1_list_membership_invariant_witness :
    Reachable 0 heap3 ∧
    ∃ (act clr : List Nat) (chain : Nat → List Nat),
      heap3.ActiveList 0 act ∧ heap3.ClearedList 0 clr ∧ (∀ k, heap3.Chain 0 k (chain k)) ∧
      act.Nodup ∧ clr.Nodup ∧ (∀ k, (chain k).Nodup) ∧
      ∀ c ∈ act ++ clr,
        ((c ∈ act ∧ c ∉ clr) ∨ (c ∉ act ∧ c ∈ clr)) ∧
        (∀ k k2, c ∈ chain k → c ∈ chain k2 → k = k2) ∧
        ((∃ k, c ∈ chain k) ↔ (heap3.cells c).unregister_token ≠ none) ∧
        (∀ t, (heap3.cells c).unregister_token = some t →
          ∃ k, heap3.hashes t = some k ∧ c ∈ chain k) :=
  ⟨heap3_reachable, C1_list_membership_invariant 0 heap3 heap3_reachable⟩

/-- Specification of `Register`: the result together with the invariant and the fields of the
new cell. -/
theorem Register_spec_fields {s : Heap} {g : Nat} {act clr : List Nat}
    {chain : Nat → List Nat} (target holdings : Nat) (tok : Option Nat) (fresh : Nat)
    (inv : Inv s g act clr chain) :
    ∃ s2, JSFinalizationGroup.Register s g target holdings tok fresh = .ok s2 ∧
      Inv s2 g (s.next_cell :: act) clr
        (fun k => if registerKey s tok fresh = some k then s.next_cell :: chain k
          else chain k) ∧
      (s2.cells s.next_cell).target = some target ∧
      (s2.cells s.next_cell).holdings = holdings ∧
      (s2.cells s.next_cell).unregister_token = tok ∧
      (s2.cells s.next_cell).finalization_group = g ∧
      (∀ a, a ≠ s.next_cell → (s2.cells a).target = (s.cells a).target ∧
        (s2.cells a).holdings = (s.cells a).holdings ∧
        (s2.cells a).unregister_token = (s.cells a).unregister_token ∧
        (s2.cells a).finalization_group = (s.cells a).finalization_group) ∧
      (∀ t, s2.hashes t = if tok = some t then registerKey s tok fresh else s.hashes t) ∧
      s2.next_cell = s.next_cell + 1 := by
  obtain ⟨s2, hres, inv2⟩ := Register_spec target holdings tok fresh inv
  obtain ⟨s3, hres3, _, _, _, _, hold, hnew, _, _, _, _, _, hhash, hnc⟩ :=
    Register_fields s g target holdings tok fresh
  rw [hres] at hres3
  cases hres3
  exact ⟨s2, hres, inv2, hnew.1, hnew.2.1, hnew.2.2.1, hnew.2.2.2, hold, hhash, hnc⟩

/-- C2 (round trip): in a well-formed registry, Register with a token followed
at once by Unregister of that token (with enough fuel for the chain walk)
returns true, and the new cell, the head of the active list after Register,
is then in neither list and in no chain of the key map. -/
theorem C2_register_unregister_round_trip {s : Heap} {g : Nat} {act clr : List Nat}
    {chain : Nat → List Nat} (target holdings token fresh fuel : Nat)
    (inv : Inv s g act clr chain) (hfuel : act.length + clr.length + 1 ≤ fuel) :
    ∃ s1, JSFinalizationGroup.Register s g target holdings (some token) fresh = .ok s1 ∧
      (s1.groups g).active_cells = some s.next_cell ∧
      ∃ s2, JSFinalizationGroup.Unregister fuel s1 g token = .ok (true, s2) ∧
        ∃ (act2 clr2 : List Nat) (chain2 : Nat → List Nat), Inv s2 g act2 clr2 chain2 ∧
          s.next_cell ∉ act2 ∧ s.next_cell ∉ clr2 ∧ ∀ k, s.next_cell ∉ chain2 k := by
  obtain ⟨s1, hres1, inv1, _, _, htok, _⟩ :=
    Register_spec_fields target holdings (some token) fresh inv
  have hfuel1 : (s.next_cell :: act).length + clr.length ≤ fuel := by
    simp only [List.length_cons]; omega
  obtain ⟨b, s2, hres2, inv2, hb, _⟩ := Unregister_spec token fuel inv1 hfuel1
  have hbt : b = true :=
    hb.2 ⟨s.next_cell, List.mem_append_left _ (List.mem_cons_self _ _), htok⟩
  subst hbt
  refine ⟨s1, hres1, inv1.active.1, s2, hres2, _, _, _, inv2, ?_, ?_, ?_⟩
  · intro h
    have := (List.mem_filter.1 h).2
    simp [htok] at this
  · intro h
    have := (List.mem_filter.1 h).2
    simp [htok] at this
  · intro k h
    have := (List.mem_filter.1 h).2
    simp [htok] at this

/-- C2, at the example heap with two active cells. -/
theorem C2_register_unregister_round_trip_witness :
    ∃ s1, JSFinalizationGroup.Register heap2 0 102 202 (some 50) 9 = .ok s1 ∧
      (s1.groups 0).active_cells = some heap2.next_cell ∧
      ∃ s2, JSFinalizationGroup.Unregister 3 s1 0 50 = .ok (true, s2) ∧
        ∃ (act2 clr2 : List Nat) (chain2 : Nat → List Nat), Inv s2 0 act2 clr2 chain2 ∧
          heap2.next_cell ∉ act2 ∧ heap2.next_cell ∉ clr2 ∧ ∀ k, heap2.next_cell ∉ chain2 k :=
  C2_register_unregister_round_trip 102 202 50 9 3 heap2_inv (by decide)

/-- The collision property in a well-formed registry where `cA` carries the
token `A` and the active cell `cB` another token with the same hash `k`. -/
theorem collision_core {s2 : Heap} {g : Nat} {act2 clr2 : List Nat} {chain2 : Nat → List Nat}
    {A B cA cB tB hB k fuel : Nat} (inv2 : Inv s2 g act2 clr2 chain2)
    (hcA : cA ∈ act2 ++ clr2) (htA : (s2.cells cA).unregister_token = some A)
    (hcB : cB ∈ act2) (htB : (s2.cells cB).unregister_token = some B) (hAB : A ≠ B)
    (hkB : s2.hashes B = some k) (htg : (s2.cells cB).target = some tB)
    (hho : (s2.cells cB).holdings = hB) (hfuel : act2.length + clr2.length ≤ fuel) :
    CollisionOutcome s2 g A cA cB tB hB k fuel := by
  obtain ⟨b, s3, hres3, inv3, hb, hsame3, htgt3, _⟩ := Unregister_spec A fuel inv2 hfuel
  have hbt : b = true := hb.2 ⟨cA, hcA, htA⟩
  subst hbt
  have hkeepB : (s2.cells cB).unregister_token ≠ some A := by
    rw [htB]; intro e; cases e; exact hAB rfl
  have hB3 : cB ∈ act2.filter fun c => decide ((s2.cells c).unregister_token ≠ some A) :=
    List.mem_filter.2 ⟨hcB, by simpa using hkeepB⟩
  have hho3 : (s3.cells cB).holdings = hB := by rw [(hsame3 cB).2.1]; exact hho
  refine ⟨s3, hres3, _, _, _, inv3, ?_, ?_, hB3, ?_, hho3, ?_, ?_⟩
  · intro h
    have := (List.mem_filter.1 h).2
    simp [htA] at this
  · intro h
    have := (List.mem_filter.1 h).2
    simp [htA] at this
  · rw [htgt3 cB, if_neg (fun e => hkeepB e.2)]; exact htg
  · refine List.mem_filter.2 ⟨?_, by simpa using hkeepB⟩
    exact (inv2.chain_mem k cB).2 ⟨List.mem_append_left _ hcB, B, htB, hkB⟩
  · intro ν f n
    obtain ⟨s4, n4, hres4, inv4, _, hsame4, _⟩ := Nullify_spec cB f n inv3 hB3
    obtain ⟨s5, hres5, _⟩ := Pop_spec inv4
    refine ⟨s4, n4, hres4, s5, ?_⟩
    rw [hres5, (hsame4 cB).2.2.2.1, hho3]

/-- C3 (collision correctness): in a well-formed registry, for distinct tokens
`A` and `B` whose identity hashes are both `k` (already stored, or created as
`fa` and `fb`), after Register with `A` and Register with `B` in either
order, Unregister(A) with enough fuel returns true, the cell of `A` leaves the
active list and the chain, the cell of `B` stays active with its target and
holdings and stays in the chain stored under `k`, and clearing the cell of
`B` and popping returns `hB`. -/
theorem C3_collision_correctness {s : Heap} {g : Nat} {act clr : List Nat}
    {chain : Nat → List Nat} (tA hA A fa tB hB B fb k fuel : Nat)
    (inv : Inv s g act clr chain) (hAB : A ≠ B)
    (hkA : (s.hashes A).getD fa = k) (hkB : (s.hashes B).getD fb = k)
    (hfuel : act.length + clr.length + 2 ≤ fuel) :
    (∃ s1 s2, JSFinalizationGroup.Register s g tA hA (some A) fa = .ok s1 ∧
      JSFinalizationGroup.Register s1 g tB hB (some B) fb = .ok s2 ∧
      (s1.groups g).active_cells = some s.next_cell ∧
      (s2.groups g).active_cells = some (s.next_cell + 1) ∧
      (∃ l, s2.Chain g k l ∧ s.next_cell ∈ l ∧ s.next_cell + 1 ∈ l) ∧
      CollisionOutcome s2 g A s.next_cell (s.next_cell + 1) tB hB k fuel) ∧
    (∃ s1 s2, JSFinalizationGroup.Register s g tB hB (some B) fb = .ok s1 ∧
      JSFinalizationGroup.Register s1 g tA hA (some A) fa = .ok s2 ∧
      (s1.groups g).active_cells = some s.next_cell ∧
      (s2.groups g).active_cells = some (s.next_cell + 1) ∧
      (∃ l, s2.Chain g k l ∧ s.next_cell ∈ l ∧ s.next_cell + 1 ∈ l) ∧
      CollisionOutcome s2 g A (s.next_cell + 1) s.next_cell tB hB k fuel) := by
  have hne : s.next_cell ≠ s.next_cell + 1 := Nat.ne_of_lt (Nat.lt_succ_self _)
  constructor
  · -- A first, then B
    obtain ⟨s1, hres1, inv1, _, _, htok1, _, _, hhash1, hnc1⟩ :=
      Register_spec_fields tA hA (some A) fa inv
    obtain ⟨s2, hres2, inv2, htg2, hho2, htok2, _, hold2, hhash2, _⟩ :=
      Register_spec_fields tB hB (some B) fb inv1
    rw [hnc1] at inv2 htg2 hho2 htok2 hold2
    have hmA : s.next_cell ∈ ((s.next_cell + 1) :: s.next_cell :: act) ++ clr :=
      List.mem_append_left _ (List.mem_cons_of_mem _ (List.mem_cons_self _ _))
    have htA2 : (s2.cells s.next_cell).unregister_token = some A := by
      rw [(hold2 _ hne).2.2.1]; exact htok1
    have hhB2 : s2.hashes B = some k := by
      rw [hhash2 B, if_pos rfl]
      simp only [registerKey, Option.map_some']
      rw [hhash1 B, if_neg (fun e => by cases e; exact hAB rfl), hkB]
    have hhA2 : s2.hashes A = some k := by
      rw [hhash2 A, if_neg (fun e => by cases e; exact hAB rfl), hhash1 A, if_pos rfl]
      simp only [registerKey, Option.map_some', hkA]
    refine ⟨s1, s2, hres1, hres2, inv1.active.1, inv2.active.1,
      ⟨_, inv2.chains k, (inv2.chain_mem k _).2 ⟨hmA, A, htA2, hhA2⟩,
        (inv2.chain_mem k _).2 ⟨List.mem_append_left _ (List.mem_cons_self _ _), B, htok2,
          hhB2⟩⟩, ?_⟩
    refine collision_core inv2 hmA htA2 (List.mem_cons_self _ _) htok2 hAB hhB2 htg2 hho2 ?_
    simp only [List.length_cons]; omega
  · -- B first, then A
    obtain ⟨s1, hres1, inv1, htg1, hho1, htok1, _, _, hhash1, hnc1⟩ :=
      Register_spec_fields tB hB (some B) fb inv
    obtain ⟨s2, hres2, inv2, _, _, htok2, _, hold2, hhash2, _⟩ :=
      Register_spec_fields tA hA (some A) fa inv1
    rw [hnc1] at inv2 htok2 hold2
    have hmA : s.next_cell + 1 ∈ ((s.next_cell + 1) :: s.next_cell :: act) ++ clr :=
      List.mem_append_left _ (List.mem_cons_self _ _)
    have hmB : s.next_cell ∈ (s.next_cell + 1) :: s.next_cell :: act :=
      List.mem_cons_of_mem _ (List.mem_cons_self _ _)
    have htB2 : (s2.cells s.next_cell).unregister_token = some B := by
      rw [(hold2 _ hne).2.2.1]; exact htok1
    have hhB2 : s2.hashes B = some k := by
      rw [hhash2 B, if_neg (fun e => by cases e; exact hAB rfl), hhash1 B, if_pos rfl]
      simp only [registerKey, Option.map_some', hkB]
    have hhA2 : s2.hashes A = some k := by
      rw [hhash2 A, if_pos rfl]
      simp only [registerKey, Option.map_some']
      rw [hhash1 A, if_neg (fun e => by cases e; exact hAB rfl), hkA]
    refine ⟨s1, s2, hres1, hres2, inv1.active.1, inv2.active.1,
      ⟨_, inv2.chains k, (inv2.chain_mem k _).2 ⟨List.mem_append_left _ hmB, B, htB2, hhB2⟩,
        (inv2.chain_mem k _).2 ⟨hmA, A, htok2, hhA2⟩⟩, ?_⟩
    refine collision_core inv2 hmA htok2 hmB htB2 hAB hhB2 ?_ ?_ ?_
    · rw [(hold2 _ hne).1]; exact htg1
    · rw [(hold2 _ hne).2.1]; exact hho1
    · simp only [List.length_cons]; omega

/-- C3, at the empty example heap with tokens 50 and 51 both hashed to 7. -/
theorem C3_collision_correctness_witness :
    (∃ s1 s2, JSFinalizationGroup.Register heap0 0 100 200 (some 50) 7 = .ok s1 ∧
      JSFinalizationGroup.Register s1 0 101 201 (some 51) 7 = .ok s2 ∧
      (s1.groups 0).active_cells = some heap0.next_cell ∧
      (s2.groups 0).active_cells = some (heap0.next_cell + 1) ∧
      (∃ l, s2.Chain 0 7 l ∧ heap0.next_cell ∈ l ∧ heap0.next_cell + 1 ∈ l) ∧
      CollisionOutcome s2 0 50 heap0.next_cell (heap0.next_cell + 1) 101 201 7 2) ∧
    (∃ s1 s2, JSFinalizationGroup.Register heap0 0 101 201 (some 51) 7 = .ok s1 ∧
      JSFinalizationGroup.Register s1 0 100 200 (some 50) 7 = .ok s2 ∧
      (s1.groups 0).active_cells = some heap0.next_cell ∧
      (s2.groups 0).active_cells = some (heap0.next_cell + 1) ∧
      (∃ l, s2.Chain 0 7 l ∧ heap0.next_cell ∈ l ∧ heap0.next_cell + 1 ∈ l) ∧
      CollisionOutcome s2 0 50 (heap0.next_cell + 1) heap0.next_cell 101 201 7 2) :=
  C3_collision_correctness 100 200 50 7 101 201 51 7 7 2 heap0_inv (by decide) rfl rfl
    (by decide)

/-- C4 (Unregister removes every matching cell and only those): in a
well-formed registry with active list `act` and cleared list `clr`,
Unregister(T) with enough fuel returns, and afterwards the active list is
`act` without the cells whose token is `T`, the cleared list is `clr` without
them (the other cells in their order), and every cell with another token
keeps its target and holdings. -/
theorem C4_unregister_removes_matching {s : Heap} {g : Nat} {act clr : List Nat}
    {chain : Nat → List Nat} (T fuel : Nat)
    (inv : Inv s g act clr chain) (hfuel : act.length + clr.length ≤ fuel) :
    ∃ b s2, JSFinalizationGroup.Unregister fuel s g T = .ok (b, s2) ∧
      s2.ActiveList g (act.filter fun c => decide ((s.cells c).unregister_token ≠ some T)) ∧
      s2.ClearedList g (clr.filter fun c => decide ((s.cells c).unregister_token ≠ some T)) ∧
      ∀ a, (s.cells a).unregister_token ≠ some T →
        (s2.cells a).target = (s.cells a).target ∧
        (s2.cells a).holdings = (s.cells a).holdings ∧
        (s2.cells a).unregister_token = (s.cells a).unregister_token := by
  obtain ⟨b, s2, hres, inv2, _, hsame, htgt, _⟩ := Unregister_spec T fuel inv hfuel
  refine ⟨b, s2, hres, inv2.active, inv2.cleared, ?_⟩
  intro a ha
  refine ⟨?_, (hsame a).2.1, (hsame a).1⟩
  rw [htgt a, if_neg (fun e => ha e.2)]

/-- C4, at the example heap with one active and one cleared cell, whose tokens
collide. -/
theorem C4_unregister_removes_matching_witness :
    ∃ b s2, JSFinalizationGroup.Unregister 2 heap3 0 50 = .ok (b, s2) ∧
      s2.ActiveList 0
        ([1].filter fun c => decide ((heap3.cells c).unregister_token ≠ some 50)) ∧
      s2.ClearedList 0
        ([0].filter fun c => decide ((heap3.cells c).unregister_token ≠ some 50)) ∧
      ∀ a, (heap3.cells a).unregister_token ≠ some 50 →
        (s2.cells a).target = (heap3.cells a).target ∧
        (s2.cells a).holdings = (heap3.cells a).holdings ∧
        (s2.cells a).unregister_token = (heap3.cells a).unregister_token :=
  C4_unregister_removes_matching 50 2 heap3_inv (by decide)

/-- C5 (result of Unregister): in a well-formed registry Unregister(T) with
enough fuel returns true exactly when a cell of the active or cleared list
carries the token `T`; so it returns false when the key map is undefined,
when `T` has no identity hash, when the key map has no entry for the hash of
`T`, and when the chain under that hash holds only cells of other tokens. -/
theorem C5_unregister_result {s : Heap} {g : Nat} {act clr : List Nat}
    {chain : Nat → List Nat} (T fuel : Nat)
    (inv : Inv s g act clr chain) (hfuel : act.length + clr.length ≤ fuel) :
    ∃ b s2, JSFinalizationGroup.Unregister fuel s g T = .ok (b, s2) ∧
      (b = true ↔ ∃ c ∈ act ++ clr, (s.cells c).unregister_token = some T) ∧
      ((s.groups g).key_map = none → b = false) ∧
      (s.hashes T = none → b = false) ∧
      (∀ k, s.hashes T = some k → s.keyMapAt g k = none → b = false) ∧
      (∀ k, s.hashes T = some k →
        (∀ c ∈ chain k, (s.cells c).unregister_token ≠ some T) → b = false) := by
  obtain ⟨b, s2, hres, _, hb, _⟩ := Unregister_spec T fuel inv hfuel
  have hin : ∀ c ∈ act ++ clr, (s.cells c).unregister_token = some T →
      ∃ k, s.hashes T = some k ∧ c ∈ chain k := by
    intro c hc hct
    obtain ⟨k, hk⟩ := Option.ne_none_iff_exists'.1 (inv.hashed c hc T hct)
    exact ⟨k, hk, (inv.chain_mem k c).2 ⟨hc, T, hct, hk⟩⟩
  have hfalse : (∀ c ∈ act ++ clr, (s.cells c).unregister_token ≠ some T) → b = false := by
    intro h
    cases b with
    | false => rfl
    | true =>
      obtain ⟨c, hc, hct⟩ := hb.1 rfl
      exact absurd hct (h c hc)
  refine ⟨b, s2, hres, hb, ?_, ?_, ?_, ?_⟩
  · intro hkm
    apply hfalse
    intro c hc hct
    obtain ⟨k, _, hck⟩ := hin c hc hct
    have : s.keyMapAt g k = none := by unfold Heap.keyMapAt; rw [hkm]
    rw [Heap.Chain.nil_of_none this (inv.chains k)] at hck
    cases hck
  · intro hh
    apply hfalse
    intro c hc hct
    obtain ⟨k, hk, _⟩ := hin c hc hct
    rw [hh] at hk; cases hk
  · intro k hk hkm
    apply hfalse
    intro c hc hct
    obtain ⟨k2, hk2, hck⟩ := hin c hc hct
    rw [hk] at hk2; cases hk2
    rw [Heap.Chain.nil_of_none hkm (inv.chains k)] at hck
    cases hck
  · intro k hk hall
    apply hfalse
    intro c hc hct
    obtain ⟨k2, hk2, hck⟩ := hin c hc hct
    rw [hk] at hk2; cases hk2
    exact hall c hck hct

/-- C5, at the example heap with one active and one cleared cell. -/
theorem C5_unregister_result_witness :
    ∃ b s2, JSFinalizationGroup.Unregister 2 heap3 0 51 = .ok (b, s2) ∧
      (b = true ↔ ∃ c ∈ [1] ++ [0], (heap3.cells c).unregister_token = some 51) ∧
      ((heap3.groups 0).key_map = none → b = false) ∧
      (heap3.hashes 51 = none → b = false) ∧
      (∀ k, heap3.hashes 51 = some k → heap3.keyMapAt 0 k = none → b = false) ∧
      (∀ k, heap3.hashes 51 = some k →
        (∀ c ∈ (fun k => if k = 7 then [1, 0] else []) k,
          (heap3.cells c).unregister_token ≠ some 51) → b = false) :=
  C5_unregister_result 51 2 heap3_inv (by decide)

/-- C6 (clear moves, does not delete): in a well-formed registry, Nullify on
a cell `c` of the active list returns, and afterwards the target of `c` is
undefined, the active list is the old one without `c`, the cleared list is `c`
followed by the old one, the holdings and token of `c` are unchanged, and the
key-list links of every cell and the key map are unchanged. -/
theorem C6_nullify_moves_cell {ν : Type} {s : Heap} {g : Nat} {act clr : List Nat}
    {chain : Nat → List Nat} (c : Nat)
    (f : ν → HeapObject → ObjectSlot → Option Nat → ν) (n : ν)
    (inv : Inv s g act clr chain) (hc : c ∈ act) :
    ∃ s2 n2, WeakCell.Nullify s c f n = .ok (s2, n2) ∧
      (s2.cells c).target = none ∧
      s2.ActiveList g (act.erase c) ∧ s2.ClearedList g (c :: clr) ∧
      (s2.cells c).holdings = (s.cells c).holdings ∧
      (s2.cells c).unregister_token = (s.cells c).unregister_token ∧
      (∀ a, (s2.cells a).key_list_prev = (s.cells a).key_list_prev ∧
        (s2.cells a).key_list_next = (s.cells a).key_list_next) ∧
      (s2.groups g).key_map = (s.groups g).key_map := by
  obtain ⟨s2, n2, hres, inv2, htgt, hsame, hkm, _⟩ := Nullify_spec c f n inv hc
  refine ⟨s2, n2, hres, ?_, inv2.active, inv2.cleared, (hsame c).2.2.2.1, (hsame c).2.2.1,
    fun a => ⟨(hsame a).1, (hsame a).2.1⟩, hkm⟩
  rw [htgt c, if_pos rfl]

/-- C6, at the example heap with two active cells: the older one is cleared. -/
theorem C6_nullify_moves_cell_witness :
    ∃ s2 n2, WeakCell.Nullify heap2 0 noNotify () = .ok (s2, n2) ∧
      (s2.cells 0).target = none ∧
      s2.ActiveList 0 ([1, 0].erase 0) ∧ s2.ClearedList 0 (0 :: []) ∧
      (s2.cells 0).holdings = (heap2.cells 0).holdings ∧
      (s2.cells 0).unregister_token = (heap2.cells 0).unregister_token ∧
      (∀ a, (s2.cells a).key_list_prev = (heap2.cells a).key_list_prev ∧
        (s2.cells a).key_list_next = (heap2.cells a).key_list_next) ∧
      (s2.groups 0).key_map = (heap2.groups 0).key_map :=
  C6_nullify_moves_cell 0 noNotify () heap2_inv (by decide)

/-- Clearing the active cells `cs` one after the other puts them in front of
the cleared list, the last one first. -/
theorem nullifyAll_spec {ν : Type} {g : Nat} {chain : Nat → List Nat}
    (f : ν → HeapObject → ObjectSlot → Option Nat → ν) :
    ∀ (cs : List Nat) (s : Heap) (n : ν) (act clr : List Nat),
      Inv s g act clr chain → cs.Nodup → (∀ c ∈ cs, c ∈ act) →
      ∃ s1 n1 act1, nullifyAll f s cs n = .ok (s1, n1) ∧
        Inv s1 g act1 (cs.reverse ++ clr) chain ∧
        ∀ a, (s1.cells a).holdings = (s.cells a).holdings := by
  intro cs
  induction cs with
  | nil =>
    intro s n act clr inv _ _
    exact ⟨s, n, act, rfl, by simpa using inv, fun _ => rfl⟩
  | cons c cs ih =>
    intro s n act clr inv hnd hsub
    obtain ⟨s2, n2, hres, inv2, _, hsame, _⟩ :=
      Nullify_spec c f n inv (hsub c (List.mem_cons_self _ _))
    have hccs : c ∉ cs := (List.nodup_cons.1 hnd).1
    obtain ⟨s1, n1, act1, hres1, inv1, hh1⟩ := ih s2 n2 (act.erase c) (c :: clr) inv2
      (List.nodup_cons.1 hnd).2
      (fun x hx => (List.Nodup.mem_erase_iff inv.nodup_active).2
        ⟨fun e => hccs (by rw [← e]; exact hx), hsub x (List.mem_cons_of_mem _ hx)⟩)
    refine ⟨s1, n1, act1, ?_, ?_, ?_⟩
    · show (WeakCell.Nullify s c f n).bind _ = _
      rw [hres]
      exact hres1
    · rw [List.reverse_cons, List.append_assoc]
      exact inv1
    · intro a; rw [hh1 a, (hsame a).2.2.2.1]

/-- Popping as many times as the front part `l` of the cleared list is long
returns the holdings of `l` in list order. -/
theorem popN_spec {g : Nat} :
    ∀ (l : List Nat) (s : Heap) (act clr : List Nat) (chain : Nat → List Nat),
      Inv s g act (l ++ clr) chain →
      ∃ s2 chain2, popN g l.length s = .ok (l.map fun c => (s.cells c).holdings, s2) ∧
        Inv s2 g act clr chain2 := by
  intro l
  induction l with
  | nil =>
    intro s act clr chain inv
    exact ⟨s, chain, rfl, inv⟩
  | cons c l ih =>
    intro s act clr chain inv
    obtain ⟨s1, hres, inv1, hsame, _⟩ := Pop_spec inv
    obtain ⟨s2, chain2, hres2, inv2⟩ := ih s1 act clr _ inv1
    refine ⟨s2, chain2, ?_, inv2⟩
    show (JSFinalizationGroup.PopClearedCellHoldings s g).bind _ = _
    rw [hres]
    simp only [Except.bind, hres2, List.map_cons]
    have : (l.map fun c => (s1.cells c).holdings) = l.map fun c => (s.cells c).holdings :=
      List.map_congr_left (fun a _ => (hsame a).2.1)
    rw [this]

/-- C7 (pop order is LIFO by clearing time): in a well-formed registry with an
empty cleared list, clearing the distinct active cells `cs` in order and then
calling PopClearedCellHoldings as many times returns their holdings in the
reverse order, and the cleared list is empty again. -/
theorem C7_pop_order_lifo {ν : Type} {s : Heap} {g : Nat} {act : List Nat}
    {chain : Nat → List Nat} (cs : List Nat)
    (f : ν → HeapObject → ObjectSlot → Option Nat → ν) (n : ν)
    (inv : Inv s g act [] chain) (hnd : cs.Nodup) (hsub : ∀ c ∈ cs, c ∈ act) :
    ∃ s1 n1, nullifyAll f s cs n = .ok (s1, n1) ∧
      ∃ s2, popN g cs.length s1 = .ok (cs.reverse.map fun c => (s.cells c).holdings, s2) ∧
        s2.ClearedList g [] := by
  obtain ⟨s1, n1, act1, hres1, inv1, hh1⟩ := nullifyAll_spec f cs s n act [] inv hnd hsub
  obtain ⟨s2, chain2, hres2, inv2⟩ := popN_spec cs.reverse s1 act1 [] chain inv1
  refine ⟨s1, n1, hres1, s2, ?_, inv2.cleared⟩
  rw [List.length_reverse] at hres2
  rw [hres2]
  have : (cs.reverse.map fun c => (s1.cells c).holdings) =
      cs.reverse.map fun c => (s.cells c).holdings :=
    List.map_congr_left (fun a _ => hh1 a)
  rw [this]

/-- C7, at the example heap with two active cells, cleared oldest first. -/
theorem C7_pop_order_lifo_witness :
    ∃ s1 n1, nullifyAll noNotify heap2 [0, 1] () = .ok (s1, n1) ∧
      ∃ s2, popN 0 [0, 1].length s1 =
          .ok ([0, 1].reverse.map fun c => (heap2.cells c).holdings, s2) ∧
        s2.ClearedList 0 [] :=
  C7_pop_order_lifo [0, 1] noNotify () heap2_inv (by decide) (by decide)

theorem Heap.Chain.keyMapAt_none_iff {s : Heap} {g k : Nat} {l : List Nat}
    (hl : s.Chain g k l) : s.keyMapAt g k = none ↔ l = [] := by
  constructor
  · intro h; exact Heap.Chain.nil_of_none h hl
  · intro h; subst h; exact hl

theorem erase_eq_nil_iff {l : List Nat} {c : Nat} (hc : c ∈ l) : l.erase c = [] ↔ l = [c] := by
  constructor
  · intro h
    have hp := List.perm_cons_erase hc
    rw [h] at hp
    exact List.perm_singleton.1 hp
  · intro h; rw [h]; simp

/-- C8 (cleanup-pop postcondition): in a well-formed registry whose cleared
list starts with `c`, PopClearedCellHoldings returns the holdings of `c`; then
the cleared list is the old one without its head and the active list is
unchanged; if `c` has a token with identity hash `k`, the chain under `k` is
the old chain without `c`, the key map has no entry for `k` exactly when `c`
was the only cell of that chain, and the chains and entries under the other
keys are unchanged; if `c` has no token, all chains and entries are
unchanged. -/
theorem C8_pop_postcondition {s : Heap} {g : Nat} {act clr : List Nat}
    {chain : Nat → List Nat} {c : Nat} (inv : Inv s g act (c :: clr) chain) :
    ∃ s2, JSFinalizationGroup.PopClearedCellHoldings s g = .ok ((s.cells c).holdings, s2) ∧
      s2.ClearedList g clr ∧ s2.ActiveList g act ∧
      (∀ t k, (s.cells c).unregister_token = some t → s.hashes t = some k →
        s2.Chain g k ((chain k).erase c) ∧
        (s2.keyMapAt g k = none ↔ chain k = [c]) ∧
        ∀ k2, k2 ≠ k → s2.Chain g k2 (chain k2) ∧ s2.keyMapAt g k2 = s.keyMapAt g k2) ∧
      ((s.cells c).unregister_token = none →
        ∀ k, s2.Chain g k (chain k) ∧ s2.keyMapAt g k = s.keyMapAt g k) := by
  obtain ⟨s2, hres, inv2, _⟩ := Pop_spec inv
  have hcL : c ∈ act ++ c :: clr := List.mem_append_right _ (List.mem_cons_self _ _)
  -- a chain that does not hold `c` is unchanged
  have hother : ∀ k2, c ∉ chain k2 →
      s2.Chain g k2 (chain k2) ∧ s2.keyMapAt g k2 = s.keyMapAt g k2 := by
    intro k2 hck
    have h2 := inv2.chains k2
    simp only [List.erase_of_not_mem hck] at h2
    refine ⟨h2, ?_⟩
    have h1 := inv.chains k2
    rcases hl : chain k2 with _ | ⟨a, l⟩
    · rw [hl] at h1 h2
      rw [(Heap.Chain.keyMapAt_none_iff h1).2 rfl, (Heap.Chain.keyMapAt_none_iff h2).2 rfl]
    · rw [hl] at h1 h2
      rw [h1.1, h2.1]
  refine ⟨s2, hres, inv2.cleared, inv2.active, ?_, ?_⟩
  · intro t k ht hk
    have hck : c ∈ chain k := (inv.chain_mem k c).2 ⟨hcL, t, ht, hk⟩
    refine ⟨inv2.chains k, ?_, ?_⟩
    · rw [Heap.Chain.keyMapAt_none_iff (inv2.chains k)]
      exact erase_eq_nil_iff hck
    · intro k2 hk2
      exact hother k2 (fun e => hk2 (inv.chain_key e hck))
  · intro ht k
    apply hother
    intro e
    obtain ⟨_, t, ht2, _⟩ := (inv.chain_mem k c).1 e
    rw [ht] at ht2; cases ht2

/-- C8, at the example heap whose cleared cell is the tail of a chain of two. -/
theorem C8_pop_postcondition_witness :
    ∃ s2, JSFinalizationGroup.PopClearedCellHoldings heap3 0
        = .ok ((heap3.cells 0).holdings, s2) ∧
      s2.ClearedList 0 [] ∧ s2.ActiveList 0 [1] ∧
      (∀ t k, (heap3.cells 0).unregister_token = some t → heap3.hashes t = some k →
        s2.Chain 0 k (((fun k => if k = 7 then [1, 0] else []) k).erase 0) ∧
        (s2.keyMapAt 0 k = none ↔ (fun k => if k = 7 then [1, 0] else []) k = [0]) ∧
        ∀ k2, k2 ≠ k → s2.Chain 0 k2 ((fun k => if k = 7 then [1, 0] else []) k2) ∧
          s2.keyMapAt 0 k2 = heap3.keyMapAt 0 k2) ∧
      ((heap3.cells 0).unregister_token = none →
        ∀ k, s2.Chain 0 k ((fun k => if k = 7 then [1, 0] else []) k) ∧
          s2.keyMapAt 0 k = heap3.keyMapAt 0 k) :=
  C8_pop_postcondition heap3_inv

/-- The cleared list is empty exactly when `NeedsCleanup` is false. -/
theorem NeedsCleanup_false_iff {s : Heap} {g : Nat} {clr : List Nat}
    (h : s.ClearedList g clr) : JSFinalizationGroup.NeedsCleanup s g = false ↔ clr = [] := by
  unfold JSFinalizationGroup.NeedsCleanup
  cases clr with
  | nil =>
    have : (s.groups g).cleared_cells = none := h
    rw [this]; simp
  | cons a l =>
    have : (s.groups g).cleared_cells = some a := h.1
    rw [this]; simp

/-- C9 (NeedsCleanup): in a well-formed registry NeedsCleanup is false exactly
when the cleared list is empty (as a function of the heap it changes
nothing); popping the only cleared cell makes it false, and after one pop
from a cleared list of two or more cells it is still true. -/
theorem C9_needs_cleanup {s : Heap} {g : Nat} {act clr : List Nat}
    {chain : Nat → List Nat} (inv : Inv s g act clr chain) :
    (JSFinalizationGroup.NeedsCleanup s g = false ↔ clr = []) ∧
    (∀ c, clr = [c] → ∃ h s2, JSFinalizationGroup.PopClearedCellHoldings s g = .ok (h, s2) ∧
      JSFinalizationGroup.NeedsCleanup s2 g = false) ∧
    (∀ c d rest, clr = c :: d :: rest →
      ∃ h s2, JSFinalizationGroup.PopClearedCellHoldings s g = .ok (h, s2) ∧
        JSFinalizationGroup.NeedsCleanup s2 g = true) := by
  refine ⟨NeedsCleanup_false_iff inv.cleared, ?_, ?_⟩
  · intro c hc
    subst hc
    obtain ⟨s2, hres, inv2, _⟩ := Pop_spec inv
    exact ⟨_, s2, hres, (NeedsCleanup_false_iff inv2.cleared).2 rfl⟩
  · intro c d rest hc
    subst hc
    obtain ⟨s2, hres, inv2, _⟩ := Pop_spec inv
    refine ⟨_, s2, hres, ?_⟩
    cases hn : JSFinalizationGroup.NeedsCleanup s2 g with
    | true => rfl
    | false => cases (NeedsCleanup_false_iff inv2.cleared).1 hn

/-- C9, at the example heap with one cleared cell. -/
theorem C9_needs_cleanup_witness :
    (JSFinalizationGroup.NeedsCleanup heap3 0 = false ↔ [0] = []) ∧
    (∀ c, [0] = [c] →
      ∃ h s2, JSFinalizationGroup.PopClearedCellHoldings heap3 0 = .ok (h, s2) ∧
        JSFinalizationGroup.NeedsCleanup s2 0 = false) ∧
    (∀ c d rest, [0] = c :: d :: rest →
      ∃ h s2, JSFinalizationGroup.PopClearedCellHoldings heap3 0 = .ok (h, s2) ∧
        JSFinalizationGroup.NeedsCleanup s2 0 = true) :=
  C9_needs_cleanup heap3_inv

/-- C10 (Register prepends to the active list): in a well-formed registry,
Register returns; afterwards the active list is the new cell followed by the
old list, the old head's `prev` is the new cell, the new cell's `prev` is
undefined, the new cell carries the given target, holdings, token and
registry, and the cleared list is unchanged; with the undefined token the key
map and the key-list links of every other cell are unchanged and those of the
new cell are undefined. -/
theorem C10_register_prepends {s : Heap} {g : Nat} {act clr : List Nat}
    {chain : Nat → List Nat} (target holdings : Nat) (tok : Option Nat) (fresh : Nat)
    (inv : Inv s g act clr chain) :
    ∃ s2, JSFinalizationGroup.Register s g target holdings tok fresh = .ok s2 ∧
      s2.ActiveList g (s.next_cell :: act) ∧
      (∀ hd, (s.groups g).active_cells = some hd → (s2.cells hd).prev = some s.next_cell) ∧
      (s2.cells s.next_cell).prev = none ∧
      (s2.cells s.next_cell).target = some target ∧
      (s2.cells s.next_cell).holdings = holdings ∧
      (s2.cells s.next_cell).unregister_token = tok ∧
      (s2.cells s.next_cell).finalization_group = g ∧
      s2.ClearedList g clr ∧
      (tok = none → (s2.groups g).key_map = (s.groups g).key_map ∧
        (∀ a, a ≠ s.next_cell → (s2.cells a).key_list_prev = (s.cells a).key_list_prev ∧
          (s2.cells a).key_list_next = (s.cells a).key_list_next) ∧
        (s2.cells s.next_cell).key_list_prev = none ∧
        (s2.cells s.next_cell).key_list_next = none) := by
  obtain ⟨s2, hres, inv2⟩ := Register_spec target holdings tok fresh inv
  obtain ⟨s3, hres3, _, hprev, hknext, hkprev, _, hnew, _, _, _, hkm, _⟩ :=
    Register_fields s g target holdings tok fresh
  rw [hres] at hres3
  cases hres3
  have hw : ∀ x ∈ act, x ≠ s.next_cell := fun x hx e =>
    absurd (inv.bound x (List.mem_append_left _ hx)) (by rw [e]; exact lt_irrefl _)
  refine ⟨s2, hres, inv2.active, ?_, ?_, hnew.1, hnew.2.1, hnew.2.2.1, hnew.2.2.2,
    inv2.cleared, ?_⟩
  · intro hd hhd
    rw [hprev hd, if_pos hhd]
  · rw [hprev, if_neg (fun e => hw _ (IsDList.head_mem inv.active e) rfl), if_pos rfl]
  · intro ht
    subst ht
    refine ⟨hkm rfl, ?_, ?_, ?_⟩
    · intro a ha
      rw [hkprev a, hknext a]
      simp [registerKey, ha]
    · rw [hkprev]; simp [registerKey]
    · rw [hknext]; simp [registerKey]

/-- C10, at the example heap with two active cells. -/
theorem C10_register_prepends_witness :
    ∃ s2, JSFinalizationGroup.Register heap2 0 102 202 none 9 = .ok s2 ∧
      s2.ActiveList 0 (heap2.next_cell :: [1, 0]) ∧
      (∀ hd, (heap2.groups 0).active_cells = some hd →
        (s2.cells hd).prev = some heap2.next_cell) ∧
      (s2.cells heap2.next_cell).prev = none ∧
      (s2.cells heap2.next_cell).target = some 102 ∧
      (s2.cells heap2.next_cell).holdings = 202 ∧
      (s2.cells heap2.next_cell).unregister_token = none ∧
      (s2.cells heap2.next_cell).finalization_group = 0 ∧
      s2.ClearedList 0 [] ∧
      ((none : Option Nat) = none → (s2.groups 0).key_map = (heap2.groups 0).key_map ∧
        (∀ a, a ≠ heap2.next_cell →
          (s2.cells a).key_list_prev = (heap2.cells a).key_list_prev ∧
          (s2.cells a).key_list_next = (heap2.cells a).key_list_next) ∧
        (s2.cells heap2.next_cell).key_list_prev = none ∧
        (s2.cells heap2.next_cell).key_list_next = none) :=
  C10_register_prepends 102 202 none 9 heap2_inv

open Heap

/-- The key-map value under a key is the first cell of the chain stored there. -/
theorem Heap.Chain.keyMapAt_eq_head {s : Heap} {g k : Nat} {l : List Nat}
    (hl : s.Chain g k l) : s.keyMapAt g k = l.head? :=
  IsDList.head_eq hl

/-- C11 (Register files the new cell at the head of its chain): in a
well-formed registry, Register with a token whose identity hash is `k` (stored
already, or created as `fresh`) returns; afterwards the key map maps `k` to the
new cell, the chain under `k` is the new cell followed by the old chain (only
the new cell when `k` had no entry or there was no key map), the old head's
`key_list_prev` is the new cell, and the entries and chains under all other
keys are unchanged. -/
theorem C11_register_chain_head {s : Heap} {g : Nat} {act clr : List Nat}
    {chain : Nat → List Nat} (target holdings token fresh k : Nat)
    (inv : Inv s g act clr chain) (hk : (s.hashes token).getD fresh = k) :
    ∃ s2, JSFinalizationGroup.Register s g target holdings (some token) fresh = .ok s2 ∧
      s2.keyMapAt g k = some s.next_cell ∧
      s2.Chain g k (s.next_cell :: chain k) ∧
      (s.keyMapAt g k = none → s2.Chain g k [s.next_cell]) ∧
      ((s.groups g).key_map = none → s2.Chain g k [s.next_cell]) ∧
      (∀ hd, s.keyMapAt g k = some hd → (s2.cells hd).key_list_prev = some s.next_cell) ∧
      (s2.cells s.next_cell).key_list_prev = none ∧
      ∀ k2, k2 ≠ k → s2.keyMapAt g k2 = s.keyMapAt g k2 ∧ s2.Chain g k2 (chain k2) := by
  obtain ⟨s2, hres, inv2⟩ := Register_spec target holdings (some token) fresh inv
  obtain ⟨s3, hres3, _, _, _, hkprev, _, _, _, _, hkm, _⟩ :=
    Register_fields s g target holdings (some token) fresh
  rw [hres] at hres3
  cases hres3
  have hrk : registerKey s (some token) fresh = some k := by
    simp only [registerKey, Option.map_some', hk]
  have hw : ∀ x ∈ chain k, x ≠ s.next_cell := fun x hx e =>
    absurd (inv.bound x (inv.chain_sub hx)) (by rw [e]; exact lt_irrefl _)
  have hc2 : s2.Chain g k (s.next_cell :: chain k) := by
    have := inv2.chains k
    simp only [if_pos hrk] at this
    exact this
  have hnil : s.keyMapAt g k = none → s2.Chain g k [s.next_cell] := by
    intro h
    have e := Heap.Chain.nil_of_none h (inv.chains k)
    rw [e] at hc2; exact hc2
  refine ⟨s2, hres, ?_, hc2, hnil, ?_, ?_, ?_, ?_⟩
  · rw [hkm k, if_pos hrk]
  · intro h
    apply hnil
    unfold Heap.keyMapAt; rw [h]
  · intro hd hhd
    rw [hkprev hd, hrk]
    exact if_pos hhd
  · rw [hkprev, hrk]
    have : ¬ (some k).bind (s.keyMapAt g) = some s.next_cell := fun e =>
      hw _ (IsDList.head_mem (inv.chains k) e) rfl
    rw [if_neg this, if_pos rfl]
  · intro k2 hk2
    have hne : ¬ registerKey s (some token) fresh = some k2 := by
      rw [hrk]; intro e; cases e; exact hk2 rfl
    refine ⟨by rw [hkm k2, if_neg hne], ?_⟩
    have := inv2.chains k2
    simp only [if_neg hne] at this
    exact this

/-- C11, at the example heap with one cell under key 7. -/
theorem C11_register_chain_head_witness :
    ∃ s2, JSFinalizationGroup.Register heap1 0 101 201 (some 51) 7 = .ok s2 ∧
      s2.keyMapAt 0 7 = some heap1.next_cell ∧
      s2.Chain 0 7 (heap1.next_cell :: (fun k => if k = 7 then [0] else []) 7) ∧
      (heap1.keyMapAt 0 7 = none → s2.Chain 0 7 [heap1.next_cell]) ∧
      ((heap1.groups 0).key_map = none → s2.Chain 0 7 [heap1.next_cell]) ∧
      (∀ hd, heap1.keyMapAt 0 7 = some hd →
        (s2.cells hd).key_list_prev = some heap1.next_cell) ∧
      (s2.cells heap1.next_cell).key_list_prev = none ∧
      ∀ k2, k2 ≠ 7 → s2.keyMapAt 0 k2 = heap1.keyMapAt 0 k2 ∧
        s2.Chain 0 k2 ((fun k => if k = 7 then [0] else []) k2) :=
  C11_register_chain_head 101 201 51 7 7 heap1_inv rfl

/-- C12 (Unregister rebuilds the chain): in a well-formed registry, for a
token `T` with identity hash `k`, Unregister(T) with enough fuel returns;
afterwards the chain under `k` is made of the cells of the old chain whose
token is not `T`, in their old order and consistently linked; the key map has
no entry for `k` when that chain is empty and otherwise maps `k` to its first
cell; the entries and chains under all other keys are unchanged. -/
theorem C12_unregister_rebuilds_chain {s : Heap} {g : Nat} {act clr : List Nat}
    {chain : Nat → List Nat} (T fuel k : Nat)
    (inv : Inv s g act clr chain) (hfuel : act.length + clr.length ≤ fuel)
    (hk : s.hashes T = some k) :
    ∃ b s2, JSFinalizationGroup.Unregister fuel s g T = .ok (b, s2) ∧
      s2.Chain g k ((chain k).filter fun c => decide ((s.cells c).unregister_token ≠ some T)) ∧
      (((chain k).filter fun c => decide ((s.cells c).unregister_token ≠ some T)) = [] →
        s2.keyMapAt g k = none) ∧
      (∀ c rest, ((chain k).filter fun c => decide ((s.cells c).unregister_token ≠ some T))
          = c :: rest → s2.keyMapAt g k = some c) ∧
      ∀ k2, k2 ≠ k → s2.Chain g k2 (chain k2) ∧ s2.keyMapAt g k2 = s.keyMapAt g k2 := by
  obtain ⟨b, s2, hres, inv2, _⟩ := Unregister_spec T fuel inv hfuel
  refine ⟨b, s2, hres, inv2.chains k, ?_, ?_, ?_⟩
  · intro h
    rw [Heap.Chain.keyMapAt_eq_head (inv2.chains k)]
    simp only [h, List.head?_nil]
  · intro c rest h
    rw [Heap.Chain.keyMapAt_eq_head (inv2.chains k)]
    simp only [h, List.head?_cons]
  · intro k2 hk2
    have hfk : ((chain k2).filter
        fun c => decide ((s.cells c).unregister_token ≠ some T)) = chain k2 := by
      rw [List.filter_eq_self]
      intro c hc
      obtain ⟨_, t, ht, hk3⟩ := (inv.chain_mem k2 c).1 hc
      have : (s.cells c).unregister_token ≠ some T := by
        rw [ht]; intro e; cases e
        rw [hk] at hk3; cases hk3; exact hk2 rfl
      simpa using this
    have h2 := inv2.chains k2
    simp only [hfk] at h2
    refine ⟨h2, ?_⟩
    rw [Heap.Chain.keyMapAt_eq_head h2, Heap.Chain.keyMapAt_eq_head (inv.chains k2)]

/-- C12, at the example heap whose chain under key 7 holds cells of two tokens. -/
theorem C12_unregister_rebuilds_chain_witness :
    ∃ b s2, JSFinalizationGroup.Unregister 2 heap3 0 50 = .ok (b, s2) ∧
      s2.Chain 0 7 (((fun k => if k = 7 then [1, 0] else []) 7).filter
        fun c => decide ((heap3.cells c).unregister_token ≠ some 50)) ∧
      ((((fun k => if k = 7 then [1, 0] else []) 7).filter
          fun c => decide ((heap3.cells c).unregister_token ≠ some 50)) = [] →
        s2.keyMapAt 0 7 = none) ∧
      (∀ c rest, (((fun k => if k = 7 then [1, 0] else []) 7).filter
          fun c => decide ((heap3.cells c).unregister_token ≠ some 50)) = c :: rest →
        s2.keyMapAt 0 7 = some c) ∧
      ∀ k2, k2 ≠ 7 → s2.Chain 0 k2 ((fun k => if k = 7 then [1, 0] else []) k2) ∧
        s2.keyMapAt 0 k2 = heap3.keyMapAt 0 k2 :=
  C12_unregister_rebuilds_chain 50 2 7 heap3_inv (by decide) rfl

open Heap

/-- The heap, `was_present` and the new chain head computed by the loop do not
depend on the notifier. -/
theorem RemoveUnregisterToken_loop_notifier {ν μ : Type} (T : Nat)
    (mc : Heap → Nat → Except Fault Heap)
    (f : ν → HeapObject → ObjectSlot → Option Nat → ν)
    (f2 : μ → HeapObject → ObjectSlot → Option Nat → μ) :
    ∀ (fuel : Nat) (s : Heap) (value : Option Nat) (wp : Bool) (head prev : Option Nat)
      (n : ν) (m : μ),
      (JSFinalizationGroup.RemoveUnregisterToken.loop T mc f fuel s value wp head prev n).map
          (fun r => (r.1, r.2.1, r.2.2.1)) =
        (JSFinalizationGroup.RemoveUnregisterToken.loop T mc f2 fuel s value wp head prev m).map
          (fun r => (r.1, r.2.1, r.2.2.1)) := by
  intro fuel
  induction fuel with
  | zero =>
    intro s value wp head prev n m
    cases value with
    | none =>
      rw [JSFinalizationGroup.RemoveUnregisterToken.loop,
        JSFinalizationGroup.RemoveUnregisterToken.loop]
      rfl
    | some w =>
      rw [JSFinalizationGroup.RemoveUnregisterToken.loop,
        JSFinalizationGroup.RemoveUnregisterToken.loop]
      rfl
  | succ fuel ih =>
    intro s value wp head prev n m
    cases value with
    | none =>
      rw [JSFinalizationGroup.RemoveUnregisterToken.loop,
        JSFinalizationGroup.RemoveUnregisterToken.loop]
      rfl
    | some w =>
      rw [JSFinalizationGroup.RemoveUnregisterToken.loop,
        JSFinalizationGroup.RemoveUnregisterToken.loop]
      by_cases ht : (s.cells w).unregister_token = some T
      · simp only [ht, if_true]
        rcases hm : mc s w with e | s1
        · rfl
        · simp only [Except.bind]
          exact ih _ _ _ _ _ _ _
      · simp only [ht, if_false]
        rcases prev with _ | p
        · simp only []
          exact ih _ _ _ _ _ _ _
        · simp only []
          by_cases hh : head = none
          · simp only [hh, if_true]
            rfl
          · simp only [hh, if_false]
            exact ih _ _ _ _ _ _ _

/-- The result and the heap of the shared removal routine do not depend on the
notifier: with any notifier they are those of `Unregister`. -/
theorem RemoveUnregisterToken_notifier {ν : Type} (fuel : Nat) (s : Heap) (g T : Nat)
    (f : ν → HeapObject → ObjectSlot → Option Nat → ν) (n : ν) :
    (JSFinalizationGroup.RemoveUnregisterToken fuel s g T
        WeakCell.RemoveFromFinalizationGroupCells f n).map (fun r => (r.1, r.2.1)) =
      JSFinalizationGroup.Unregister fuel s g T := by
  unfold JSFinalizationGroup.Unregister JSFinalizationGroup.RemoveUnregisterToken
  rcases hkm : (s.groups g).key_map with _ | d
  · rfl
  simp only []
  rcases hh : s.GetHash T with _ | key
  · rfl
  simp only []
  rcases he : d.FindEntry key with _ | entry
  · rfl
  simp only []
  have key := RemoveUnregisterToken_loop_notifier T WeakCell.RemoveFromFinalizationGroupCells f
    (fun (_ : Unit) (_ : HeapObject) (_ : ObjectSlot) (_ : Option Nat) => ())
    fuel s (d.ValueAt entry) false none none n ()
  rcases h1 : JSFinalizationGroup.RemoveUnregisterToken.loop T
      WeakCell.RemoveFromFinalizationGroupCells f fuel s (d.ValueAt entry) false none none n
    with e1 | r1 <;>
  rcases h2 : JSFinalizationGroup.RemoveUnregisterToken.loop T
      WeakCell.RemoveFromFinalizationGroupCells
      (fun (_ : Unit) (_ : HeapObject) (_ : ObjectSlot) (_ : Option Nat) => ())
      fuel s (d.ValueAt entry) false none none () with e2 | r2
  all_goals rw [h1, h2] at key
  all_goals simp only [Except.map, Except.ok.injEq, Except.error.injEq, reduceCtorEq] at key
  · subst key; rfl
  · obtain ⟨s1, wp1, hd1, n1⟩ := r1
    obtain ⟨s2, wp2, hd2, n2⟩ := r2
    simp only [Prod.mk.injEq] at key
    obtain ⟨rfl, rfl, rfl⟩ := key
    simp only [Except.bind]
    rcases hd1 with _ | hd
    · simp only []
      by_cases hwp : wp1 = false
      · simp [hwp, Except.map]
      · simp [hwp, Except.map]
    · rfl

/-- C13 (dead-token cleanup equals Unregister): in a well-formed registry and
with enough fuel, the shared routine `RemoveUnregisterToken` with
`RemoveFromFinalizationGroupCells` as match action returns, for every
notifier and notifier state, the same boolean and the same heap as
`Unregister`, which runs it with a notifier that does nothing. -/
theorem C13_dead_token_cleanup_equals_unregister {ν : Type} {s : Heap} {g : Nat}
    {act clr : List Nat} {chain : Nat → List Nat} (T fuel : Nat)
    (f : ν → HeapObject → ObjectSlot → Option Nat → ν) (n : ν)
    (inv : Inv s g act clr chain) (hfuel : act.length + clr.length ≤ fuel) :
    ∃ b s2, JSFinalizationGroup.Unregister fuel s g T = .ok (b, s2) ∧
      ∃ n2, JSFinalizationGroup.RemoveUnregisterToken fuel s g T
        WeakCell.RemoveFromFinalizationGroupCells f n = .ok (b, s2, n2) := by
  obtain ⟨b, s2, n2, hres, _⟩ := RemoveUnregisterToken_spec T f n fuel inv hfuel
  refine ⟨b, s2, ?_, n2, hres⟩
  rw [← RemoveUnregisterToken_notifier fuel s g T f n, hres]
  rfl

open Heap

/-- C13, at the example heap with one active and one cleared cell and with the
recording notifier. -/
theorem C13_dead_token_cleanup_equals_unregister_witness :
    ∃ b s2, JSFinalizationGroup.Unregister 2 heap3 0 50 = .ok (b, s2) ∧
      ∃ n2, JSFinalizationGroup.RemoveUnregisterToken 2 heap3 0 50
        WeakCell.RemoveFromFinalizationGroupCells recordNotifier [] = .ok (b, s2, n2) :=
  C13_dead_token_cleanup_equals_unregister 50 2 recordNotifier [] heap3_inv (by decide)

/-- The traced `Nullify` computes the heap of `Nullify`, and its notifications
are what the recording notifier receives. -/
theorem NullifyTrace_refines (s : Heap) (c : Nat) :
    WeakCell.Nullify s c recordNotifier [] =
      (WeakCell.NullifyTrace s c).map fun r => (r.1, r.2.filter Event.isNotify) := by
  unfold WeakCell.Nullify WeakCell.NullifyTrace
  by_cases ht : (s.cells c).target = none
  · simp [ht, Except.map]
  rcases hp : (s.cells c).prev with _ | q <;>
  rcases hnx : (s.cells c).next with _ | b <;>
  rcases hcl : (s.groups (s.cells c).finalization_group).cleared_cells with _ | d <;>
  by_cases hac : (s.groups (s.cells c).finalization_group).active_cells = some c
  all_goals
    simp [ht, hp, hnx, hcl, hac, Except.bind, Except.map, recordNotifier, Event.isNotify,
      List.filter]

open Heap

/-- The writes of the traced `Nullify` that no notification follows: the two
writes of undefined to the target and to `prev` of the cleared cell. -/
theorem NullifyTrace_unnotified (s : Heap) (g c : Nat)
    (ho : (s.cells c).finalization_group = g) (ht : (s.cells c).target ≠ none)
    (hh : (s.cells c).prev = none ↔ (s.groups g).active_cells = some c) :
    ∃ s2 tr, WeakCell.NullifyTrace s c = .ok (s2, tr) ∧
      unnotified tr = [Event.write (.weakCell c) .kTargetOffset none,
        Event.write (.weakCell c) .kPrevOffset none] := by
  unfold WeakCell.NullifyTrace
  rcases hp : (s.cells c).prev with _ | q <;>
  rcases hnx : (s.cells c).next with _ | b <;>
  rcases hcl : (s.groups g).cleared_cells with _ | d
  all_goals
    first
    | have hac : (s.groups g).active_cells = some c := hh.1 hp
    | have hac : (s.groups g).active_cells ≠ some c := fun e => by
        have := hh.2 e; rw [hp] at this; cases this
  all_goals
    simp only [ht, ho, hp, hnx, hcl, hac, Except.bind, if_false, if_true, ne_eq,
      not_true_eq_false, not_false_eq_true, set_target_finalization_group, set_target_prev,
      set_target_next, set_target_groups, set_next_next, set_next_prev, set_next_groups,
      set_prev_next, set_prev_prev, set_prev_groups, set_active_cells_cells,
      set_active_cells_cleared_cells, set_active_cells_active_cells,
      set_next_finalization_group, set_prev_finalization_group, ite_self, List.cons_append,
      List.nil_append, List.append_assoc]
  all_goals refine ⟨_, _, rfl, ?_⟩
  all_goals simp [unnotified]

open Heap

/-- C14 as the code has it (slot-update notifications in GC-clearing): in a
well-formed registry, Nullify on an active cell `c` returns, its notifications
are those the recording notifier receives, and every write it performs is
immediately followed by a notification with the same object, field and value,
except the two writes of the constant undefined, to the target and to `prev`
of `c`, which are not notified. -/
theorem C14_nullify_notifications {s : Heap} {g : Nat} {act clr : List Nat}
    {chain : Nat → List Nat} (c : Nat) (inv : Inv s g act clr chain) (hc : c ∈ act) :
    ∃ s2 tr, WeakCell.NullifyTrace s c = .ok (s2, tr) ∧
      WeakCell.Nullify s c recordNotifier [] = .ok (s2, tr.filter Event.isNotify) ∧
      unnotified tr = [Event.write (.weakCell c) .kTargetOffset none,
        Event.write (.weakCell c) .kPrevOffset none] := by
  obtain ⟨s2, tr, hres, hun⟩ := NullifyTrace_unnotified s g c
    (inv.owner c (List.mem_append_left _ hc)) (inv.target_active c hc)
    (IsDList.prev_none_iff inv.active hc)
  refine ⟨s2, tr, hres, ?_, hun⟩
  rw [NullifyTrace_refines, hres]
  rfl

/-- C14 as the code has it, at the example heap with two active cells. -/
theorem C14_nullify_notifications_witness :
    ∃ s2 tr, WeakCell.NullifyTrace heap2 0 = .ok (s2, tr) ∧
      WeakCell.Nullify heap2 0 recordNotifier [] = .ok (s2, tr.filter Event.isNotify) ∧
      unnotified tr = [Event.write (.weakCell 0) .kTargetOffset none,
        Event.write (.weakCell 0) .kPrevOffset none] :=
  C14_nullify_notifications 0 heap2_inv (by decide)

/-- C14 as stated fails: in the well-formed example heap with the active cells
1 and 0, Nullify on cell 0 writes the target of cell 0 and no notification
names that field. -/
theorem C14_nullify_notifications_counterexample :
    Inv heap2 0 [1, 0] [] (fun k => if k = 7 then [1, 0] else []) ∧ 0 ∈ [1, 0] ∧
    ∃ s2 tr, WeakCell.NullifyTrace heap2 0 = .ok (s2, tr) ∧
      WeakCell.Nullify heap2 0 recordNotifier [] = .ok (s2, tr.filter Event.isNotify) ∧
      Event.write (.weakCell 0) .kTargetOffset none ∈ tr ∧
      (∀ v, Event.notify (.weakCell 0) .kTargetOffset v ∉ tr) ∧
      ¬ AllWritesNotified tr := by
  refine ⟨heap2_inv, by decide, heap3,
    [Event.write (.weakCell 0) .kTargetOffset none,
      Event.write (.weakCell 1) .kNextOffset none,
      Event.notify (.weakCell 1) .kNextOffset none,
      Event.write (.weakCell 0) .kPrevOffset none,
      Event.write (.weakCell 0) .kNextOffset none,
      Event.notify (.weakCell 0) .kNextOffset none,
      Event.write (.finalizationGroup 0) .kClearedCellsOffset (some 0),
      Event.notify (.finalizationGroup 0) .kClearedCellsOffset (some 0)], rfl, rfl,
    by decide, ?_, ?_⟩
  · intro v h
    simp at h
  · intro h
    have h2 := h (.weakCell 0) .kTargetOffset none (by decide)
    simp at h2

open Heap

theorem CellWritesNotified.append {a b : List Event} (ha : CellWritesNotified a)
    (hb : CellWritesNotified b) : CellWritesNotified (a ++ b) := by
  induction a with
  | nil => exact hb
  | cons e rest ih =>
    cases e with
    | notify o slot v => exact ih ha
    | write o slot v =>
      cases v with
      | none => exact ih ha
      | some w =>
        obtain ⟨h1, h2⟩ := ha
        refine ⟨?_, ih h2⟩
        cases rest with
        | nil => cases h1
        | cons e2 rest2 => exact h1

/-- The traced loop computes what the loop computes, and its notifications are
what the recording notifier receives. -/
theorem RemoveUnregisterToken_loopTrace_refines (T : Nat)
    (mc : Heap → Nat → Except Fault Heap) :
    ∀ (fuel : Nat) (s : Heap) (value : Option Nat) (wp : Bool) (head prev : Option Nat)
      (n : List Event),
      JSFinalizationGroup.RemoveUnregisterToken.loop T mc recordNotifier
          fuel s value wp head prev n =
        (JSFinalizationGroup.RemoveUnregisterToken.loopTrace T mc
          fuel s value wp head prev).map
          (fun r => (r.1, r.2.1, r.2.2.1, n ++ r.2.2.2.filter Event.isNotify)) := by
  intro fuel
  induction fuel with
  | zero =>
    intro s value wp head prev n
    cases value with
    | none =>
      rw [JSFinalizationGroup.RemoveUnregisterToken.loop,
        JSFinalizationGroup.RemoveUnregisterToken.loopTrace]
      simp [Except.map]
    | some w =>
      rw [JSFinalizationGroup.RemoveUnregisterToken.loop,
        JSFinalizationGroup.RemoveUnregisterToken.loopTrace]
      rfl
  | succ fuel ih =>
    intro s value wp head prev n
    cases value with
    | none =>
      rw [JSFinalizationGroup.RemoveUnregisterToken.loop,
        JSFinalizationGroup.RemoveUnregisterToken.loopTrace]
      simp [Except.map]
    | some w =>
      rw [JSFinalizationGroup.RemoveUnregisterToken.loop,
        JSFinalizationGroup.RemoveUnregisterToken.loopTrace]
      by_cases ht : (s.cells w).unregister_token = some T
      · simp only [ht, if_true]
        rcases hm : mc s w with e | s1
        · rfl
        · simp only [Except.bind]
          rw [ih]
          rcases JSFinalizationGroup.RemoveUnregisterToken.loopTrace T mc fuel
            ((s1.set_key_list_prev w none).set_key_list_next w none)
            (s.cells w).key_list_next true head prev with e | r
          · rfl
          · simp [Except.map, Event.isNotify, List.filter]
      · simp only [ht, if_false]
        rcases prev with _ | p
        · simp only []
          rw [ih]
          rcases JSFinalizationGroup.RemoveUnregisterToken.loopTrace T mc fuel
            ((s.set_key_list_prev w none).set_key_list_next w none)
            (s.cells w).key_list_next wp (some w) (some w) with e | r
          · rfl
          · simp [Except.map, Except.bind, Event.isNotify, List.filter, recordNotifier]
        · simp only []
          by_cases hh : head = none
          · simp only [hh, if_true]
            rfl
          · simp only [hh, if_false]
            rw [ih]
            rcases JSFinalizationGroup.RemoveUnregisterToken.loopTrace T mc fuel
              (((s.set_key_list_prev w (some p)).set_key_list_next w none).set_key_list_next
                p (some w))
              (s.cells w).key_list_next wp head (some w) with e | r
            · rfl
            · simp [Except.map, Except.bind, Event.isNotify, List.filter, recordNotifier]

/-- In the trace of the loop every write of a cell reference is immediately
followed by its notification. -/
theorem RemoveUnregisterToken_loopTrace_notified (T : Nat)
    (mc : Heap → Nat → Except Fault Heap) :
    ∀ (fuel : Nat) (s : Heap) (value : Option Nat) (wp : Bool) (head prev : Option Nat)
      (r : Heap × Bool × Option Nat × List Event),
      JSFinalizationGroup.RemoveUnregisterToken.loopTrace T mc fuel s value wp head prev
        = .ok r → CellWritesNotified r.2.2.2 := by
  intro fuel
  induction fuel with
  | zero =>
    intro s value wp head prev r h
    cases value with
    | none =>
      rw [JSFinalizationGroup.RemoveUnregisterToken.loopTrace] at h
      cases h; exact True.intro
    | some w =>
      rw [JSFinalizationGroup.RemoveUnregisterToken.loopTrace] at h
      cases h
  | succ fuel ih =>
    intro s value wp head prev r h
    cases value with
    | none =>
      rw [JSFinalizationGroup.RemoveUnregisterToken.loopTrace] at h
      cases h; exact True.intro
    | some w =>
      rw [JSFinalizationGroup.RemoveUnregisterToken.loopTrace] at h
      by_cases ht : (s.cells w).unregister_token = some T
      · simp only [ht, if_true] at h
        rcases hm : mc s w with e | s1
        · rw [hm] at h; cases h
        · rw [hm] at h
          simp only [Except.bind] at h
          rcases hl : JSFinalizationGroup.RemoveUnregisterToken.loopTrace T mc fuel
            ((s1.set_key_list_prev w none).set_key_list_next w none)
            (s.cells w).key_list_next true head prev with e | r1
          · rw [hl] at h; cases h
          · rw [hl] at h
            cases h
            exact ih _ _ _ _ _ r1 hl
      · simp only [ht, if_false] at h
        rcases prev with _ | p
        · simp only [] at h
          rcases hl : JSFinalizationGroup.RemoveUnregisterToken.loopTrace T mc fuel
            ((s.set_key_list_prev w none).set_key_list_next w none)
            (s.cells w).key_list_next wp (some w) (some w) with e | r1
          · rw [hl] at h; cases h
          · rw [hl] at h
            cases h
            exact ih _ _ _ _ _ r1 hl
        · simp only [] at h
          by_cases hh : head = none
          · simp only [hh, if_true] at h
            cases h
          · simp only [hh, if_false] at h
            rcases hl : JSFinalizationGroup.RemoveUnregisterToken.loopTrace T mc fuel
              (((s.set_key_list_prev w (some p)).set_key_list_next w none).set_key_list_next
                p (some w))
              (s.cells w).key_list_next wp head (some w) with e | r1
            · rw [hl] at h; cases h
            · rw [hl] at h
              cases h
              exact ⟨rfl, ⟨rfl, ih _ _ _ _ _ r1 hl⟩⟩

open Heap

/-- The traced removal routine computes what the routine computes, and its
notifications are what the recording notifier receives. -/
theorem RemoveUnregisterTokenTrace_refines (fuel : Nat) (s : Heap) (g T : Nat)
    (mc : Heap → Nat → Except Fault Heap) :
    JSFinalizationGroup.RemoveUnregisterToken fuel s g T mc recordNotifier [] =
      (JSFinalizationGroup.RemoveUnregisterTokenTrace fuel s g T mc).map
        (fun r => (r.1, r.2.1, r.2.2.filter Event.isNotify)) := by
  unfold JSFinalizationGroup.RemoveUnregisterToken JSFinalizationGroup.RemoveUnregisterTokenTrace
  rcases hkm : (s.groups g).key_map with _ | d
  · rfl
  simp only []
  rcases hh : s.GetHash T with _ | key
  · rfl
  simp only []
  rcases he : d.FindEntry key with _ | entry
  · rfl
  simp only []
  rw [RemoveUnregisterToken_loopTrace_refines]
  rcases JSFinalizationGroup.RemoveUnregisterToken.loopTrace T mc fuel s (d.ValueAt entry)
    false none none with e | r
  · rfl
  · obtain ⟨s1, wp1, hd1, tr1⟩ := r
    rcases hd1 with _ | hd
    · by_cases hwp : wp1 = false
      · simp [Except.map, Except.bind, hwp]
      · simp [Except.map, Except.bind, hwp, Event.isNotify, List.filter]
    · simp [Except.map, Except.bind, Event.isNotify, List.filter, recordNotifier]

/-- In the trace of the removal routine every write of a cell reference is
immediately followed by its notification. -/
theorem RemoveUnregisterTokenTrace_notified {fuel : Nat} {s : Heap} {g T : Nat}
    {mc : Heap → Nat → Except Fault Heap} {r : Bool × Heap × List Event}
    (h : JSFinalizationGroup.RemoveUnregisterTokenTrace fuel s g T mc = .ok r) :
    CellWritesNotified r.2.2 := by
  unfold JSFinalizationGroup.RemoveUnregisterTokenTrace at h
  rcases hkm : (s.groups g).key_map with _ | d
  · rw [hkm] at h; cases h; exact True.intro
  rw [hkm] at h; simp only [] at h
  rcases hh : s.GetHash T with _ | key
  · rw [hh] at h; cases h; exact True.intro
  rw [hh] at h; simp only [] at h
  rcases he : d.FindEntry key with _ | entry
  · rw [he] at h; cases h; exact True.intro
  rw [he] at h; simp only [] at h
  rcases hl : JSFinalizationGroup.RemoveUnregisterToken.loopTrace T mc fuel s (d.ValueAt entry)
    false none none with e | r1
  · rw [hl] at h; cases h
  · rw [hl] at h
    have hcw := RemoveUnregisterToken_loopTrace_notified T mc _ _ _ _ _ _ r1 hl
    obtain ⟨s1, wp1, hd1, tr1⟩ := r1
    simp only [Except.bind] at h
    rcases hd1 with _ | hd
    · simp only [] at h
      by_cases hwp : wp1 = false
      · simp only [hwp, if_true] at h; cases h
      · simp only [hwp, if_false] at h
        cases h
        exact CellWritesNotified.append hcw True.intro
    · simp only [] at h
      cases h
      exact CellWritesNotified.append hcw ⟨rfl, True.intro⟩

/-- C18 (slot-update notification in the shared chain-rebuild routine): in a
well-formed registry and with enough fuel, `RemoveUnregisterToken` (with
`RemoveFromFinalizationGroupCells` as match action) returns, its notifications
are those the recording notifier receives, and every write it performs itself
that stores a cell reference (into a surviving cell's `key_list_prev` or
`key_list_next` or into the key map's value slot for the token's hash) is
immediately followed by a notification with the same object, field and
value. -/
theorem C18_chain_rebuild_notifications {s : Heap} {g : Nat} {act clr : List Nat}
    {chain : Nat → List Nat} (T fuel : Nat)
    (inv : Inv s g act clr chain) (hfuel : act.length + clr.length ≤ fuel) :
    ∃ b s2 tr, JSFinalizationGroup.RemoveUnregisterTokenTrace fuel s g T
        WeakCell.RemoveFromFinalizationGroupCells = .ok (b, s2, tr) ∧
      JSFinalizationGroup.RemoveUnregisterToken fuel s g T
        WeakCell.RemoveFromFinalizationGroupCells recordNotifier []
        = .ok (b, s2, tr.filter Event.isNotify) ∧
      CellWritesNotified tr := by
  obtain ⟨b, s2, n2, hres, _⟩ := RemoveUnregisterToken_spec T recordNotifier [] fuel inv hfuel
  have href := RemoveUnregisterTokenTrace_refines fuel s g T
    WeakCell.RemoveFromFinalizationGroupCells
  rw [hres] at href
  rcases ht : JSFinalizationGroup.RemoveUnregisterTokenTrace fuel s g T
    WeakCell.RemoveFromFinalizationGroupCells with e | r
  · rw [ht] at href; cases href
  · rw [ht] at href
    obtain ⟨b1, s1, tr1⟩ := r
    simp only [Except.map, Except.ok.injEq, Prod.mk.injEq] at href
    obtain ⟨rfl, rfl, rfl⟩ := href
    exact ⟨b, s2, tr1, rfl, hres, RemoveUnregisterTokenTrace_notified ht⟩

/-- C18, at the example heap whose chain under key 7 holds a matching and a
surviving cell. -/
theorem C18_chain_rebuild_notifications_witness :
    ∃ b s2 tr, JSFinalizationGroup.RemoveUnregisterTokenTrace 2 heap3 0 50
        WeakCell.RemoveFromFinalizationGroupCells = .ok (b, s2, tr) ∧
      JSFinalizationGroup.RemoveUnregisterToken 2 heap3 0 50
        WeakCell.RemoveFromFinalizationGroupCells recordNotifier []
        = .ok (b, s2, tr.filter Event.isNotify) ∧
      CellWritesNotified tr :=
  C18_chain_rebuild_notifications 50 2 heap3_inv (by decide)

open Heap

/-- The links after `Nullify` on an active cell of a well-formed registry. -/
theorem Nullify_links_of_inv {ν : Type} {s : Heap} {g : Nat} {act clr : List Nat}
    {chain : Nat → List Nat} (c : Nat)
    (f : ν → HeapObject → ObjectSlot → Option Nat → ν) (n : ν)
    (inv : Inv s g act clr chain) (hc : c ∈ act) :
    ∃ s2 n2, WeakCell.Nullify s c f n = .ok (s2, n2) ∧
      Inv s2 g (act.erase c) (c :: clr) chain ∧
      (∀ a, (s2.cells a).next =
        if a = c then (s.groups g).cleared_cells
        else if (s.cells c).prev = some a then (s.cells c).next else (s.cells a).next) ∧
      (∀ a, (s2.cells a).prev =
        if (s.groups g).cleared_cells = some a then some c
        else if a = c then none
        else if (s.cells c).next = some a then (s.cells c).prev else (s.cells a).prev) ∧
      (∀ a, (s2.cells a).target = if a = c then none else (s.cells a).target) ∧
      (∀ a, (s2.cells a).key_list_prev = (s.cells a).key_list_prev ∧
        (s2.cells a).key_list_next = (s.cells a).key_list_next ∧
        (s2.cells a).unregister_token = (s.cells a).unregister_token ∧
        (s2.cells a).holdings = (s.cells a).holdings ∧
        (s2.cells a).finalization_group = (s.cells a).finalization_group) ∧
      s2.hashes = s.hashes ∧ s2.next_cell = s.next_cell := by
  obtain ⟨s2, n2, hres, inv2, _⟩ := Nullify_spec c f n inv hc
  obtain ⟨s3, n3, hres3, hnext, hprev, htgt, hsame, _, _, _, _, hhash, hnc⟩ :=
    Nullify_fields s g c f n (inv.owner c (List.mem_append_left _ hc))
      (inv.target_active c hc) (IsDList.prev_none_iff inv.active hc)
  rw [hres] at hres3
  cases hres3
  exact ⟨s2, n2, hres, inv2, hnext, hprev, htgt, hsame, hhash, hnc⟩

/-- The links after `PopClearedCellHoldings` on a well-formed registry whose
cleared list starts with `c`. -/
theorem Pop_links_of_inv {s : Heap} {g : Nat} {act clr : List Nat}
    {chain : Nat → List Nat} {c : Nat} (inv : Inv s g act (c :: clr) chain) :
    ∃ s2, JSFinalizationGroup.PopClearedCellHoldings s g = .ok ((s.cells c).holdings, s2) ∧
      Inv s2 g act clr (fun k => (chain k).erase c) ∧
      (∀ a, (s2.cells a).next = if a = c then none else (s.cells a).next) ∧
      (∀ a, (s2.cells a).prev = if (s.cells c).next = some a then none else (s.cells a).prev) ∧
      (∀ a, (s2.cells a).key_list_next =
        if (s.cells c).unregister_token = none then (s.cells a).key_list_next
        else if (s.cells c).key_list_prev = some a then (s.cells c).key_list_next
        else if a = c ∧ (s.cells c).key_list_prev = none then none
        else (s.cells a).key_list_next) ∧
      (∀ a, (s2.cells a).key_list_prev =
        if (s.cells c).unregister_token = none then (s.cells a).key_list_prev
        else if (s.cells c).key_list_next = some a then (s.cells c).key_list_prev
        else (s.cells a).key_list_prev) ∧
      (∀ a, (s2.cells a).target = (s.cells a).target ∧
        (s2.cells a).holdings = (s.cells a).holdings ∧
        (s2.cells a).unregister_token = (s.cells a).unregister_token ∧
        (s2.cells a).finalization_group = (s.cells a).finalization_group) ∧
      s2.hashes = s.hashes ∧ s2.next_cell = s.next_cell := by
  obtain ⟨s2, hres, inv2, _⟩ := Pop_spec inv
  have hcC : c ∈ c :: clr := List.mem_cons_self _ _
  have hcL : c ∈ act ++ c :: clr := List.mem_append_right _ hcC
  have hk : ∀ t, (s.cells c).unregister_token = some t → (s.cells c).key_list_prev = none →
      ∃ d k, (s.groups g).key_map = some d ∧ s.hashes t = some k ∧
        ((s.cells c).key_list_next = none → d k ≠ none) ∧
        (∀ nx, (s.cells c).key_list_next = some nx → (s.cells nx).key_list_prev = some c) := by
    intro t ht hkp
    obtain ⟨k, hk⟩ := Option.ne_none_iff_exists'.1 (inv.hashed c hcL t ht)
    have hck : c ∈ chain k := (inv.chain_mem k c).2 ⟨hcL, t, ht, hk⟩
    have hhead : s.keyMapAt g k = some c := (IsDList.prev_none_iff (inv.chains k) hck).1 hkp
    unfold Heap.keyMapAt at hhead
    rcases hd : (s.groups g).key_map with _ | d
    · rw [hd] at hhead; cases hhead
    · rw [hd] at hhead
      have hhead2 : d k = some c := hhead
      exact ⟨d, k, rfl, hk, fun _ => by rw [hhead2]; exact Option.some_ne_none _,
        fun nx hnx => IsDList.prev_next (inv.chains k) hck hnx⟩
  obtain ⟨s3, hres3, hnext, hprev, hknext, hkprev, hsame, _, _, _, _, _, hhash, hnc⟩ :=
    Pop_fields s g c inv.cleared.1 inv.cleared.2.1
      (fun h hh => IsDList.prev_next inv.cleared hcC hh) hk
  rw [hres] at hres3
  cases hres3
  exact ⟨s2, hres, inv2, hnext, hprev, hknext, hkprev, hsame, hhash, hnc⟩

/-- The links of the popped cell after `PopClearedCellHoldings`: `prev` and
`next` are undefined, `key_list_prev` is what it was, and the `key_list_next`
of a cell with a token is cleared only when the cell was the head of its
chain. -/
theorem Pop_popped_cell_links {s : Heap} {g : Nat} {act clr : List Nat}
    {chain : Nat → List Nat} {c : Nat} (inv : Inv s g act (c :: clr) chain) :
    ∃ s2, JSFinalizationGroup.PopClearedCellHoldings s g = .ok ((s.cells c).holdings, s2) ∧
      (s2.cells c).prev = none ∧ (s2.cells c).next = none ∧
      (s2.cells c).key_list_prev = (s.cells c).key_list_prev ∧
      ((s.cells c).unregister_token ≠ none → (s2.cells c).key_list_next =
        if (s.cells c).key_list_prev = none then none else (s.cells c).key_list_next) := by
  obtain ⟨s2, hres, _, hnext, hprev, hknext, hkprev, _⟩ := Pop_links_of_inv inv
  have hnc : (s.cells c).next ≠ some c := by
    intro e
    have h3 : IsDList _ _ (some c) ((s.cells c).next) clr := inv.cleared.2.2
    exact (List.nodup_cons.1 inv.nodup_cleared).1 (IsDList.head_mem h3 e)
  refine ⟨s2, hres, ?_, ?_, ?_, ?_⟩
  · rw [hprev, if_neg hnc]; exact inv.cleared.2.1
  · rw [hnext, if_pos rfl]
  · rw [hkprev]
    split
    · rfl
    · split <;> rfl
  · intro ht
    rw [hknext, if_neg ht]
    by_cases hkp : (s.cells c).key_list_prev = none
    · rw [if_pos hkp, hkp, if_neg (by simp), if_pos ⟨rfl, rfl⟩]
    · rw [if_neg hkp]
      split
      · rfl
      · rw [if_neg (fun e => hkp e.2)]

theorem heap7_reachable : Reachable 0 heap7 :=
  Reachable.nullify 1 noNotify () () [2, 1, 0]
    (Reachable.register 102 202 (some 50) 9
      (Reachable.register 101 201 (some 51) 7
        (Reachable.register 100 200 (some 50) 7 (Reachable.init heap0 rfl rfl rfl) heap1_ok)
        heap2_ok)
      (rfl : JSFinalizationGroup.Register heap2 0 102 202 (some 50) 9 = .ok heap6))
    (⟨rfl, rfl, rfl, rfl, rfl, rfl, rfl⟩ : heap6.ActiveList 0 [2, 1, 0]) (by decide)
    (rfl : WeakCell.Nullify heap6 1 noNotify () = .ok (heap7, ()))

/-- C17 fails on the code, at two reachable (hence well-formed) heaps. In
`heap3` the cleared cell 0 is the tail of the chain 1, 0:
PopClearedCellHoldings returns its holdings 200 and clears its `prev` and
`next`, but its `key_list_prev` still names cell 1. In `heap7` the cleared
cell 1 is the middle of the chain 2, 1, 0: after the pop its `key_list_prev`
still names cell 2 and its `key_list_next` still names cell 0. -/
theorem C17_popped_cell_keeps_key_links :
    (Reachable 0 heap3 ∧
      ∃ s2, JSFinalizationGroup.PopClearedCellHoldings heap3 0 = .ok (200, s2) ∧
        (s2.cells 0).prev = none ∧ (s2.cells 0).next = none ∧
        (s2.cells 0).key_list_next = none ∧ (s2.cells 0).key_list_prev = some 1) ∧
    (Reachable 0 heap7 ∧
      ∃ s2, JSFinalizationGroup.PopClearedCellHoldings heap7 0 = .ok (201, s2) ∧
        (s2.cells 1).prev = none ∧ (s2.cells 1).next = none ∧
        (s2.cells 1).key_list_prev = some 2 ∧ (s2.cells 1).key_list_next = some 0) :=
  ⟨⟨heap3_reachable,
      (okOr (0, heap3) (JSFinalizationGroup.PopClearedCellHoldings heap3 0)).2,
      rfl, rfl, rfl, rfl, rfl⟩,
    ⟨heap7_reachable,
      (okOr (0, heap7) (JSFinalizationGroup.PopClearedCellHoldings heap7 0)).2,
      rfl, rfl, rfl, rfl, rfl⟩⟩

open Heap

theorem WeakCell.eq_of_cell_fields {x y : WeakCell}
    (h1 : x.finalization_group = y.finalization_group) (h2 : x.target = y.target)
    (h3 : x.holdings = y.holdings) (h4 : x.prev = y.prev) (h5 : x.next = y.next)
    (h6 : x.unregister_token = y.unregister_token) (h7 : x.key_list_prev = y.key_list_prev)
    (h8 : x.key_list_next = y.key_list_next) : x = y := by
  cases x; cases y
  simp only [WeakCell.mk.injEq]
  exact ⟨h1, h2, h3, h4, h5, h6, h7, h8⟩

/-- C20 (Register, clear, pop round trip): in a well-formed registry, Register
(with or without token), then Nullify on the new cell, then
PopClearedCellHoldings all return, the pop returns the registered holdings,
and the registry's structure is restored: same active list, same cleared
list, same chain and same key-map value under every key, same list heads, and
every cell other than the new one has all its fields, links included, as
before Register. -/
theorem C20_register_clear_pop_round_trip {ν : Type} {s : Heap} {g : Nat}
    {act clr : List Nat} {chain : Nat → List Nat} (target holdings : Nat) (tok : Option Nat)
    (fresh : Nat) (f : ν → HeapObject → ObjectSlot → Option Nat → ν) (n : ν)
    (inv : Inv s g act clr chain) :
    ∃ s1 s2 n2 s3, JSFinalizationGroup.Register s g target holdings tok fresh = .ok s1 ∧
      WeakCell.Nullify s1 s.next_cell f n = .ok (s2, n2) ∧
      JSFinalizationGroup.PopClearedCellHoldings s2 g = .ok (holdings, s3) ∧
      s3.ActiveList g act ∧ s3.ClearedList g clr ∧ (∀ k, s3.Chain g k (chain k)) ∧
      (s3.groups g).active_cells = (s.groups g).active_cells ∧
      (s3.groups g).cleared_cells = (s.groups g).cleared_cells ∧
      (∀ k, s3.keyMapAt g k = s.keyMapAt g k) ∧
      (∀ a, a ≠ s.next_cell → s3.cells a = s.cells a) := by
  obtain ⟨s1, hres1, inv1⟩ := Register_spec target holdings tok fresh inv
  obtain ⟨s1b, hres1b, hn1, hp1, hkn1, hkp1, hold1, hnew1, _, hclr1, _, _, _, _, _⟩ :=
    Register_fields s g target holdings tok fresh
  rw [hres1] at hres1b
  cases hres1b
  obtain ⟨s2, n2, hres2, inv2, hn2, hp2, ht2, hsame2, _, _⟩ :=
    Nullify_links_of_inv s.next_cell f n inv1 (List.mem_cons_self _ _)
  rw [List.erase_cons_head] at inv2
  obtain ⟨s3, hres3, inv3, hn3, hp3, hkn3, hkp3, hsame3, _, _⟩ := Pop_links_of_inv inv2
  -- facts about the new cell
  have hw : ∀ x ∈ act ++ clr, x ≠ s.next_cell := fun x hx e =>
    absurd (inv.bound x hx) (by rw [e]; exact lt_irrefl _)
  have hwk : ∀ k, s.next_cell ∉ chain k := fun k e => hw _ (inv.chain_sub e) rfl
  have hhA : ∀ b, (s.groups g).active_cells = some b → b ∈ act := fun b hb =>
    IsDList.head_mem inv.active hb
  have hpw1 : (s1.cells s.next_cell).prev = none := by
    rw [hp1, if_neg (fun e => hw _ (List.mem_append_left _ (hhA _ e)) rfl), if_pos rfl]
  have hnw1 : (s1.cells s.next_cell).next = (s.groups g).active_cells := by
    rw [hn1, if_pos rfl]
  have hex : ∀ b, (registerKey s tok fresh).bind (s.keyMapAt g) = some b →
      ∃ k, b ∈ chain k ∧ s.keyMapAt g k = some b := by
    intro b hb
    rcases hk : registerKey s tok fresh with _ | k
    · rw [hk] at hb; cases hb
    · rw [hk] at hb
      exact ⟨k, IsDList.head_mem (inv.chains k) hb, hb⟩
  have hkpw1 : (s1.cells s.next_cell).key_list_prev = none := by
    rw [hkp1, if_neg, if_pos rfl]
    intro e
    obtain ⟨k, hk, _⟩ := hex _ e
    exact hwk k hk
  have hknw1 : (s1.cells s.next_cell).key_list_next =
      (registerKey s tok fresh).bind (s.keyMapAt g) := by
    rw [hkn1, if_pos rfl]
  -- the chains are those before Register
  have hchain : (fun k => (if registerKey s tok fresh = some k then s.next_cell :: chain k
      else chain k).erase s.next_cell) = chain := by
    funext k
    by_cases hk : registerKey s tok fresh = some k
    · simp only [if_pos hk, List.erase_cons_head]
    · simp only [if_neg hk]
      exact List.erase_of_not_mem (hwk k)
  rw [hchain] at inv3
  refine ⟨s1, s2, n2, s3, hres1, hres2, ?_, inv3.active, inv3.cleared, inv3.chains, ?_, ?_, ?_,
    ?_⟩
  · rw [hres3, (hsame2 _).2.2.2.1, hnew1.2.1]
  · rw [IsDList.head_eq inv3.active, IsDList.head_eq inv.active]
  · rw [IsDList.head_eq inv3.cleared, IsDList.head_eq inv.cleared]
  · intro k
    rw [Heap.Chain.keyMapAt_eq_head (inv3.chains k), Heap.Chain.keyMapAt_eq_head (inv.chains k)]
  · intro a ha
    have hold := hold1 a ha
    apply WeakCell.eq_of_cell_fields
    · rw [(hsame3 a).2.2.2, (hsame2 a).2.2.2.2, hold.2.2.2]
    · rw [(hsame3 a).1, ht2 a, if_neg ha, hold.1]
    · rw [(hsame3 a).2.1, (hsame2 a).2.2.2.1, hold.2.1]
    · -- prev
      rw [hp3 a, hn2 s.next_cell, if_pos rfl, hclr1]
      by_cases hc : (s.groups g).cleared_cells = some a
      · rw [if_pos hc]
        exact (IsDList.prev_head inv.cleared hc).symm
      · rw [if_neg hc, hp2 a, hclr1, if_neg hc, if_neg ha, hnw1, hpw1]
        by_cases hac : (s.groups g).active_cells = some a
        · rw [if_pos hac]
          exact (IsDList.prev_head inv.active hac).symm
        · rw [if_neg hac, hp1 a, if_neg hac, if_neg ha]
    · -- next
      rw [hn3 a, if_neg ha, hn2 a, if_neg ha, hpw1, if_neg (by simp), hn1 a, if_neg ha]
    · rw [(hsame3 a).2.2.1, (hsame2 a).2.2.1, hold.2.2.1]
    · -- key_list_prev
      rw [hkp3 a, (hsame2 s.next_cell).2.2.1, (hsame2 s.next_cell).2.1, (hsame2 s.next_cell).1,
        (hsame2 a).1, hknw1, hkpw1]
      by_cases hcase : (registerKey s tok fresh).bind (s.keyMapAt g) = some a
      · obtain ⟨k, hk, hhead⟩ := hex a hcase
        have hpa : (s.cells a).key_list_prev = none := IsDList.prev_head (inv.chains k) hhead
        rw [hkp1 a, if_pos hcase, hpa]
        split
        · -- without a token there is no chain head
          rename_i htok
          rw [hnew1.2.2.1] at htok
          rw [htok] at hcase
          cases hcase
        · rfl
      · rw [hkp1 a, if_neg hcase, if_neg ha]
        split
        · rfl
        · rfl
    · -- key_list_next
      rw [hkn3 a, (hsame2 s.next_cell).2.2.1, (hsame2 s.next_cell).2.1, (hsame2 s.next_cell).1,
        (hsame2 a).2.1, hkpw1, hkn1 a, if_neg ha]
      split
      · rfl
      · rw [if_neg (by simp), if_neg (fun e => ha e.1)]

theorem C20_register_clear_pop_round_trip_witness :
    Inv heap2 0 [1, 0] [] (fun k => if k = 7 then [1, 0] else []) ∧
    ∃ s1 s2 n2 s3, JSFinalizationGroup.Register heap2 0 102 202 (some 50) 9 = .ok s1 ∧
      WeakCell.Nullify s1 heap2.next_cell noNotify () = .ok (s2, n2) ∧
      JSFinalizationGroup.PopClearedCellHoldings s2 0 = .ok (202, s3) ∧
      s3.ActiveList 0 [1, 0] ∧ s3.ClearedList 0 [] ∧
      (∀ k, s3.Chain 0 k ((fun k => if k = 7 then [1, 0] else []) k)) ∧
      (s3.groups 0).active_cells = (heap2.groups 0).active_cells ∧
      (s3.groups 0).cleared_cells = (heap2.groups 0).cleared_cells ∧
      (∀ k, s3.keyMapAt 0 k = heap2.keyMapAt 0 k) ∧
      (∀ a, a ≠ heap2.next_cell → s3.cells a = heap2.cells a) :=
  ⟨heap2_inv, C20_register_clear_pop_round_trip 102 202 (some 50) 9 noNotify () heap2_inv⟩

open Heap

/-- Along every history of a registry, the registry is well formed and a cell
created since the start has a target exactly when it is in the active list. -/
theorem History.tracked {g : Nat} {s0 s : Heap} (h : History g s0 s) :
    ∃ act clr chain, Inv s g act clr chain ∧ s0.next_cell ≤ s.next_cell ∧
      ∀ a, s0.next_cell ≤ a → a < s.next_cell → ((s.cells a).target ≠ none ↔ a ∈ act) := by
  induction h with
  | init ha hc hk =>
    exact ⟨[], [], _, Inv.empty ha hc hk, le_refl _, fun a h1 h2 =>
      absurd (lt_of_le_of_lt h1 h2) (lt_irrefl _)⟩
  | @register s1 s2 target holdings tok fresh _ hres ih =>
    obtain ⟨act, clr, chain, inv, hle, htr⟩ := ih
    obtain ⟨s3, hres3, inv3, hnew, _, _, _, hold, _, hnc⟩ :=
      Register_spec_fields target holdings tok fresh inv
    rw [hres3] at hres
    cases hres
    refine ⟨_, _, _, inv3, by rw [hnc]; exact Nat.le_succ_of_le hle, ?_⟩
    intro a h1 h2
    rw [hnc] at h2
    by_cases ha : a = s1.next_cell
    · subst ha
      rw [hnew]
      simp
    · rw [(hold a ha).1, htr a h1 (lt_of_le_of_ne (Nat.lt_succ_iff.1 h2) ha)]
      simp [ha]
  | @unregister s1 s2 fuel token b _ hres ih =>
    obtain ⟨act, clr, chain, inv, hle, htr⟩ := ih
    obtain ⟨b3, s3, hres3, inv3, _, _, htgt, _, _, _, hnc⟩ :=
      Unregister_spec token (fuel + (act.length + clr.length)) inv (Nat.le_add_left _ _)
    rw [Unregister_mono (act.length + clr.length) hres] at hres3
    cases hres3
    refine ⟨_, _, _, inv3, by rw [hnc]; exact hle, ?_⟩
    intro a h1 h2
    rw [hnc] at h2
    rw [htgt a, List.mem_filter]
    by_cases hc : a ∈ act ++ clr ∧ (s1.cells a).unregister_token = some token
    · rw [if_pos hc]
      simp [hc.2]
    · rw [if_neg hc, htr a h1 h2]
      constructor
      · intro ha
        exact ⟨ha, by simpa using fun e => hc ⟨List.mem_append_left _ ha, e⟩⟩
      · exact fun ha => ha.1
  | nullify c f n n2 _ hc1 hc2 hct hres ih =>
    obtain ⟨act, clr, chain, inv, hle, htr⟩ := ih
    have hc : c ∈ act := (htr c hc1 hc2).1 hct
    obtain ⟨s3, n3, hres3, inv3, _, _, htgt, _, _, hnc⟩ := Nullify_links_of_inv c f n inv hc
    rw [hres3] at hres
    cases hres
    refine ⟨_, _, _, inv3, by rw [hnc]; exact hle, ?_⟩
    intro a h1 h2
    rw [hnc] at h2
    rw [htgt a, inv.nodup_active.mem_erase_iff]
    by_cases ha : a = c
    · simp [ha]
    · rw [if_neg ha, htr a h1 h2]
      simp [ha]
  | pop holdings _ hres ih =>
    obtain ⟨act, clr, chain, inv, hle, htr⟩ := ih
    cases clr with
    | nil =>
      have hcl : (_ : Option Nat) = none := inv.cleared
      unfold JSFinalizationGroup.PopClearedCellHoldings at hres
      rw [hcl] at hres
      cases hres
    | cons c clr =>
      obtain ⟨s3, hres3, inv3, _, _, _, _, hsame, _, hnc⟩ := Pop_links_of_inv inv
      rw [hres3] at hres
      cases hres
      refine ⟨_, _, _, inv3, by rw [hnc]; exact hle, ?_⟩
      intro a h1 h2
      rw [hnc] at h2
      rw [(hsame a).1]
      exact htr a h1 h2

/-- C16 (target tracks active-list membership): in every heap reached from a
heap with an empty registry by Register, Unregister, Nullify of a created
cell whose target is not undefined, and PopClearedCellHoldings that returns,
every cell created by Register since the start (the addresses the allocator
handed out since then) has a target that is not undefined exactly when it is
in the active list; hence a created cell whose target is not undefined is
active and not cleared, and Nullify on it returns. -/
theorem C16_target_tracks_active_list {g : Nat} {s0 s : Heap} (h : History g s0 s) :
    ∃ act clr, s.ActiveList g act ∧ s.ClearedList g clr ∧
      (∀ a, s0.next_cell ≤ a → a < s.next_cell →
        ((s.cells a).target ≠ none ↔ a ∈ act)) ∧
      (∀ a, s0.next_cell ≤ a → a < s.next_cell → (s.cells a).target ≠ none →
        a ∈ act ∧ a ∉ clr ∧
        ∀ {ν : Type} (f : ν → HeapObject → ObjectSlot → Option Nat → ν) (n : ν),
          ∃ s2 n2, WeakCell.Nullify s a f n = .ok (s2, n2)) := by
  obtain ⟨act, clr, chain, inv, _, htr⟩ := History.tracked h
  refine ⟨act, clr, inv.active, inv.cleared, htr, ?_⟩
  intro a h1 h2 ht
  have ha : a ∈ act := (htr a h1 h2).1 ht
  refine ⟨ha, fun hc => ht (inv.target_cleared a hc), ?_⟩
  intro ν f n
  obtain ⟨s2, n2, hres, _⟩ := Nullify_spec a f n inv ha
  exact ⟨s2, n2, hres⟩

theorem heap3_history : History 0 heap0 heap3 :=
  History.nullify 0 noNotify () ()
    (History.register 101 201 (some 51) 7
      (History.register 100 200 (some 50) 7 (History.init rfl rfl rfl) heap1_ok)
      heap2_ok)
    (Nat.le_refl 0) (by decide) (by decide) heap3_ok

theorem C16_target_tracks_active_list_witness :
    History 0 heap0 heap3 ∧
    ∃ act clr, heap3.ActiveList 0 act ∧ heap3.ClearedList 0 clr ∧
      (∀ a, heap0.next_cell ≤ a → a < heap3.next_cell →
        ((heap3.cells a).target ≠ none ↔ a ∈ act)) ∧
      (∀ a, heap0.next_cell ≤ a → a < heap3.next_cell → (heap3.cells a).target ≠ none →
        a ∈ act ∧ a ∉ clr ∧
        ∀ {ν : Type} (f : ν → HeapObject → ObjectSlot → Option Nat → ν) (n : ν),
          ∃ s2 n2, WeakCell.Nullify heap3 a f n = .ok (s2, n2)) :=
  ⟨heap3_history, C16_target_tracks_active_list heap3_history⟩

open Heap

/-- More fuel does not change a fault of the loop other than the lack of fuel. -/
theorem RemoveUnregisterToken_loop_fault_mono {ν : Type} (T : Nat)
    (mc : Heap → Nat → Except Fault Heap)
    (f : ν → HeapObject → ObjectSlot → Option Nat → ν) (k : Nat) (e : Fault)
    (he : e ≠ Fault.fuel) :
    ∀ (fuel : Nat) (s : Heap) (value : Option Nat) (wp : Bool) (head prev : Option Nat) (n : ν),
      JSFinalizationGroup.RemoveUnregisterToken.loop T mc f fuel s value wp head prev n
        = .error e →
      JSFinalizationGroup.RemoveUnregisterToken.loop T mc f (fuel + k) s value wp head prev n
        = .error e := by
  intro fuel
  induction fuel with
  | zero =>
    intro s value wp head prev n h
    cases value with
    | none =>
      rw [JSFinalizationGroup.RemoveUnregisterToken.loop] at h ⊢
      exact h
    | some w =>
      rw [JSFinalizationGroup.RemoveUnregisterToken.loop] at h
      cases h
      exact absurd rfl he
  | succ fuel ih =>
    intro s value wp head prev n h
    cases value with
    | none =>
      rw [JSFinalizationGroup.RemoveUnregisterToken.loop] at h ⊢
      exact h
    | some w =>
      rw [Nat.add_right_comm]
      rw [JSFinalizationGroup.RemoveUnregisterToken.loop] at h ⊢
      by_cases ht : (s.cells w).unregister_token = some T
      · simp only [ht, if_true] at h ⊢
        rcases hm : mc s w with e2 | s1
        · rw [hm] at h
          exact h
        · rw [hm] at h
          simp only [Except.bind] at h ⊢
          exact ih _ _ _ _ _ _ h
      · simp only [ht, if_false] at h ⊢
        rcases prev with _ | p
        · simp only [] at h ⊢
          exact ih _ _ _ _ _ _ h
        · simp only [] at h ⊢
          by_cases hh : head = none
          · simp only [hh, if_true] at h ⊢
            exact h
          · simp only [hh, if_false] at h ⊢
            exact ih _ _ _ _ _ _ h

/-- More fuel does not change a fault of `Unregister` other than the lack of
fuel. -/
theorem Unregister_fault_mono {fuel : Nat} {s : Heap} {g T : Nat} {e : Fault} (k : Nat)
    (h : JSFinalizationGroup.Unregister fuel s g T = .error e) (he : e ≠ Fault.fuel) :
    JSFinalizationGroup.Unregister (fuel + k) s g T = .error e := by
  unfold JSFinalizationGroup.Unregister JSFinalizationGroup.RemoveUnregisterToken at h ⊢
  rcases hkm : (s.groups g).key_map with _ | d
  · rw [hkm] at h; simp only [] at h ⊢; exact h
  rw [hkm] at h; simp only [] at h ⊢
  rcases hh : s.GetHash T with _ | key
  · rw [hh] at h; simp only [] at h ⊢; exact h
  rw [hh] at h; simp only [] at h ⊢
  rcases hen : d.FindEntry key with _ | entry
  · rw [hen] at h; simp only [] at h ⊢; exact h
  rw [hen] at h; simp only [] at h ⊢
  rcases hl : JSFinalizationGroup.RemoveUnregisterToken.loop T
      WeakCell.RemoveFromFinalizationGroupCells
      (fun (_ : Unit) (_ : HeapObject) (_ : ObjectSlot) (_ : Option Nat) => ())
      fuel s (d.ValueAt entry) false none none () with e2 | res
  · rw [hl] at h
    have : e2 = e := by
      simp only [Except.bind, Except.map] at h
      cases h
      rfl
    subst this
    rw [RemoveUnregisterToken_loop_fault_mono T _ _ k e2 he _ _ _ _ _ _ _ hl]
    rfl
  · rw [RemoveUnregisterToken_loop_mono T _ _ k _ _ _ _ _ _ _ _ hl]
    rw [hl] at h
    exact h

/-- C15 (assertion validity): in a well-formed registry, Register returns for
all arguments; Unregister returns with enough fuel for the chain walk, and
with any fuel its only possible fault is the lack of fuel, never an assertion
or a cast; Nullify returns on every listed cell whose target is not
undefined; PopClearedCellHoldings returns when the cleared list is not empty.
The asserted facts hold in the state: the cleared head has no prev and its
successor's prev is the head; a cleared head with a token that heads its
chain has its key-map entry found and its chain successor's key_list_prev is
the head; an active cell is the active head exactly when its prev is
undefined; a listed cell that is neither list head has a cell as prev; and a
non-empty chain that the removal of a token empties contains a cell with that
token. -/
theorem C15_assertion_validity {s : Heap} {g : Nat} {act clr : List Nat}
    {chain : Nat → List Nat} (inv : Inv s g act clr chain) :
    (∀ target holdings tok fresh,
      ∃ s2, JSFinalizationGroup.Register s g target holdings tok fresh = .ok s2) ∧
    (∀ T fuel, act.length + clr.length ≤ fuel →
      ∃ b s2, JSFinalizationGroup.Unregister fuel s g T = .ok (b, s2)) ∧
    (∀ T fuel e, JSFinalizationGroup.Unregister fuel s g T = .error e → e = Fault.fuel) ∧
    (∀ c ∈ act ++ clr, (s.cells c).target ≠ none →
      ∀ {ν : Type} (f : ν → HeapObject → ObjectSlot → Option Nat → ν) (n : ν),
        ∃ s2 n2, WeakCell.Nullify s c f n = .ok (s2, n2)) ∧
    (clr ≠ [] → ∃ h s2, JSFinalizationGroup.PopClearedCellHoldings s g = .ok (h, s2)) ∧
    (∀ c, (s.groups g).cleared_cells = some c →
      (s.cells c).prev = none ∧
      ∀ nx, (s.cells c).next = some nx → (s.cells nx).prev = some c) ∧
    (∀ c t, (s.groups g).cleared_cells = some c → (s.cells c).unregister_token = some t →
      (s.cells c).key_list_prev = none →
      ∃ d k, (s.groups g).key_map = some d ∧ s.GetHash t = some k ∧
        d.FindEntry k ≠ none ∧
        ∀ nx, (s.cells c).key_list_next = some nx → (s.cells nx).key_list_prev = some c) ∧
    (∀ c ∈ act, ((s.groups g).active_cells = some c ↔ (s.cells c).prev = none)) ∧
    (∀ c ∈ act ++ clr, (s.groups g).active_cells ≠ some c →
      (s.groups g).cleared_cells ≠ some c → ∃ p, (s.cells c).prev = some p) ∧
    (∀ T k, s.GetHash T = some k → chain k ≠ [] →
      (chain k).filter (fun c => decide ((s.cells c).unregister_token ≠ some T)) = [] →
      ∃ c ∈ chain k, (s.cells c).unregister_token = some T) := by
  have hU : ∀ T fuel, act.length + clr.length ≤ fuel →
      ∃ b s2, JSFinalizationGroup.Unregister fuel s g T = .ok (b, s2) := by
    intro T fuel hfuel
    obtain ⟨b, s2, hres, _⟩ := Unregister_spec T fuel inv hfuel
    exact ⟨b, s2, hres⟩
  refine ⟨?_, hU, ?_, ?_, ?_, ?_, ?_, ?_, ?_, ?_⟩
  · intro target holdings tok fresh
    obtain ⟨s2, hres, _⟩ := Register_spec target holdings tok fresh inv
    exact ⟨s2, hres⟩
  · intro T fuel e h
    by_contra hne
    obtain ⟨b, s2, hres⟩ := hU T (fuel + (act.length + clr.length)) (Nat.le_add_left _ _)
    rw [Unregister_fault_mono (act.length + clr.length) h hne] at hres
    cases hres
  · intro c hc ht ν f n
    rcases List.mem_append.1 hc with ha | hcl
    · obtain ⟨s2, n2, hres, _⟩ := Nullify_spec c f n inv ha
      exact ⟨s2, n2, hres⟩
    · exact absurd (inv.target_cleared c hcl) ht
  · intro hne
    cases clr with
    | nil => exact absurd rfl hne
    | cons c clr =>
      obtain ⟨s2, hres, _⟩ := Pop_spec inv
      exact ⟨_, s2, hres⟩
  · intro c hc
    have hmem : c ∈ clr := IsDList.head_mem inv.cleared hc
    exact ⟨IsDList.prev_head inv.cleared hc, fun nx hnx => IsDList.prev_next inv.cleared hmem hnx⟩
  · intro c t hc ht hkp
    have hmem : c ∈ act ++ clr := List.mem_append_right _ (IsDList.head_mem inv.cleared hc)
    obtain ⟨k, hk⟩ := Option.ne_none_iff_exists'.1 (inv.hashed c hmem t ht)
    have hck : c ∈ chain k := (inv.chain_mem k c).2 ⟨hmem, t, ht, hk⟩
    have hhead : s.keyMapAt g k = some c := (IsDList.prev_none_iff (inv.chains k) hck).1 hkp
    unfold Heap.keyMapAt at hhead
    rcases hd : (s.groups g).key_map with _ | d
    · rw [hd] at hhead; cases hhead
    · rw [hd] at hhead
      have hhead2 : d k = some c := hhead
      refine ⟨d, k, rfl, hk, ?_, fun nx hnx => IsDList.prev_next (inv.chains k) hck hnx⟩
      unfold SimpleNumberDictionary.FindEntry
      simp [hhead2]
  · intro c hc
    exact (IsDList.prev_none_iff inv.active hc).symm
  · intro c hc h1 h2
    rcases List.mem_append.1 hc with ha | hcl
    · obtain ⟨b, _, hb⟩ := IsDList.prev_of_ne_head inv.active ha h1
      exact ⟨b, hb⟩
    · obtain ⟨b, _, hb⟩ := IsDList.prev_of_ne_head inv.cleared hcl h2
      exact ⟨b, hb⟩
  · intro T k _ hne hf
    obtain ⟨c, hc⟩ := List.exists_mem_of_ne_nil _ hne
    refine ⟨c, hc, ?_⟩
    have := List.filter_eq_nil_iff.1 hf c hc
    simpa using this

theorem C15_assertion_validity_witness :
    Inv heap3 0 [1] [0] (fun k => if k = 7 then [1, 0] else []) ∧
    ((∀ target holdings tok fresh,
      ∃ s2, JSFinalizationGroup.Register heap3 0 target holdings tok fresh = .ok s2) ∧
    (∀ T fuel, [1].length + [0].length ≤ fuel →
      ∃ b s2, JSFinalizationGroup.Unregister fuel heap3 0 T = .ok (b, s2)) ∧
    (∀ T fuel e, JSFinalizationGroup.Unregister fuel heap3 0 T = .error e → e = Fault.fuel) ∧
    (∀ c ∈ [1] ++ [0], (heap3.cells c).target ≠ none →
      ∀ {ν : Type} (f : ν → HeapObject → ObjectSlot → Option Nat → ν) (n : ν),
        ∃ s2 n2, WeakCell.Nullify heap3 c f n = .ok (s2, n2)) ∧
    (([0] : List Nat) ≠ [] →
      ∃ h s2, JSFinalizationGroup.PopClearedCellHoldings heap3 0 = .ok (h, s2)) ∧
    (∀ c, (heap3.groups 0).cleared_cells = some c →
      (heap3.cells c).prev = none ∧
      ∀ nx, (heap3.cells c).next = some nx → (heap3.cells nx).prev = some c) ∧
    (∀ c t, (heap3.groups 0).cleared_cells = some c →
      (heap3.cells c).unregister_token = some t → (heap3.cells c).key_list_prev = none →
      ∃ d k, (heap3.groups 0).key_map = some d ∧ heap3.GetHash t = some k ∧
        d.FindEntry k ≠ none ∧
        ∀ nx, (heap3.cells c).key_list_next = some nx →
          (heap3.cells nx).key_list_prev = some c) ∧
    (∀ c ∈ [1], ((heap3.groups 0).active_cells = some c ↔ (heap3.cells c).prev = none)) ∧
    (∀ c ∈ [1] ++ [0], (heap3.groups 0).active_cells ≠ some c →
      (heap3.groups 0).cleared_cells ≠ some c → ∃ p, (heap3.cells c).prev = some p) ∧
    (∀ T k, heap3.GetHash T = some k → (fun k => if k = 7 then [1, 0] else []) k ≠ [] →
      ((fun k => if k = 7 then [1, 0] else []) k).filter
        (fun c => decide ((heap3.cells c).unregister_token ≠ some T)) = [] →
      ∃ c ∈ (fun k => if k = 7 then [1, 0] else []) k,
        (heap3.cells c).unregister_token = some T)) :=
  ⟨heap3_inv, C15_assertion_validity heap3_inv⟩

open Heap

variable {nxt prv nxt2 prv2 : Nat → Option Nat}

/-- Two link structures that thread the same list agree on its cells. -/
theorem IsDList.links_eq {p h h2 : Option Nat} {l : List Nat}
    (hl : IsDList nxt prv p h l) (hl2 : IsDList nxt2 prv2 p h2 l) :
    ∀ a ∈ l, nxt2 a = nxt a ∧ prv2 a = prv a := by
  induction l generalizing p h h2 with
  | nil => intro a ha; cases ha
  | cons b l ih =>
    obtain ⟨_, hp, ht⟩ := hl
    obtain ⟨_, hp2, ht2⟩ := hl2
    intro a ha
    rcases List.mem_cons.1 ha with rfl | ha2
    · exact ⟨by rw [IsDList.head_eq ht, IsDList.head_eq ht2], by rw [hp, hp2]⟩
    · have e : nxt2 b = nxt b := by rw [IsDList.head_eq ht, IsDList.head_eq ht2]
      rw [e] at ht2
      exact ih ht ht2 a ha2

theorem JSFinalizationGroup.eq_of_group_fields {x y : JSFinalizationGroup}
    (h1 : x.active_cells = y.active_cells) (h2 : x.cleared_cells = y.cleared_cells)
    (h3 : x.key_map = y.key_map) : x = y := by
  cases x; cases y
  simp only [JSFinalizationGroup.mk.injEq]
  exact ⟨h1, h2, h3⟩

theorem Heap.eq_of_heap_fields {x y : Heap} (h1 : ∀ a, x.cells a = y.cells a)
    (h2 : ∀ g, x.groups g = y.groups g) (h3 : x.hashes = y.hashes)
    (h4 : x.next_cell = y.next_cell) : x = y := by
  cases x; cases y
  simp only [Heap.mk.injEq]
  exact ⟨funext h1, funext h2, h3, h4⟩

/-- What `Unregister` leaves alone when it returns false on a well-formed
registry: the key links of the cells outside the walked chain, and the key
map. -/
theorem Unregister_false_frame {s : Heap} {g : Nat} {act clr : List Nat}
    {chain : Nat → List Nat} (T : Nat) (fuel : Nat) {s2 : Heap}
    (inv : Inv s g act clr chain) (hfuel : act.length + clr.length ≤ fuel)
    (h : JSFinalizationGroup.Unregister fuel s g T = .ok (false, s2)) :
    (∀ a, (∀ k, a ∉ chain k) →
      (s2.cells a).key_list_prev = (s.cells a).key_list_prev ∧
      (s2.cells a).key_list_next = (s.cells a).key_list_next) ∧
    (s2.groups g).key_map = (s.groups g).key_map := by
  unfold JSFinalizationGroup.Unregister JSFinalizationGroup.RemoveUnregisterToken
    Heap.GetHash at h
  rcases hkm : (s.groups g).key_map with _ | d
  · rw [hkm] at h
    simp only [Except.map] at h
    cases h
    exact ⟨fun _ _ => ⟨rfl, rfl⟩, hkm⟩
  rw [hkm] at h
  rcases hh : s.hashes T with _ | k
  · rw [hh] at h
    simp only [Except.map] at h
    cases h
    exact ⟨fun _ _ => ⟨rfl, rfl⟩, hkm⟩
  rw [hh] at h
  have hkat : s.keyMapAt g k = d k := by unfold Heap.keyMapAt; rw [hkm]
  rcases hdk : d k with _ | v
  · simp only [SimpleNumberDictionary.FindEntry, hdk, Option.isSome_none, Bool.false_eq_true,
      if_false, Except.map] at h
    cases h
    exact ⟨fun _ _ => ⟨rfl, rfl⟩, hkm⟩
  simp only [SimpleNumberDictionary.FindEntry, hdk, Option.isSome_some, if_true,
    SimpleNumberDictionary.ValueAt] at h
  have hchk : IsDList (fun a => (s.cells a).key_list_next) (fun a => (s.cells a).key_list_prev)
      none (some v) (chain k) := by
    have := inv.chains k
    unfold Heap.Chain Heap.KeyList at this
    rw [hkat, hdk] at this; exact this
  have hall : ∀ c ∈ act ++ clr, (s.cells c).unregister_token = some T → c ∈ chain k := by
    intro c hc hct
    exact (inv.chain_mem k c).2 ⟨hc, T, hct, hh⟩
  obtain ⟨s3, wp2, head2, n2, hres, _, _, hK, hwp, _, _, hkl, _, hkm2, _, _, _⟩ :=
    RemoveUnregisterToken_loop_spec T g
      (fun (_ : Unit) (_ : HeapObject) (_ : ObjectSlot) (_ : Option Nat) => ())
      (fun a => (s.cells a).unregister_token)
      (chain k) fuel s (some v) false none none () act clr []
      (le_trans (inv.chain_length k) hfuel) (fun _ => rfl) inv.active inv.cleared inv.nodup
      inv.owner hchk.toSList (inv.chain_nodup k) (fun c hc => inv.chain_sub hc) hall
      rfl List.nodup_nil (fun c hc => by cases hc) rfl
  rw [hres] at h
  simp only [Except.bind, List.nil_append] at hK h
  rcases head2 with _ | hd
  · rcases wp2 with _ | _
    · simp only [if_true, Except.map] at h
      cases h
    · simp only [Bool.true_eq_false, if_false, Except.map] at h
      cases h
  · simp only [Except.map] at h
    cases h
    -- no cell of the chain matched, so the rebuilt chain is the chain
    have hno : ∀ c ∈ chain k, (s.cells c).unregister_token ≠ some T := by
      intro c hc hct
      have : (false || (chain k).any fun c => decide ((s.cells c).unregister_token = some T))
          = true := by
        simp only [Bool.false_or, List.any_eq_true, decide_eq_true_eq]
        exact ⟨c, hc, hct⟩
      rw [← hwp] at this
      cases this
    have hf : ((chain k).filter fun c => decide ((s.cells c).unregister_token ≠ some T))
        = chain k := by
      rw [List.filter_eq_self]
      intro c hc; simpa using hno c hc
    rw [hf] at hK
    have hhd : hd = v := by
      have e1 := IsDList.head_eq hK
      have e2 := IsDList.head_eq hchk
      rw [← e2] at e1
      cases e1
      rfl
    subst hhd
    refine ⟨fun a ha => ?_, ?_⟩
    · simp only [Heap.set_key_map_cells]
      exact hkl a (ha k) (fun e => by cases e)
    · rw [Heap.set_key_map_key_map, if_pos rfl]
      congr 1
      funext k2
      unfold SimpleNumberDictionary.ValueAtPut
      by_cases hk2 : k2 = k
      · rw [if_pos hk2, hk2, hdk]
      · rw [if_neg hk2]

/-- C19 (a not-found Unregister is a no-op): in a well-formed registry, when
Unregister of a token returns false, with whatever fuel, the heap it returns
is the heap it was given: the list heads, every field of every cell,
key_list_prev and key_list_next of the walked cells included, and the key map
are as before the call. -/
theorem C19_unregister_not_found_is_noop {s : Heap} {g : Nat} {act clr : List Nat}
    {chain : Nat → List Nat} (T : Nat) (fuel : Nat) {s2 : Heap}
    (inv : Inv s g act clr chain)
    (h : JSFinalizationGroup.Unregister fuel s g T = .ok (false, s2)) : s2 = s := by
  have h2 := Unregister_mono (act.length + clr.length) h
  have hfuel : act.length + clr.length ≤ fuel + (act.length + clr.length) :=
    Nat.le_add_left _ _
  obtain ⟨hkframe, hkm⟩ := Unregister_false_frame T _ inv hfuel h2
  obtain ⟨b3, s3, hres3, inv3, hb, hsame, htgt, hframe, hgr, hhash, hnc⟩ :=
    Unregister_spec T _ inv hfuel
  rw [h2] at hres3
  cases hres3
  have hno : ∀ c ∈ act ++ clr, (s.cells c).unregister_token ≠ some T := by
    intro c hc hct
    have := hb.2 ⟨c, hc, hct⟩
    cases this
  have hfa : (act.filter fun c => decide ((s.cells c).unregister_token ≠ some T)) = act := by
    rw [List.filter_eq_self]
    intro c hc; simpa using hno c (List.mem_append_left _ hc)
  have hfc : (clr.filter fun c => decide ((s.cells c).unregister_token ≠ some T)) = clr := by
    rw [List.filter_eq_self]
    intro c hc; simpa using hno c (List.mem_append_right _ hc)
  have hfk : (fun k => (chain k).filter
      fun c => decide ((s.cells c).unregister_token ≠ some T)) = chain := by
    funext k
    rw [List.filter_eq_self]
    intro c hc; simpa using hno c (inv.chain_sub hc)
  rw [hfa, hfc, hfk] at inv3
  apply Heap.eq_of_heap_fields
  · intro a
    apply WeakCell.eq_of_cell_fields
    · exact (hsame a).2.2
    · rw [htgt a, if_neg (fun e => hno a e.1 e.2)]
    · exact (hsame a).2.1
    · by_cases ha : a ∈ act ++ clr
      · rcases List.mem_append.1 ha with h1 | h1
        · exact (IsDList.links_eq inv.active inv3.active a h1).2
        · exact (IsDList.links_eq inv.cleared inv3.cleared a h1).2
      · exact (hframe a ha).2.1
    · by_cases ha : a ∈ act ++ clr
      · rcases List.mem_append.1 ha with h1 | h1
        · exact (IsDList.links_eq inv.active inv3.active a h1).1
        · exact (IsDList.links_eq inv.cleared inv3.cleared a h1).1
      · exact (hframe a ha).1
    · exact (hsame a).1
    · by_cases ha : ∃ k, a ∈ chain k
      · obtain ⟨k, hk⟩ := ha
        exact (IsDList.links_eq (inv.chains k) (inv3.chains k) a hk).2
      · exact (hkframe a (fun k hk => ha ⟨k, hk⟩)).1
    · by_cases ha : ∃ k, a ∈ chain k
      · obtain ⟨k, hk⟩ := ha
        exact (IsDList.links_eq (inv.chains k) (inv3.chains k) a hk).1
      · exact (hkframe a (fun k hk => ha ⟨k, hk⟩)).2
  · intro g2
    by_cases hg : g2 = g
    · subst hg
      apply JSFinalizationGroup.eq_of_group_fields
      · rw [IsDList.head_eq inv3.active, IsDList.head_eq inv.active]
      · rw [IsDList.head_eq inv3.cleared, IsDList.head_eq inv.cleared]
      · exact hkm
    · exact hgr g2 hg
  · exact hhash
  · exact hnc

theorem heap4_ok : JSFinalizationGroup.Unregister 2 heap2 0 50 = .ok (true, heap4) := rfl

theorem heap4_inv : Inv heap4 0 [1] [] (fun k => if k = 7 then [1] else []) := by
  obtain ⟨b, s2, h, inv, _⟩ := Unregister_spec 50 2 heap2_inv (by decide)
  rw [heap4_ok] at h
  cases h
  have e : (fun k => (if k = 7 then [1, 0] else []).filter
      fun c => decide ((heap2.cells c).unregister_token ≠ some 50))
      = fun k => if k = 7 then [1] else [] := by
    funext k
    by_cases hk : k = 7
    · rw [if_pos hk, if_pos hk]; rfl
    · rw [if_neg hk, if_neg hk]; rfl
  rw [e] at inv
  exact inv

theorem C19_unregister_not_found_is_noop_witness :
    Inv heap4 0 [1] [] (fun k => if k = 7 then [1] else []) ∧
    JSFinalizationGroup.Unregister 2 heap4 0 50 =
      .ok (false, (okOr (false, heap0) (JSFinalizationGroup.Unregister 2 heap4 0 50)).2) ∧
    (okOr (false, heap0) (JSFinalizationGroup.Unregister 2 heap4 0 50)).2 = heap4 :=
  ⟨heap4_inv, rfl, C19_unregister_not_found_is_noop 50 2 heap4_inv rfl⟩

end V8
